import Mathlib

/-!
# A verification development for the chibicc guest code generator

Shallow embedding of `src/guest/codegen.c` (log buffer, offset pre-pass, data
and text emission), of the tail and head of `main` in `src/guest/main.c`, and
of the data declarations and the arena allocator of `src/guest/chibicc.h`.

Conventions of the embedding.

* A C byte (`char`, `unsigned char`, `uint8_t`) is a natural number; a C byte
  array is a function from indices to bytes, so writes outside a region leave
  every other index untouched, exactly as `memcpy` / `memset` do.
* C strings (`char *` names and format strings) are Lean strings; the bytes of
  a formatted text are the character codes of its characters.
* A singly linked chain of `Obj` / `Node` cells (`next` pointers) is a Lean
  list.  Other pointers to `Node` are `Option Node` (`none` is `NULL`).
* `Obj` cells are written by the pre-pass, so pointers to them that are kept
  elsewhere (`Node.var`, `Obj.params`) are positions (`ObjPtr`) in the chains
  that own the cells: the top-level chain and each function's `locals` chain.
* `int` arithmetic of the offset pre-pass wraps to 32 bits (`wrap32`).  The
  counters `depth` and `i` of `count` are unbounded integers: they move by one
  per emitted push, pop or statement, and an AST that lives in the 128 KiB
  arena cannot bring them near the bounds of `int`.
* A piece of code that can stop the process returns an `Outcome`: `ok` with the
  new state, or `fail` with the reason and the state reached.
* `size_t` and `uintptr_t` arithmetic of the arena wraps to `w` bits, for a
  width `w` that is a parameter; the address of the pool is a parameter too,
  and pointers into the pool are addresses.
-/

namespace Chibicc

/-! ## Bytes and byte arrays -/

/-- One C byte. -/
abbrev Byte := Nat

/-- A C byte array, indexed from zero. -/
abbrev Bytes := Nat → Byte

/-- C `memcpy(dst + off, src, n)`. -/
def memcpy (dst : Bytes) (off : Nat) (src : Bytes) (n : Nat) : Bytes :=
  fun i => if off ≤ i ∧ i < off + n then src (i - off) else dst i

/-- C `memset(dst + off, v, n)`. -/
def memset (dst : Bytes) (off : Nat) (v : Byte) (n : Nat) : Bytes :=
  fun i => if off ≤ i ∧ i < off + n then v else dst i

/-- The first `n` bytes of an array, as a list. -/
def Bytes.firstN (b : Bytes) (n : Nat) : List Byte :=
  (List.range n).map b

/-- The bytes of a text. -/
def str_bytes (s : String) : List Byte :=
  s.toList.map Char.toNat

/-! ## The codegen log buffer (`codegen.c`, lines 10-46) -/

/-- The value of `sizeof(__cg_buf)`: `64 * 1024`. -/
def CG_BUF_SIZE : Nat := 64 * 1024

/-- The value of `sizeof(tmp)` in `__cg_vprint`. -/
def TMP_SIZE : Nat := 1024

/-- The two statics `__cg_buf` and `__cg_len`. -/
structure CgLog where
  __cg_buf : Bytes
  __cg_len : Nat

/-- The function `__cg_append_bytes(src, n)`. -/
def __cg_append_bytes (log : CgLog) (src : Bytes) (n : Nat) : CgLog :=
  if n = 0 then log
  else
    let remaining := CG_BUF_SIZE - log.__cg_len
    let to_copy := if n < remaining then n else remaining
    if to_copy ≠ 0 then
      { __cg_buf := memcpy log.__cg_buf log.__cg_len src to_copy,
        __cg_len := log.__cg_len + to_copy }
    else log

/-- An argument of a `printf`-style call. -/
inductive FmtArg where
  | int (d : Int)
  | str (s : String)
deriving DecidableEq, Repr

/-- The text a `printf` format produces, for the conversions the code generator
uses: `%d` (an `int` in decimal), `%s` (a string) and `%%`. -/
def vformat : List Char → List FmtArg → List Char
  | '%' :: '%' :: rest, args => '%' :: vformat rest args
  | '%' :: 'd' :: rest, FmtArg.int d :: args => (toString d).toList ++ vformat rest args
  | '%' :: 's' :: rest, FmtArg.str s :: args => s.toList ++ vformat rest args
  | c :: rest, args => c :: vformat rest args
  | [], _ => []

/-- C `vsnprintf(tmp, size, fmt, ap)`: the array holds the first `size - 1`
bytes of the text followed by a NUL; the result is the length of the whole
text. -/
def vsnprintf (size : Nat) (fmt : String) (args : List FmtArg) : Bytes × Nat :=
  let text := (vformat fmt.toList args).map Char.toNat
  (fun i => (text.take (size - 1)).getD i 0, text.length)

/-- The function `__cg_vprint(fmt, ap)`. -/
def __cg_vprint (log : CgLog) (fmt : String) (args : List FmtArg) : CgLog :=
  let (tmp, written) := vsnprintf TMP_SIZE fmt args
  if written = 0 then log
  else
    let n := if written ≥ TMP_SIZE then TMP_SIZE - 1 else written
    __cg_append_bytes log tmp n

/-- The function `cg_log_size`. -/
def cg_log_size (log : CgLog) : Nat := log.__cg_len

/-- The function `cg_log_buffer`. -/
def cg_log_buffer (log : CgLog) : Bytes := log.__cg_buf

/-- The valid bytes of the log: the first `__cg_len` bytes of `__cg_buf`. -/
def CgLog.contents (log : CgLog) : List Byte :=
  log.__cg_buf.firstN log.__cg_len

/-! ## Data declarations (`chibicc.h`) -/

/-- The enumeration `TypeKind`. -/
inductive TypeKind where
  | TY_CHAR
  | TY_INT
  | TY_PTR
  | TY_FUNC
  | TY_ARRAY
deriving DecidableEq, Repr

/-- The record `struct Type`, with the members the code generator and its
claims use: `kind`, `size`, `base` and `array_len`. -/
structure CType where
  kind : TypeKind
  size : Int
  base : Option CType
  array_len : Int

/-- The enumeration `NodeKind`. -/
inductive NodeKind where
  | ND_ADD
  | ND_SUB
  | ND_MUL
  | ND_DIV
  | ND_NEG
  | ND_EQ
  | ND_NE
  | ND_LT
  | ND_LE
  | ND_ASSIGN
  | ND_ADDR
  | ND_DEREF
  | ND_RETURN
  | ND_IF
  | ND_FOR
  | ND_BLOCK
  | ND_FUNCALL
  | ND_EXPR_STMT
  | ND_VAR
  | ND_NUM
deriving DecidableEq, Repr

/-- A pointer to an `Obj` cell: the position of the cell in the chain that owns
it.  `top i` is the `i`-th cell of the top-level chain, `loc f j` the `j`-th
cell of the `locals` chain of the `f`-th top-level cell.  A position past the
end of its chain is the chain's terminating `NULL`. -/
inductive ObjPtr where
  | top (i : Nat)
  | loc (f j : Nat)
deriving DecidableEq, Repr

/-- The record `struct Node`.  The `next` link is the list structure of `body`
and `args`; the token `tok` (diagnostics only) is left out. -/
structure Node where
  kind : NodeKind
  ty : Option CType
  lhs : Option Node
  rhs : Option Node
  cond : Option Node
  then_ : Option Node
  els : Option Node
  init : Option Node
  inc : Option Node
  body : List Node
  funcname : String
  args : List Node
  var : Option ObjPtr
  val : Int

/-- The record `struct Obj`.  The `next` link is the list structure of the
chain the cell is in; `init_data` is a `char` array (`none` is `NULL`). -/
structure Obj where
  name : String
  ty : CType
  is_local : Bool
  offset : Int
  is_function : Bool
  init_data : Option (Nat → Int)
  params : Option ObjPtr
  body : Option Node
  locals : List Obj
  stack_size : Int

/-- The cell a pointer designates, if any. -/
def ObjPtr.deref (heap : List Obj) : ObjPtr → Option Obj
  | ObjPtr.top i => heap[i]?
  | ObjPtr.loc f j =>
    match heap[f]? with
    | none => none
    | some fn => fn.locals[j]?

/-- The chain of cells reached from a pointer by following `next`. -/
def obj_chain (heap : List Obj) : Option ObjPtr → List Obj
  | none => []
  | some (ObjPtr.top i) => heap.drop i
  | some (ObjPtr.loc f j) =>
    match heap[f]? with
    | none => []
    | some fn => fn.locals.drop j

/-! ## Code generator state (`codegen.c`) -/

/-- One call of `cg_log_print`: its format and its arguments. -/
structure PrintCall where
  fmt : String
  args : List FmtArg
deriving DecidableEq, Repr

/-- The statics of `codegen.c`: the log, `depth`, `current_fn` and the counter
`i` of `count`.  `trace` is a ghost member, absent from the C program: the
calls of `cg_log_print` since the last `cg_log_reset`, in order. -/
structure CgState where
  log : CgLog
  depth : Int
  current_fn : Option Obj
  count_i : Int
  trace : List PrintCall

/-- The statics as the C initialisers leave them at process start. -/
def CgState.initial : CgState :=
  { log := { __cg_buf := fun _ => 0, __cg_len := 0 },
    depth := 0,
    current_fn := none,
    count_i := 1,
    trace := [] }

/-- The ways the code generator stops the process.  The first three are the
`error_tok` calls; `null_pointer` is a dereference of `NULL`, `out_of_bounds` a
read past the end of `argreg8` / `argreg64`, `assert_failed` the failure of
`assert(depth == 0)`. -/
inductive CgError where
  | not_an_lvalue
  | invalid_expression
  | invalid_statement
  | null_pointer
  | out_of_bounds
  | assert_failed
deriving DecidableEq, Repr

/-- The result of running a fallible piece of the code generator: it returns
with a new state, or it stops the process in a state. -/
inductive Outcome where
  | ok (s : CgState)
  | fail (e : CgError) (s : CgState)

/-- Sequencing: run `f` after a piece that returned. -/
def Outcome.andThen : Outcome → (CgState → Outcome) → Outcome
  | Outcome.ok s, f => f s
  | Outcome.fail e s, _ => Outcome.fail e s

/-- The state an outcome ends in. -/
def Outcome.state : Outcome → CgState
  | Outcome.ok s => s
  | Outcome.fail _ s => s

/-- Whether the piece returned. -/
def Outcome.isOk : Outcome → Bool
  | Outcome.ok _ => true
  | Outcome.fail _ _ => false

/-- The function `cg_log_print(fmt, ...)`. -/
def cg_log_print (fmt : String) (args : List FmtArg) (s : CgState) : CgState :=
  { s with log := __cg_vprint s.log fmt args, trace := s.trace ++ [⟨fmt, args⟩] }

/-- The function `cg_log_reset`. -/
def cg_log_reset (s : CgState) : CgState :=
  { s with log := { s.log with __cg_len := 0 }, trace := [] }

/-- The function `count`: returns the counter and increments it. -/
def count (s : CgState) : Int × CgState :=
  (s.count_i, { s with count_i := s.count_i + 1 })

/-- The function `push`. -/
def push (s : CgState) : CgState :=
  let s := cg_log_print "  push %%rax\n" [] s
  { s with depth := s.depth + 1 }

/-- The function `pop(arg)`. -/
def pop (arg : String) (s : CgState) : CgState :=
  let s := cg_log_print "  pop %s\n" [FmtArg.str arg] s
  { s with depth := s.depth - 1 }

/-- The table `argreg8`. -/
def argreg8 : List String := ["%dil", "%sil", "%dl", "%cl", "%r8b", "%r9b"]

/-- The table `argreg64`. -/
def argreg64 : List String := ["%rdi", "%rsi", "%rdx", "%rcx", "%r8", "%r9"]

/-- Reduction of a mathematical integer to the 32-bit two's-complement `int`. -/
def wrap32 (x : Int) : Int :=
  (x + 2 ^ 31) % 2 ^ 32 - 2 ^ 31

/-- The function `align_to(n, align)`: `(n + align - 1) / align * align` in
`int` arithmetic (division truncates toward zero). -/
def align_to (n align : Int) : Int :=
  wrap32 (wrap32 (Int.tdiv (wrap32 (wrap32 (n + align) - 1)) align) * align)

/-- The function `load(ty)`. -/
def load (ty : Option CType) (s : CgState) : Outcome :=
  match ty with
  | none => Outcome.fail CgError.null_pointer s
  | some ty =>
    if ty.kind = TypeKind.TY_ARRAY then Outcome.ok s
    else if ty.size = 1 then Outcome.ok (cg_log_print "  movsbq (%%rax), %%rax\n" [] s)
    else Outcome.ok (cg_log_print "  mov (%%rax), %%rax\n" [] s)

/-- The function `store(ty)`. -/
def store (ty : Option CType) (s : CgState) : Outcome :=
  let s := pop "%rdi" s
  match ty with
  | none => Outcome.fail CgError.null_pointer s
  | some ty =>
    if ty.size = 1 then Outcome.ok (cg_log_print "  mov %%al, (%%rdi)\n" [] s)
    else Outcome.ok (cg_log_print "  mov %%rax, (%%rdi)\n" [] s)

/-! ## Expressions (`codegen.c`, lines 69-201) -/

/-- The `case ND_VAR` arm of `gen_addr`, on the `var` member of the node. -/
def gen_addr_var (heap : List Obj) (var : Option ObjPtr) (s : CgState) : Outcome :=
  match var with
  | none => Outcome.fail CgError.null_pointer s
  | some p =>
    match p.deref heap with
    | none => Outcome.fail CgError.null_pointer s
    | some v =>
      if v.is_local then
        Outcome.ok (cg_log_print "  lea %d(%%rbp), %%rax\n" [FmtArg.int v.offset] s)
      else
        Outcome.ok (cg_log_print "  lea %s(%%rip), %%rax\n" [FmtArg.str v.name] s)

/-- The loop `for (int i = nargs - 1; i >= 0; i--) pop(argreg64[i]);`. -/
def pop_args : Nat → CgState → Outcome
  | 0, s => Outcome.ok s
  | i + 1, s =>
    match argreg64[i]? with
    | none => Outcome.fail CgError.out_of_bounds s
    | some reg => pop_args i (pop reg s)

/-- The second `switch` of `gen_expr`, after both operands have been emitted. -/
def gen_binop (kind : NodeKind) (s : CgState) : Outcome :=
  match kind with
  | NodeKind.ND_ADD => Outcome.ok (cg_log_print "  add %%rdi, %%rax\n" [] s)
  | NodeKind.ND_SUB => Outcome.ok (cg_log_print "  sub %%rdi, %%rax\n" [] s)
  | NodeKind.ND_MUL => Outcome.ok (cg_log_print "  imul %%rdi, %%rax\n" [] s)
  | NodeKind.ND_DIV =>
    let s := cg_log_print "  cqo\n" [] s
    Outcome.ok (cg_log_print "  idiv %%rdi\n" [] s)
  | NodeKind.ND_EQ =>
    let s := cg_log_print "  cmp %%rdi, %%rax\n" [] s
    let s := cg_log_print "  sete %%al\n" [] s
    Outcome.ok (cg_log_print "  movzb %%al, %%rax\n" [] s)
  | NodeKind.ND_NE =>
    let s := cg_log_print "  cmp %%rdi, %%rax\n" [] s
    let s := cg_log_print "  setne %%al\n" [] s
    Outcome.ok (cg_log_print "  movzb %%al, %%rax\n" [] s)
  | NodeKind.ND_LT =>
    let s := cg_log_print "  cmp %%rdi, %%rax\n" [] s
    let s := cg_log_print "  setl %%al\n" [] s
    Outcome.ok (cg_log_print "  movzb %%al, %%rax\n" [] s)
  | NodeKind.ND_LE =>
    let s := cg_log_print "  cmp %%rdi, %%rax\n" [] s
    let s := cg_log_print "  setle %%al\n" [] s
    Outcome.ok (cg_log_print "  movzb %%al, %%rax\n" [] s)
  | _ => Outcome.fail CgError.invalid_expression s

mutual
/-- The function `gen_addr(node)`. -/
def gen_addr (heap : List Obj) : Node → CgState → Outcome
  | Node.mk kind _ lhs _ _ _ _ _ _ _ _ _ var _, s =>
    match kind with
    | NodeKind.ND_VAR => gen_addr_var heap var s
    | NodeKind.ND_DEREF => gen_expr_ptr heap lhs s
    | _ => Outcome.fail CgError.not_an_lvalue s
/-- The function `gen_expr(node)`.  In the `ND_VAR` arm the call
`gen_addr(node)` is the `ND_VAR` arm of `gen_addr` (`gen_addr_var`). -/
def gen_expr (heap : List Obj) : Node → CgState → Outcome
  | Node.mk kind ty lhs rhs _ _ _ _ _ _ funcname args var val, s =>
    match kind with
    | NodeKind.ND_NUM =>
      Outcome.ok (cg_log_print "  mov $%d, %%rax\n" [FmtArg.int val] s)
    | NodeKind.ND_NEG =>
      (gen_expr_ptr heap lhs s).andThen fun s =>
      Outcome.ok (cg_log_print "  neg %%rax\n" [] s)
    | NodeKind.ND_VAR =>
      (gen_addr_var heap var s).andThen fun s =>
      load ty s
    | NodeKind.ND_DEREF =>
      (gen_expr_ptr heap lhs s).andThen fun s =>
      load ty s
    | NodeKind.ND_ADDR =>
      gen_addr_ptr heap lhs s
    | NodeKind.ND_ASSIGN =>
      (gen_addr_ptr heap lhs s).andThen fun s =>
      (gen_expr_ptr heap rhs (push s)).andThen fun s =>
      store ty s
    | NodeKind.ND_FUNCALL =>
      (gen_args heap args s).andThen fun s =>
      (pop_args args.length s).andThen fun s =>
      let s := cg_log_print "  mov $0, %%rax\n" [] s
      Outcome.ok (cg_log_print "  call %s\n" [FmtArg.str funcname] s)
    | _ =>
      (gen_expr_ptr heap rhs s).andThen fun s =>
      (gen_expr_ptr heap lhs (push s)).andThen fun s =>
      gen_binop kind (pop "%rdi" s)
/-- The call `gen_addr(p)` on a pointer: `NULL` cannot be dereferenced. -/
def gen_addr_ptr (heap : List Obj) : Option Node → CgState → Outcome
  | none, s => Outcome.fail CgError.null_pointer s
  | some node, s => gen_addr heap node s
/-- The call `gen_expr(p)` on a pointer: `NULL` cannot be dereferenced. -/
def gen_expr_ptr (heap : List Obj) : Option Node → CgState → Outcome
  | none, s => Outcome.fail CgError.null_pointer s
  | some node, s => gen_expr heap node s
/-- The loop over `node->args` in the `ND_FUNCALL` arm: `gen_expr(arg); push();`
for each argument (`nargs` ends as the length of the chain). -/
def gen_args (heap : List Obj) : List Node → CgState → Outcome
  | [], s => Outcome.ok s
  | arg :: rest, s =>
    (gen_expr heap arg s).andThen fun s =>
    gen_args heap rest (push s)
end

/-! ## Statements (`codegen.c`, lines 203-249) -/

/-- The optional condition of `ND_FOR`: `if (node->cond) { ... }`. -/
def gen_for_cond (heap : List Obj) (cond : Option Node) (c : Int) (s : CgState) : Outcome :=
  match cond with
  | none => Outcome.ok s
  | some e =>
    (gen_expr heap e s).andThen fun s =>
    let s := cg_log_print "  cmp $0, %%rax\n" [] s
    Outcome.ok (cg_log_print "  je  .L.end.%d\n" [FmtArg.int c] s)

/-- The optional increment of `ND_FOR`: `if (node->inc) gen_expr(node->inc);`. -/
def gen_for_inc (heap : List Obj) (inc : Option Node) (s : CgState) : Outcome :=
  match inc with
  | none => Outcome.ok s
  | some e => gen_expr heap e s

/-- The tail of the `ND_RETURN` arm: `jmp .L.return.%s` on `current_fn->name`. -/
def gen_return_jmp (s : CgState) : Outcome :=
  match s.current_fn with
  | none => Outcome.fail CgError.null_pointer s
  | some fn => Outcome.ok (cg_log_print "  jmp .L.return.%s\n" [FmtArg.str fn.name] s)

mutual
/-- The function `gen_stmt(node)`. -/
def gen_stmt (heap : List Obj) : Node → CgState → Outcome
  | Node.mk kind _ lhs _ cond then_ els init inc body _ _ _ _, s =>
    match kind with
    | NodeKind.ND_IF =>
      let c := (count s).1
      let s := (count s).2
      (gen_expr_ptr heap cond s).andThen fun s =>
      let s := cg_log_print "  cmp $0, %%rax\n" [] s
      let s := cg_log_print "  je  .L.else.%d\n" [FmtArg.int c] s
      (gen_stmt_ptr heap then_ s).andThen fun s =>
      let s := cg_log_print "  jmp .L.end.%d\n" [FmtArg.int c] s
      let s := cg_log_print ".L.else.%d:\n" [FmtArg.int c] s
      (gen_stmt_opt heap els s).andThen fun s =>
      Outcome.ok (cg_log_print ".L.end.%d:\n" [FmtArg.int c] s)
    | NodeKind.ND_FOR =>
      let c := (count s).1
      let s := (count s).2
      (gen_stmt_opt heap init s).andThen fun s =>
      let s := cg_log_print ".L.begin.%d:\n" [FmtArg.int c] s
      (gen_for_cond heap cond c s).andThen fun s =>
      (gen_stmt_ptr heap then_ s).andThen fun s =>
      (gen_for_inc heap inc s).andThen fun s =>
      let s := cg_log_print "  jmp .L.begin.%d\n" [FmtArg.int c] s
      Outcome.ok (cg_log_print ".L.end.%d:\n" [FmtArg.int c] s)
    | NodeKind.ND_BLOCK =>
      gen_stmt_list heap body s
    | NodeKind.ND_RETURN =>
      (gen_expr_ptr heap lhs s).andThen fun s =>
      gen_return_jmp s
    | NodeKind.ND_EXPR_STMT =>
      gen_expr_ptr heap lhs s
    | _ => Outcome.fail CgError.invalid_statement s
/-- The call `gen_stmt(p)` on a pointer: `NULL` cannot be dereferenced. -/
def gen_stmt_ptr (heap : List Obj) : Option Node → CgState → Outcome
  | none, s => Outcome.fail CgError.null_pointer s
  | some node, s => gen_stmt heap node s
/-- The guarded call `if (p) gen_stmt(p);`. -/
def gen_stmt_opt (heap : List Obj) : Option Node → CgState → Outcome
  | none, s => Outcome.ok s
  | some node, s => gen_stmt heap node s
/-- The loop `for (Node *n = node->body; n; n = n->next) gen_stmt(n);`. -/
def gen_stmt_list (heap : List Obj) : List Node → CgState → Outcome
  | [], s => Outcome.ok s
  | n :: rest, s =>
    (gen_stmt heap n s).andThen fun s =>
    gen_stmt_list heap rest s
end

/-! ## Pre-pass, data and text sections, `codegen` (`codegen.c`, lines 251-325) -/

/-- The inner loop of `assign_lvar_offsets` over one `locals` chain, entered
with the running value of `offset`: the updated chain and the final `offset`. -/
def assign_offsets_chain : Int → List Obj → List Obj × Int
  | offset, [] => ([], offset)
  | offset, var :: rest =>
    let offset := wrap32 (offset + var.ty.size)
    let var := { var with offset := wrap32 (-offset) }
    let r := assign_offsets_chain offset rest
    (var :: r.1, r.2)

/-- The function `assign_lvar_offsets(prog)`. -/
def assign_lvar_offsets : List Obj → List Obj
  | [] => []
  | fn :: rest =>
    if !fn.is_function then fn :: assign_lvar_offsets rest
    else
      let r := assign_offsets_chain 0 fn.locals
      { fn with locals := r.1, stack_size := align_to r.2 16 } :: assign_lvar_offsets rest

/-- One pass of the outer loop of `assign_lvar_offsets`, on one cell. -/
def assign_fn (fn : Obj) : Obj :=
  if !fn.is_function then fn
  else
    let r := assign_offsets_chain 0 fn.locals
    { fn with locals := r.1, stack_size := align_to r.2 16 }

/-- The loop `for (int i = 0; i < var->ty->size; i++)` of `emit_data`. -/
def emit_init_data (init_data : Nat → Int) (size : Int) (s : CgState) : CgState :=
  (List.range size.toNat).foldl
    (fun s i => cg_log_print "  .byte %d\n" [FmtArg.int (init_data i)] s) s

/-- The function `emit_data(prog)`. -/
def emit_data : List Obj → CgState → CgState
  | [], s => s
  | var :: rest, s =>
    if var.is_function then emit_data rest s
    else
      let s := cg_log_print "  .data\n" [] s
      let s := cg_log_print "  .globl %s\n" [FmtArg.str var.name] s
      let s := cg_log_print "%s:\n" [FmtArg.str var.name] s
      match var.init_data with
      | some init_data => emit_data rest (emit_init_data init_data var.ty.size s)
      | none => emit_data rest (cg_log_print "  .zero %d\n" [FmtArg.int var.ty.size] s)

/-- The parameter loop of `emit_text`, entered with the running index `i`. -/
def emit_params : Nat → List Obj → CgState → Outcome
  | _, [], s => Outcome.ok s
  | i, var :: rest, s =>
    if var.ty.size = 1 then
      match argreg8[i]? with
      | none => Outcome.fail CgError.out_of_bounds s
      | some reg =>
        emit_params (i + 1) rest
          (cg_log_print "  mov %s, %d(%%rbp)\n" [FmtArg.str reg, FmtArg.int var.offset] s)
    else
      match argreg64[i]? with
      | none => Outcome.fail CgError.out_of_bounds s
      | some reg =>
        emit_params (i + 1) rest
          (cg_log_print "  mov %s, %d(%%rbp)\n" [FmtArg.str reg, FmtArg.int var.offset] s)

/-- Lines 289-297 of `emit_text`: the header of a function, the assignment to
`current_fn` and the prologue. -/
def emit_prologue (fn : Obj) (s : CgState) : CgState :=
  let s := cg_log_print "  .globl %s\n" [FmtArg.str fn.name] s
  let s := cg_log_print "  .text\n" [] s
  let s := cg_log_print "%s:\n" [FmtArg.str fn.name] s
  let s := { s with current_fn := some fn }
  let s := cg_log_print "  push %%rbp\n" [] s
  let s := cg_log_print "  mov %%rsp, %%rbp\n" [] s
  cg_log_print "  sub $%d, %%rsp\n" [FmtArg.int fn.stack_size] s

/-- Lines 312-316 of `emit_text`: the epilogue of a function. -/
def emit_epilogue (fn : Obj) (s : CgState) : CgState :=
  let s := cg_log_print ".L.return.%s:\n" [FmtArg.str fn.name] s
  let s := cg_log_print "  mov %%rbp, %%rsp\n" [] s
  let s := cg_log_print "  pop %%rbp\n" [] s
  cg_log_print "  ret\n" [] s

/-- The loop of `emit_text` over the rest of the top-level chain; `heap` is the
whole chain, through which pointers are followed. -/
def emit_text_loop (heap : List Obj) : List Obj → CgState → Outcome
  | [], s => Outcome.ok s
  | fn :: rest, s =>
    if !fn.is_function then emit_text_loop heap rest s
    else
      let s := emit_prologue fn s
      (emit_params 0 (obj_chain heap fn.params) s).andThen fun s =>
      (gen_stmt_ptr heap fn.body s).andThen fun s =>
      if s.depth ≠ 0 then Outcome.fail CgError.assert_failed s
      else emit_text_loop heap rest (emit_epilogue fn s)

/-- The function `emit_text(prog)`. -/
def emit_text (prog : List Obj) (s : CgState) : Outcome :=
  emit_text_loop prog prog s

/-- The function `codegen(prog)`: the top-level chain as the pre-pass leaves it,
and the outcome of the emission. -/
def codegen (prog : List Obj) (s : CgState) : List Obj × Outcome :=
  let s := cg_log_reset s
  let prog := assign_lvar_offsets prog
  let s := emit_data prog s
  (prog, emit_text prog s)

/-! ## The guest entry point (`main.c`) -/

/-- The value of `sizeof(in_buffer)`. -/
def IN_BUFFER_SIZE : Nat := 256 * 1

/-- The value of `sizeof(out_buffer)`. -/
def OUT_BUFFER_SIZE : Nat := 256 * 16

/-- Lines 33-39 of `main`: `in_buffer` and `read_len` are the array and the
length as `env_read` left them; the result is the array handed to `tokenize`
and the clamped length. -/
def main_read_input (in_buffer : Bytes) (read_len : Nat) : Bytes × Nat :=
  let read_len := if read_len ≥ IN_BUFFER_SIZE then IN_BUFFER_SIZE - 1 else read_len
  let in_buffer : Bytes := fun i => if i = read_len then 0 else in_buffer i
  let in_buffer :=
    if read_len + 1 < IN_BUFFER_SIZE then
      memset in_buffer (read_len + 1) 0 (IN_BUFFER_SIZE - (read_len + 1))
    else in_buffer
  (in_buffer, read_len)

/-- Lines 49-62 of `main`: `out_buffer` is the uninitialised array; the result
is the array and the length passed to `env_commit`. -/
def main_journal (out_buffer in_buffer : Bytes) (log : CgLog) : Bytes × Nat :=
  let out_buffer := memset out_buffer 0 0 OUT_BUFFER_SIZE
  let out_buffer := memcpy out_buffer 0 in_buffer IN_BUFFER_SIZE
  let cg_buf := cg_log_buffer log
  let cg_len := cg_log_size log
  let remaining := OUT_BUFFER_SIZE - IN_BUFFER_SIZE
  let cg_len := if cg_len > remaining then remaining else cg_len
  let out_buffer := memcpy out_buffer IN_BUFFER_SIZE cg_buf cg_len
  let journal_len := IN_BUFFER_SIZE + cg_len
  (out_buffer, journal_len)

/-- The function `main`.  `in_buffer` and `read_len` are what `env_read` left,
`out_buffer` the uninitialised output array, and `front_end` stands for
`parse(tokenize(in_buffer))`, which is not part of these sources (`none` when it
stops the process).  The result is the journal passed to `env_commit`, if the
process gets there. -/
def main (in_buffer : Bytes) (read_len : Nat) (front_end : Bytes → Option (List Obj))
    (out_buffer : Bytes) : Option (Bytes × Nat) :=
  let r := main_read_input in_buffer read_len
  match front_end r.1 with
  | none => none
  | some prog =>
    match (codegen prog CgState.initial).2 with
    | Outcome.fail _ _ => none
    | Outcome.ok s => some (main_journal out_buffer r.1 s.log)

/-! ## The arena (`chibicc.h`, lines 194-232) -/

/-- The value of `sizeof(__arena_buffer)`: `128 * 1024`. -/
def ARENA_SIZE : Nat := 128 * 1024

/-- Addition of two `w`-bit unsigned integers (`size_t`, `uintptr_t`). -/
def uadd (w x y : Nat) : Nat := (x + y) % 2 ^ w

/-- Subtraction of two `w`-bit unsigned integers. -/
def usub (w x y : Nat) : Nat := (x + 2 ^ w - y) % 2 ^ w

/-- Multiplication of two `w`-bit unsigned integers. -/
def umul (w x y : Nat) : Nat := (x * y) % 2 ^ w

/-- Bitwise complement of a `w`-bit unsigned integer. -/
def unot (w x : Nat) : Nat := 2 ^ w - 1 - x

/-- The statics `__arena_buffer` and `__arena_offset`.  The array is indexed
from its first byte. -/
structure Arena where
  __arena_buffer : Bytes
  __arena_offset : Nat

/-- The function `__arena_alloc(size, align, zero_init)`.  `w` is the width in
bits of `size_t` and `uintptr_t`, `base` the address of `__arena_buffer`.  The
result is `none` when the process exits, and otherwise the pointer returned and
the statics; the bytes of the block are those of the array from index
`ptr - base`. -/
def __arena_alloc (w base : Nat) (a : Arena) (size align : Nat) (zero_init : Bool) :
    Option (Nat × Arena) :=
  let curr := uadd w base a.__arena_offset
  let aligned := uadd w curr (usub w align 1) &&& unot w (usub w align 1)
  let padding := usub w aligned curr
  if uadd w aligned size > uadd w base ARENA_SIZE then none
  else
    let offset := uadd w a.__arena_offset (uadd w padding size)
    let ptr := aligned
    let buffer :=
      if zero_init then memset a.__arena_buffer (ptr - base) 0 size else a.__arena_buffer
    some (ptr, { __arena_buffer := buffer, __arena_offset := offset })

/-- The function `xcalloc(n, size)`. -/
def xcalloc (w base : Nat) (a : Arena) (n size : Nat) : Option (Nat × Arena) :=
  let total := umul w n size
  __arena_alloc w base a total 8 true

/-- The function `xstrndup(s, n)`. -/
def xstrndup (w base : Nat) (a : Arena) (s : Bytes) (n : Nat) : Option (Nat × Arena) :=
  match __arena_alloc w base a (uadd w n 1) 1 false with
  | none => none
  | some (p, a) =>
    let buffer := memcpy a.__arena_buffer (p - base) s n
    let buffer : Bytes := fun i => if i = p - base + n then 0 else buffer i
    some (p, { a with __arena_buffer := buffer })

/-! ## Vocabulary of the claims about the pre-pass -/

/-- The largest `int`. -/
def INT_MAX : Int := 2 ^ 31 - 1

/-- The sum of `ty->size` over a chain of cells. -/
def total_size (locals : List Obj) : Int :=
  (locals.map fun v => v.ty.size).sum

/-- The sum of `ty->size` over the cells at positions `0 .. k` of a chain,
position `k` included. -/
def running_size (locals : List Obj) (k : Nat) : Int :=
  total_size (locals.take (k + 1))

/-- No size of the chain is negative and the pre-pass stays within `int`:
the total plus the 16 that `align_to` adds first is at most `INT_MAX`. -/
def SizesInRange (locals : List Obj) : Prop :=
  (∀ v ∈ locals, 0 ≤ v.ty.size) ∧ total_size locals + 16 ≤ INT_MAX

/-- The element alignment of a type, in the words of the specification: 1 for
`char`, 8 for `int` and pointers, that of the element type for an array. -/
def elem_align : CType → Int
  | CType.mk TypeKind.TY_CHAR _ _ _ => 1
  | CType.mk TypeKind.TY_INT _ _ _ => 8
  | CType.mk TypeKind.TY_PTR _ _ _ => 8
  | CType.mk TypeKind.TY_ARRAY _ (some base) _ => elem_align base
  | CType.mk TypeKind.TY_ARRAY _ none _ => 1
  | CType.mk TypeKind.TY_FUNC _ _ _ => 1

/-- Modelled from the spec: the shared type `ty_char` of `type.c` (size 1). -/
def ty_char : CType :=
  { kind := TypeKind.TY_CHAR, size := 1, base := none, array_len := 0 }

/-- Modelled from the spec: the shared type `ty_int` of `type.c` (size 8). -/
def ty_int : CType :=
  { kind := TypeKind.TY_INT, size := 8, base := none, array_len := 0 }

/-- Modelled from the spec: the constructor `pointer_to` of `type.c`. -/
def pointer_to (base : CType) : CType :=
  { kind := TypeKind.TY_PTR, size := 8, base := some base, array_len := 0 }

/-- Modelled from the spec: the constructor `array_of` of `type.c`. -/
def array_of (base : CType) (len : Int) : CType :=
  { kind := TypeKind.TY_ARRAY, size := base.size * len, base := some base, array_len := len }

/-! ## Cells and nodes as `calloc` leaves them, for concrete programs -/

/-- A node as `calloc` leaves it, with its kind set. -/
def Node.zeroed (kind : NodeKind) : Node :=
  { kind := kind, ty := none, lhs := none, rhs := none, cond := none, then_ := none,
    els := none, init := none, inc := none, body := [], funcname := "", args := [],
    var := none, val := 0 }

/-- A cell as `calloc` leaves it, with its name and type set. -/
def Obj.zeroed (name : String) (ty : CType) : Obj :=
  { name := name, ty := ty, is_local := false, offset := 0, is_function := false,
    init_data := none, params := none, body := none, locals := [], stack_size := 0 }

/-- A local variable cell. -/
def Obj.lvar (name : String) (ty : CType) : Obj :=
  { Obj.zeroed name ty with is_local := true }

/-- A function cell with the given `locals` chain and body. -/
def Obj.func (name : String) (locals : List Obj) (body : Node) : Obj :=
  { Obj.zeroed name ty_int with is_function := true, locals := locals, body := some body }

/-- The locals of `int main() { int a[0]; int b[0]; }`: two arrays of length 0. -/
def prog_zero_arrays : List Obj :=
  [Obj.func "main" [Obj.lvar "a" (array_of ty_int 0), Obj.lvar "b" (array_of ty_int 0)]
    (Node.zeroed NodeKind.ND_BLOCK)]

/-- The locals of `int main() { char c; int x; }`. -/
def prog_char_int : List Obj :=
  [Obj.func "main" [Obj.lvar "c" ty_char, Obj.lvar "x" ty_int]
    (Node.zeroed NodeKind.ND_BLOCK)]

/-- The function cell of `int main() { int a; int *p; int b[3]; }`. -/
def fn_three_locals : Obj :=
  Obj.func "main"
    [Obj.lvar "a" ty_int, Obj.lvar "p" (pointer_to ty_int), Obj.lvar "b" (array_of ty_int 3)]
    (Node.zeroed NodeKind.ND_BLOCK)

/-- A global `char s[4];` followed by the function `fn_three_locals`. -/
def prog_three_locals : List Obj :=
  [Obj.zeroed "s" (array_of ty_char 4), fn_three_locals]

/-! ## Vocabulary of the claims about labels -/

/-- A control-flow label of the emitted assembly: `.L.else.c`, `.L.begin.c`,
`.L.end.c` or `.L.return.NAME`. -/
inductive Label where
  | else_ (c : Int)
  | begin_ (c : Int)
  | end_ (c : Int)
  | ret (name : String)
deriving DecidableEq, Repr

/-- The label a print call defines, if it is one of the four label-definition
lines of `gen_stmt` and `emit_text`. -/
def label_def (p : PrintCall) : Option Label :=
  match p.fmt, p.args with
  | ".L.else.%d:\n", [FmtArg.int c] => some (Label.else_ c)
  | ".L.begin.%d:\n", [FmtArg.int c] => some (Label.begin_ c)
  | ".L.end.%d:\n", [FmtArg.int c] => some (Label.end_ c)
  | ".L.return.%s:\n", [FmtArg.str name] => some (Label.ret name)
  | _, _ => none

/-- The label a print call jumps to, if it is one of the `je` / `jmp` lines of
`gen_stmt`. -/
def jump_target (p : PrintCall) : Option Label :=
  match p.fmt, p.args with
  | "  je  .L.else.%d\n", [FmtArg.int c] => some (Label.else_ c)
  | "  jmp .L.end.%d\n", [FmtArg.int c] => some (Label.end_ c)
  | "  je  .L.end.%d\n", [FmtArg.int c] => some (Label.end_ c)
  | "  jmp .L.begin.%d\n", [FmtArg.int c] => some (Label.begin_ c)
  | "  jmp .L.return.%s\n", [FmtArg.str name] => some (Label.ret name)
  | _, _ => none

/-- The labels defined in a sequence of print calls, in order. -/
def defined_labels (trace : List PrintCall) : List Label :=
  trace.filterMap label_def

/-- The labels jumped to in a sequence of print calls, in order. -/
def jump_targets (trace : List PrintCall) : List Label :=
  trace.filterMap jump_target

/-- Whether a label is one of the numbered ones, and its number. -/
def Label.number : Label → Option Int
  | Label.else_ c => some c
  | Label.begin_ c => some c
  | Label.end_ c => some c
  | Label.ret _ => none

mutual
/-- The number of `ND_IF` / `ND_FOR` statements `gen_stmt` reaches in a
statement that it emits without error: the statement itself and, through
`then`, `els`, `init` and block bodies, the statements inside it. -/
def cf_count : Node → Nat
  | Node.mk kind _ _ _ _ then_ els init _ body _ _ _ _ =>
    match kind with
    | NodeKind.ND_IF => 1 + cf_count_opt then_ + cf_count_opt els
    | NodeKind.ND_FOR => 1 + cf_count_opt init + cf_count_opt then_
    | NodeKind.ND_BLOCK => cf_count_list body
    | _ => 0
/-- The count for an optional statement. -/
def cf_count_opt : Option Node → Nat
  | none => 0
  | some node => cf_count node
/-- The count for a chain of statements. -/
def cf_count_list : List Node → Nat
  | [] => 0
  | node :: rest => cf_count node + cf_count_list rest
end

/-- The count over the function bodies of a program. -/
def cf_count_prog : List Obj → Nat
  | [] => 0
  | fn :: rest => (if fn.is_function then cf_count_opt fn.body else 0) + cf_count_prog rest

/-- The labels `D` defined and `J` jumped to by statement code that drew the
label numbers `lo ≤ c < hi` inside the function named `cf`: every jump goes to
a label defined by the code or to the return label of the function; only
numbered labels in the range are defined, none twice; every `.L.else` and
`.L.begin` label defined is jumped to; every number drawn has its `.L.end`. -/
structure LabelsGood (lo hi : Int) (cf : Option String) (D J : List Label) : Prop where
  jumps : ∀ l ∈ J, l ∈ D ∨ ∃ name, cf = some name ∧ l = Label.ret name
  range : ∀ l ∈ D, ∃ c, l.number = some c ∧ lo ≤ c ∧ c < hi
  nodup : D.Nodup
  used : ∀ c, (Label.else_ c ∈ D → Label.else_ c ∈ J) ∧ (Label.begin_ c ∈ D → Label.begin_ c ∈ J)
  ends : ∀ c, lo ≤ c → c < hi → Label.end_ c ∈ D

/-- What expression code does to the state when it returns: `depth` moves by
`dd`, `current_fn` and the label counter are unchanged, and no label is defined
or jumped to. -/
structure ExprEffect (dd : Int) (s t : CgState) : Prop where
  depth : t.depth = s.depth + dd
  current_fn : t.current_fn = s.current_fn
  count_i : t.count_i = s.count_i
  defs : defined_labels t.trace = defined_labels s.trace
  jumps : jump_targets t.trace = jump_targets s.trace

/-- What statement code does to the state when it returns: `depth` and
`current_fn` are unchanged, the label counter advances by `k`, and the labels
added to the trace are good for the numbers drawn. -/
structure StmtEffect (k : Nat) (s t : CgState) : Prop where
  depth : t.depth = s.depth
  current_fn : t.current_fn = s.current_fn
  count_i : t.count_i = s.count_i + k
  labels : ∃ D J, defined_labels t.trace = defined_labels s.trace ++ D ∧
    jump_targets t.trace = jump_targets s.trace ++ J ∧
    LabelsGood s.count_i (s.count_i + k) (s.current_fn.map fun fn => fn.name) D J

/-- Whether a format is none of the nine label-definition and jump formats. -/
def is_plain (fmt : String) : Bool :=
  !([".L.else.%d:\n", ".L.begin.%d:\n", ".L.end.%d:\n", ".L.return.%s:\n",
     "  je  .L.else.%d\n", "  jmp .L.end.%d\n", "  je  .L.end.%d\n",
     "  jmp .L.begin.%d\n", "  jmp .L.return.%s\n"].contains fmt)

/-- The labels `D` defined and `J` jumped to by the text of whole functions
that drew the label numbers `lo ≤ c < hi`: every jump goes to a defined label;
the numbered labels defined are in the range and defined once; every `.L.else`
and `.L.begin` label defined is jumped to; every number drawn has its
`.L.end`. -/
structure ProgLabels (lo hi : Int) (D J : List Label) : Prop where
  jumps : ∀ l ∈ J, l ∈ D
  range : ∀ l ∈ D, ∀ c, l.number = some c → lo ≤ c ∧ c < hi
  once : ∀ l ∈ D, l.number ≠ none → D.count l = 1
  used : ∀ c, (Label.else_ c ∈ D → Label.else_ c ∈ J) ∧ (Label.begin_ c ∈ D → Label.begin_ c ∈ J)
  ends : ∀ c, lo ≤ c → c < hi → Label.end_ c ∈ D

/-- What the text section does to the state when it returns: `depth` is
unchanged, the label counter advances by `k`, and the labels added to the trace
are good for the numbers drawn. -/
structure ProgEffect (k : Nat) (s t : CgState) : Prop where
  depth : t.depth = s.depth
  count_i : t.count_i = s.count_i + k
  labels : ∃ D J, defined_labels t.trace = defined_labels s.trace ++ D ∧
    jump_targets t.trace = jump_targets s.trace ++ J ∧
    ProgLabels s.count_i (s.count_i + k) D J

/-- The outcome is not a failure of `assert(depth == 0)`. -/
def Outcome.NoAssert (o : Outcome) : Prop :=
  ∀ s, o ≠ Outcome.fail CgError.assert_failed s

/-! ## Concrete programs -/

/-- The node of an integer literal. -/
def Node.num (val : Int) : Node :=
  { Node.zeroed NodeKind.ND_NUM with val := val, ty := some ty_int }

/-- The node of a reference to the `j`-th local of the `f`-th top-level cell,
of type `int`. -/
def Node.lvar (f j : Nat) : Node :=
  { Node.zeroed NodeKind.ND_VAR with var := some (ObjPtr.loc f j), ty := some ty_int }

/-- A node with one operand in `lhs`. -/
def Node.unary (kind : NodeKind) (lhs : Node) : Node :=
  { Node.zeroed kind with lhs := some lhs }

/-- A node of type `int` with operands in `lhs` and `rhs`. -/
def Node.binary (kind : NodeKind) (lhs rhs : Node) : Node :=
  { Node.zeroed kind with lhs := some lhs, rhs := some rhs, ty := some ty_int }

/-- A block node. -/
def Node.block (body : List Node) : Node :=
  { Node.zeroed NodeKind.ND_BLOCK with body := body }

/-- The node of `if (cond) then_`. -/
def Node.if_ (cond then_ : Node) : Node :=
  { Node.zeroed NodeKind.ND_IF with cond := some cond, then_ := some then_ }

/-- The node of `while (cond) then_`. -/
def Node.while_ (cond then_ : Node) : Node :=
  { Node.zeroed NodeKind.ND_FOR with cond := some cond, then_ := some then_ }

/-- The node of `for (;;) then_`. -/
def Node.forever (then_ : Node) : Node :=
  { Node.zeroed NodeKind.ND_FOR with then_ := some then_ }

/-- The expression `i = 0`, for the first local `i` of the first function. -/
def expr_assign_i : Node :=
  Node.binary NodeKind.ND_ASSIGN (Node.lvar 0 0) (Node.num 0)

/-- The statement `while (i<10) i=i+1;`. -/
def stmt_while_i : Node :=
  Node.while_ (Node.binary NodeKind.ND_LT (Node.lvar 0 0) (Node.num 10))
    (Node.unary NodeKind.ND_EXPR_STMT
      (Node.binary NodeKind.ND_ASSIGN (Node.lvar 0 0)
        (Node.binary NodeKind.ND_ADD (Node.lvar 0 0) (Node.num 1))))

/-- The body of `int main() { int i; i=0; while (i<10) i=i+1; return i; }`. -/
def body_while : Node :=
  Node.block
    [Node.unary NodeKind.ND_EXPR_STMT expr_assign_i, stmt_while_i,
     Node.unary NodeKind.ND_RETURN (Node.lvar 0 0)]

/-- The program `int main() { int i; i=0; while (i<10) i=i+1; return i; }`. -/
def prog_while : List Obj :=
  [Obj.func "main" [Obj.lvar "i" ty_int] body_while]

/-- The program `int main() { return 0; }`. -/
def prog_return0 : List Obj :=
  [Obj.func "main" [] (Node.block [Node.unary NodeKind.ND_RETURN (Node.num 0)])]

/-- The program `int main() { for (;;) return 0; }`. -/
def prog_forever : List Obj :=
  [Obj.func "main" []
    (Node.block [Node.forever (Node.unary NodeKind.ND_RETURN (Node.num 0))])]

/-- The program `int main() { if (1) return 2; return 3; }`. -/
def prog_if : List Obj :=
  [Obj.func "main" []
    (Node.block [Node.if_ (Node.num 1) (Node.unary NodeKind.ND_RETURN (Node.num 2)),
      Node.unary NodeKind.ND_RETURN (Node.num 3)])]

/-! ## Vocabulary of the claims about repeated runs -/

/-- The log after a sequence of print calls. -/
def replay (log : CgLog) (trace : List PrintCall) : CgLog :=
  trace.foldl (fun l p => __cg_vprint l p.fmt p.args) log

/-- The state with its log replaced by the replay of its trace on `log`. -/
def relog (log : CgLog) (s : CgState) : CgState :=
  { s with log := replay log s.trace }

/-- The state with `current_fn` replaced. -/
def set_current_fn (fn : Option Obj) (s : CgState) : CgState :=
  { s with current_fn := fn }

/-- The outcome with its state transformed. -/
def Outcome.map (g : CgState → CgState) : Outcome → Outcome
  | Outcome.ok s => Outcome.ok (g s)
  | Outcome.fail e s => Outcome.fail e (g s)

/-- A transformation of states that the expression and statement generators
cannot observe: it commutes with `cg_log_print`, `push`, `pop` and `count`, and
it keeps `depth` and `current_fn`. -/
structure Unobserved (g : CgState → CgState) : Prop where
  print : ∀ f a s, g (cg_log_print f a s) = cg_log_print f a (g s)
  push : ∀ s, push (g s) = g (push s)
  pop : ∀ arg s, pop arg (g s) = g (pop arg s)
  count_fst : ∀ s, (count (g s)).1 = (count s).1
  count_snd : ∀ s, (count (g s)).2 = g (count s).2
  depth : ∀ s, (g s).depth = s.depth
  current_fn : ∀ s, (g s).current_fn = s.current_fn

/-- Two logs agree: same size, same valid bytes. -/
def CgLog.Agree (l1 l2 : CgLog) : Prop :=
  l1.__cg_len = l2.__cg_len ∧ ∀ i, i < l1.__cg_len → l1.__cg_buf i = l2.__cg_buf i

/-! ## Vocabulary of the claim about the order of label numbers -/

mutual
/-- The `ND_IF` / `ND_FOR` statements `gen_stmt` reaches in a statement that it
emits without error, in the order in which it reaches them: the statement
itself, then those of `then` and `els` (for `ND_IF`), of `init` and `then`
(for `ND_FOR`), or of the block body in order. -/
def reached : Node → List Node
  | Node.mk kind ty lhs rhs cond then_ els init inc body funcname args var val =>
    match kind with
    | NodeKind.ND_IF =>
      Node.mk kind ty lhs rhs cond then_ els init inc body funcname args var val ::
        (reached_opt then_ ++ reached_opt els)
    | NodeKind.ND_FOR =>
      Node.mk kind ty lhs rhs cond then_ els init inc body funcname args var val ::
        (reached_opt init ++ reached_opt then_)
    | NodeKind.ND_BLOCK => reached_list body
    | _ => []
/-- The statements reached in an optional statement. -/
def reached_opt : Option Node → List Node
  | none => []
  | some node => reached node
/-- The statements reached in a chain of statements. -/
def reached_list : List Node → List Node
  | [] => []
  | node :: rest => reached node ++ reached_list rest
end

/-- The statements reached in the function bodies of a program, in order. -/
def reached_prog : List Obj → List Node
  | [] => []
  | fn :: rest => (if fn.is_function then reached_opt fn.body else []) ++ reached_prog rest

/-- `Enters heap root s0 n s`: in the run of `gen_stmt(root)` started in state
`s0`, the call `gen_stmt(n)` on the sub-statement `n` is made in state `s`.
Each rule follows one call site of `gen_stmt` and requires the code before the
call site to have returned. -/
inductive Enters (heap : List Obj) : Node → CgState → Node → CgState → Prop where
  | self (n : Node) (s : CgState) : Enters heap n s n s
  | if_then (root sub n : Node) (s0 s1 s : CgState)
      (hk : root.kind = NodeKind.ND_IF)
      (hcond : gen_expr_ptr heap root.cond (count s0).2 = Outcome.ok s1)
      (hsub : root.then_ = some sub)
      (h : Enters heap sub
        (cg_log_print "  je  .L.else.%d\n" [FmtArg.int (count s0).1]
          (cg_log_print "  cmp $0, %%rax\n" [] s1)) n s) :
      Enters heap root s0 n s
  | if_els (root sub n : Node) (s0 s1 s2 s : CgState)
      (hk : root.kind = NodeKind.ND_IF)
      (hcond : gen_expr_ptr heap root.cond (count s0).2 = Outcome.ok s1)
      (hthen : gen_stmt_ptr heap root.then_
        (cg_log_print "  je  .L.else.%d\n" [FmtArg.int (count s0).1]
          (cg_log_print "  cmp $0, %%rax\n" [] s1)) = Outcome.ok s2)
      (hsub : root.els = some sub)
      (h : Enters heap sub
        (cg_log_print ".L.else.%d:\n" [FmtArg.int (count s0).1]
          (cg_log_print "  jmp .L.end.%d\n" [FmtArg.int (count s0).1] s2)) n s) :
      Enters heap root s0 n s
  | for_init (root sub n : Node) (s0 s : CgState)
      (hk : root.kind = NodeKind.ND_FOR)
      (hsub : root.init = some sub)
      (h : Enters heap sub (count s0).2 n s) :
      Enters heap root s0 n s
  | for_then (root sub n : Node) (s0 s1 s2 s : CgState)
      (hk : root.kind = NodeKind.ND_FOR)
      (hinit : gen_stmt_opt heap root.init (count s0).2 = Outcome.ok s1)
      (hcond : gen_for_cond heap root.cond (count s0).1
        (cg_log_print ".L.begin.%d:\n" [FmtArg.int (count s0).1] s1) = Outcome.ok s2)
      (hsub : root.then_ = some sub)
      (h : Enters heap sub s2 n s) :
      Enters heap root s0 n s
  | block (root sub n : Node) (before after : List Node) (s0 s1 s : CgState)
      (hk : root.kind = NodeKind.ND_BLOCK)
      (hbody : root.body = before ++ sub :: after)
      (hbefore : gen_stmt_list heap before s0 = Outcome.ok s1)
      (h : Enters heap sub s1 n s) :
      Enters heap root s0 n s

/-- `EntersProg heap prog s0 n s`: in the run of the loop of `emit_text` over
`prog` started in state `s0`, the call `gen_stmt(n)` is made in state `s`. -/
inductive EntersProg (heap : List Obj) : List Obj → CgState → Node → CgState → Prop where
  | skip (fn : Obj) (rest : List Obj) (n : Node) (s0 s : CgState)
      (hfn : fn.is_function = false)
      (h : EntersProg heap rest s0 n s) :
      EntersProg heap (fn :: rest) s0 n s
  | here (fn : Obj) (rest : List Obj) (body n : Node) (s0 s1 s : CgState)
      (hfn : fn.is_function = true)
      (hparams : emit_params 0 (obj_chain heap fn.params) (emit_prologue fn s0) = Outcome.ok s1)
      (hbody : fn.body = some body)
      (h : Enters heap body s1 n s) :
      EntersProg heap (fn :: rest) s0 n s
  | later (fn : Obj) (rest : List Obj) (n : Node) (s0 s1 s2 s : CgState)
      (hfn : fn.is_function = true)
      (hparams : emit_params 0 (obj_chain heap fn.params) (emit_prologue fn s0) = Outcome.ok s1)
      (hbody : gen_stmt_ptr heap fn.body s1 = Outcome.ok s2)
      (hdepth : s2.depth = 0)
      (h : EntersProg heap rest (emit_epilogue fn s2) n s) :
      EntersProg heap (fn :: rest) s0 n s

/-- The statement `while (0) return 1;`. -/
def stmt_while_0 : Node :=
  Node.while_ (Node.num 0) (Node.unary NodeKind.ND_RETURN (Node.num 1))

/-- The program
`int f() { if (1) return 2; return 3; } int main() { while (0) return 1; return 0; }`. -/
def prog_if_while : List Obj :=
  [Obj.func "f" []
    (Node.block [Node.if_ (Node.num 1) (Node.unary NodeKind.ND_RETURN (Node.num 2)),
      Node.unary NodeKind.ND_RETURN (Node.num 3)]),
   Obj.func "main" []
    (Node.block [stmt_while_0, Node.unary NodeKind.ND_RETURN (Node.num 0)])]

/-! ## Vocabulary of the claims about emitted lines -/

/-- A transformation of states that expression code cannot observe: it commutes
with `cg_log_print`, `push` and `pop`. -/
structure ExprFrame (g : CgState → CgState) : Prop where
  print : ∀ f a s, g (cg_log_print f a s) = cg_log_print f a (g s)
  push : ∀ s, push (g s) = g (push s)
  pop : ∀ arg s, pop arg (g s) = g (pop arg s)

/-- A transformation of states that statement code cannot observe: it commutes
with `cg_log_print`, `push`, `pop` and `count`, and it keeps `current_fn`. -/
structure StmtFrame (g : CgState → CgState) : Prop where
  print : ∀ f a s, g (cg_log_print f a s) = cg_log_print f a (g s)
  push : ∀ s, push (g s) = g (push s)
  pop : ∀ arg s, pop arg (g s) = g (pop arg s)
  count_fst : ∀ s, (count (g s)).1 = (count s).1
  count_snd : ∀ s, (count (g s)).2 = g (count s).2
  current_fn : ∀ s, (g s).current_fn = s.current_fn

/-- The statics at process start, but with the counter of `count` at `c` and
`current_fn` at `fn`. -/
def CgState.start (c : Int) (fn : Option Obj) : CgState :=
  { CgState.initial with count_i := c, current_fn := fn }

/-- The state `s` continued by the run that led from a start state to `x`: the
print calls of `x` are appended to the trace and replayed on the log of `s`,
the depth of `x` is added, the counter and `current_fn` are those of `x`. -/
def CgState.continued (s x : CgState) : CgState :=
  { log := replay s.log x.trace, depth := s.depth + x.depth, current_fn := x.current_fn,
    count_i := x.count_i, trace := s.trace ++ x.trace }

/-- The state with the counter of `count` and `current_fn` replaced. -/
def CgState.restarted (c : Int) (fn : Option Obj) (x : CgState) : CgState :=
  { x with count_i := c, current_fn := fn }

/-- The lines `gen_expr` emits for an expression: the print calls of its run
from the start of the process. -/
def expr_lines (heap : List Obj) (e : Node) : List PrintCall :=
  (gen_expr heap e CgState.initial).state.trace

/-- The lines `gen_addr` emits for an expression. -/
def addr_lines (heap : List Obj) (e : Node) : List PrintCall :=
  (gen_addr heap e CgState.initial).state.trace

/-- The lines `gen_stmt` emits for a statement when the counter of `count` is at
`c` and `current_fn` is `fn`. -/
def stmt_lines (heap : List Obj) (n : Node) (c : Int) (fn : Option Obj) : List PrintCall :=
  (gen_stmt heap n (CgState.start c fn)).state.trace

/-- The lines of an optional part: none when the part is absent. -/
def lines_if_present (p : Option Node) (f : Node → List PrintCall) : List PrintCall :=
  match p with
  | none => []
  | some n => f n

/-- The line `push %rax`. -/
def line_push : PrintCall := ⟨"  push %%rax\n", []⟩

/-- The line `pop REG`. -/
def line_pop (reg : String) : PrintCall := ⟨"  pop %s\n", [FmtArg.str reg]⟩

/-! ## Vocabulary of the claim about the contents of the log -/

/-- A byte string as a C array: its bytes, then zeros. -/
def bytes_of (l : List Byte) : Bytes := fun i => l.getD i 0

/-- The log after appending byte strings in order with `__cg_append_bytes`. -/
def append_all (log : CgLog) (strs : List (List Byte)) : CgLog :=
  strs.foldl (fun l x => __cg_append_bytes l (bytes_of x) x.length) log

/-- The bytes one `cg_log_print` call hands to `__cg_append_bytes`: the text of
the format, cut to the first `sizeof(tmp) - 1` bytes. -/
def line_bytes (p : PrintCall) : List Byte :=
  ((vformat p.fmt.toList p.args).map Char.toNat).take (TMP_SIZE - 1)

/-! ## Vocabulary of the claim about `int main() { return 0; }` -/

/-- The program `int NAME() { return N; }`: one function without parameters and
locals whose body is the block `{ return N; }`. -/
def prog_return (name : String) (N : Int) : List Obj :=
  [Obj.func name [] (Node.block [Node.unary NodeKind.ND_RETURN (Node.num N)])]

/-- The twelve lines of the specification for `int NAME() { return N; }`, as
print calls. -/
def lines_return (name : String) (N : Int) : List PrintCall :=
  [⟨"  .globl %s\n", [FmtArg.str name]⟩,
   ⟨"  .text\n", []⟩,
   ⟨"%s:\n", [FmtArg.str name]⟩,
   ⟨"  push %%rbp\n", []⟩,
   ⟨"  mov %%rsp, %%rbp\n", []⟩,
   ⟨"  sub $%d, %%rsp\n", [FmtArg.int 0]⟩,
   ⟨"  mov $%d, %%rax\n", [FmtArg.int N]⟩,
   ⟨"  jmp .L.return.%s\n", [FmtArg.str name]⟩,
   ⟨".L.return.%s:\n", [FmtArg.str name]⟩,
   ⟨"  mov %%rbp, %%rsp\n", []⟩,
   ⟨"  pop %%rbp\n", []⟩,
   ⟨"  ret\n", []⟩]

/-- The text of the twelve lines. -/
def text_return (name : String) (N : Int) : List Char :=
  "  .globl ".toList ++ name.toList ++ "\n  .text\n".toList ++ name.toList ++
  ":\n  push %rbp\n  mov %rsp, %rbp\n  sub $0, %rsp\n  mov $".toList ++ (toString N).toList ++
  ", %rax\n  jmp .L.return.".toList ++ name.toList ++ "\n.L.return.".toList ++ name.toList ++
  ":\n  mov %rbp, %rsp\n  pop %rbp\n  ret\n".toList

/-! ## Vocabulary of the claim about function calls -/

/-- The lines of a call in the words of the specification: the code of each
argument in order, each followed by `push %rax`; the pops into `argreg64`, from
the register of the last argument down to that of the first; `mov $0, %rax`;
`call funcname`. -/
def funcall_lines (heap : List Obj) (args : List Node) (funcname : String) : List PrintCall :=
  (args.map fun a => expr_lines heap a ++ [line_push]).flatten ++
  ((argreg64.take args.length).reverse.map line_pop ++
  [⟨"  mov $0, %%rax\n", []⟩, ⟨"  call %s\n", [FmtArg.str funcname]⟩])

/-- The node of the call `add(2, 3)`. -/
def node_add_2_3 : Node :=
  { Node.zeroed NodeKind.ND_FUNCALL with funcname := "add", args := [Node.num 2, Node.num 3] }

/-! ## Vocabulary of the claim about parameters -/

/-- The error an outcome stopped with, if it did. -/
def Outcome.error : Outcome → Option CgError
  | Outcome.ok _ => none
  | Outcome.fail e _ => some e

/-- The line that stores the parameter `var`, the `i`-th of its function, in the
words of the specification: `mov REG, offset(%rbp)` with `REG` from `argreg8`
for a parameter of size 1 and from `argreg64` otherwise. -/
def param_line (i : Nat) (var : Obj) : PrintCall :=
  ⟨"  mov %s, %d(%%rbp)\n",
    [FmtArg.str ((if var.ty.size = 1 then argreg8 else argreg64).getD i ""),
     FmtArg.int var.offset]⟩

/-- The lines that store the parameters of a chain, the first being the `i`-th
of its function. -/
def param_lines : Nat → List Obj → List PrintCall
  | _, [] => []
  | i, var :: rest => param_line i var :: param_lines (i + 1) rest

/-- The function
`int f(int a, int b, int c, int d, int e, int g, int h) { return 0; }`: seven
`int` parameters, which are its locals. -/
def prog_seven_params : List Obj :=
  [{ Obj.func "f"
      [Obj.lvar "a" ty_int, Obj.lvar "b" ty_int, Obj.lvar "c" ty_int, Obj.lvar "d" ty_int,
       Obj.lvar "e" ty_int, Obj.lvar "g" ty_int, Obj.lvar "h" ty_int]
      (Node.block [Node.unary NodeKind.ND_RETURN (Node.num 0)]) with
     params := some (ObjPtr.loc 0 0) }]

/-! ## Vocabulary of the claim about the data section -/

/-- The lines of one global variable in the words of the specification:
`.data`, `.globl name`, `name:`, then one `.byte v` per byte of `init_data`
(`ty.size` of them) when it is present, and one `.zero size` otherwise. -/
def data_lines (var : Obj) : List PrintCall :=
  [⟨"  .data\n", []⟩, ⟨"  .globl %s\n", [FmtArg.str var.name]⟩, ⟨"%s:\n", [FmtArg.str var.name]⟩] ++
  match var.init_data with
  | some init_data =>
    (List.range var.ty.size.toNat).map fun i => ⟨"  .byte %d\n", [FmtArg.int (init_data i)]⟩
  | none => [⟨"  .zero %d\n", [FmtArg.int var.ty.size]⟩]

/-- The data section of a program: the lines of its cells that are not
functions, in the order of the top-level chain. -/
def data_section (prog : List Obj) : List PrintCall :=
  ((prog.filter fun var => !var.is_function).map data_lines).flatten

/-- The text section of a program: the lines `emit_text` emits when it runs
right after `cg_log_reset`. -/
def text_section (prog : List Obj) (s : CgState) : List PrintCall :=
  (emit_text prog (cg_log_reset s)).state.trace

/-- The state `x` with the log and the trace of `pre` put before its own print
calls. -/
def CgState.prefixed (pre x : CgState) : CgState :=
  { x with log := replay pre.log x.trace, trace := pre.trace ++ x.trace }

/-- A global `char s[3]` initialised with the bytes 65, 66, 0, a global
`int g` without initialiser, and the function `int main() { return 0; }`. -/
def prog_globals : List Obj :=
  [{ Obj.zeroed "s" (array_of ty_char 3) with
      init_data := some fun i => [65, 66, 0].getD i 0 },
   Obj.zeroed "g" ty_int,
   Obj.func "main" [] (Node.block [Node.unary NodeKind.ND_RETURN (Node.num 0)])]

/-! ## Concrete nodes for the claims about addresses, loads and stores -/

/-- The global variable `int g`. -/
def obj_global_g : Obj := Obj.zeroed "g" ty_int

/-- The function `main` with one local `int a` at offset -8, as the pre-pass
leaves it. -/
def obj_main_a : Obj :=
  { Obj.func "main" [{ Obj.lvar "a" ty_int with offset := -8 }]
      (Node.zeroed NodeKind.ND_BLOCK) with stack_size := 16 }

/-- The top-level chain `int g; int main() { int a; ... }` after the
pre-pass. -/
def heap_g_main : List Obj := [obj_global_g, obj_main_a]

/-- The node of the local variable `a`. -/
def node_a : Node := Node.lvar 1 0

/-- The node of the global variable `g`. -/
def node_g : Node :=
  { Node.zeroed NodeKind.ND_VAR with var := some (ObjPtr.top 0), ty := some ty_int }

/-- The node of the assignment `a = 3`. -/
def node_a_assign_3 : Node := Node.binary NodeKind.ND_ASSIGN node_a (Node.num 3)

/-- The node of the ill-formed assignment `1 = 2`. -/
def node_1_assign_2 : Node := Node.binary NodeKind.ND_ASSIGN (Node.num 1) (Node.num 2)

/-! ## Vocabulary of the claims about the arena -/

/-- The next multiple of `a` at or after `x`. -/
def round_up (x a : Nat) : Nat := (x + a - 1) / a * a

/-- A request whose address arithmetic stays below `2 ^ w`: the addresses of the
pool, the alignment and the size add up to less than `2 ^ w`. -/
def RequestInRange (w base size align : Nat) : Prop :=
  base + ARENA_SIZE + align + size < 2 ^ w

/-- An arena in which nothing has been allocated. -/
def arena_empty : Arena := { __arena_buffer := fun _ => 0, __arena_offset := 0 }

/-- An arena with five bytes in use, all of them 1. -/
def arena_five : Arena := { __arena_buffer := fun _ => 1, __arena_offset := 5 }

/-- One call of an allocation function of the arena. -/
inductive ArenaCall where
  | alloc (size align : Nat) (zero_init : Bool)
  | calloc (n size : Nat)
  | strndup (s : Bytes) (n : Nat)

/-- The size of the block a call asks `__arena_alloc` for. -/
def ArenaCall.block_size (w : Nat) : ArenaCall → Nat
  | ArenaCall.alloc size _ _ => size
  | ArenaCall.calloc n size => umul w n size
  | ArenaCall.strndup _ n => uadd w n 1

/-- The call, on the statics `a`. -/
def ArenaCall.run (w base : Nat) (a : Arena) : ArenaCall → Option (Nat × Arena)
  | ArenaCall.alloc size align zero_init => __arena_alloc w base a size align zero_init
  | ArenaCall.calloc n size => xcalloc w base a n size
  | ArenaCall.strndup s n => xstrndup w base a s n

/-- A block handed out by the arena: its address, its size, and the value of
`__arena_offset` after the call that returned it. -/
structure ArenaBlock where
  addr : Nat
  size : Nat
  offset_after : Nat
deriving DecidableEq, Repr

/-- A sequence of calls that all return: the statics at the end and the blocks
returned, in order.  The result is `none` when a call exits. -/
def run_calls (w base : Nat) : Arena → List ArenaCall → Option (Arena × List ArenaBlock)
  | a, [] => some (a, [])
  | a, c :: rest =>
    match c.run w base a with
    | none => none
    | some (p, a1) =>
      match run_calls w base a1 rest with
      | none => none
      | some (a2, blocks) => some (a2, ⟨p, c.block_size w, a1.__arena_offset⟩ :: blocks)

/-- Three calls on a 64-bit target: 16 bytes, then `2 ^ 64 - 8` bytes, then
`xcalloc(1, 16)`. -/
def calls_wrapping : List ArenaCall :=
  [ArenaCall.alloc 16 1 false, ArenaCall.alloc (2 ^ 64 - 8) 1 false, ArenaCall.calloc 1 16]

/-! ## Vocabulary of the claim about loops -/

/-- The lines of an `ND_FOR` statement that draws the label number `c` inside
the function `fn`, in the words of the specification: the init statement if
present; `.L.begin.c:`; if a condition is present, its code, `cmp $0, %rax` and
`je  .L.end.c`; the body statement; the increment expression if present;
`jmp .L.begin.c`; `.L.end.c:`.  The statements inside draw the label numbers
after `c`: the init statement from `c + 1`, the body from where the init
statement left the counter. -/
def for_lines (heap : List Obj) (node : Node) (c : Int) (fn : Option Obj) : List PrintCall :=
  lines_if_present node.init (fun n => stmt_lines heap n (c + 1) fn) ++
  ([⟨".L.begin.%d:\n", [FmtArg.int c]⟩] ++
  (lines_if_present node.cond (fun e =>
    expr_lines heap e ++ [⟨"  cmp $0, %%rax\n", []⟩, ⟨"  je  .L.end.%d\n", [FmtArg.int c]⟩]) ++
  (lines_if_present node.then_
    (fun n => stmt_lines heap n (c + 1 + cf_count_opt node.init) fn) ++
  (lines_if_present node.inc (fun e => expr_lines heap e) ++
  [⟨"  jmp .L.begin.%d\n", [FmtArg.int c]⟩, ⟨".L.end.%d:\n", [FmtArg.int c]⟩]))))

/-- Whether the parts of an `ND_FOR` statement are emitted without error:
the init statement if present, the condition if present, the body (which must
be present) and the increment if present. -/
def for_parts_ok (heap : List Obj) (node : Node) (c : Int) (fn : Option Obj) : Bool :=
  (match node.init with
    | none => true
    | some n => (gen_stmt heap n (CgState.start (c + 1) fn)).isOk) &&
  (match node.cond with
    | none => true
    | some e => (gen_expr heap e CgState.initial).isOk) &&
  (match node.then_ with
    | none => false
    | some n => (gen_stmt heap n (CgState.start (c + 1 + cf_count_opt node.init) fn)).isOk) &&
  (match node.inc with
    | none => true
    | some e => (gen_expr heap e CgState.initial).isOk)

/-- The lines of a comparison `lhs < rhs` in the words of the specification:
the code of `rhs`, `push %rax`, the code of `lhs`, `pop %rdi`,
`cmp %rdi, %rax`, `setl %al`, `movzb %al, %rax`. -/
def lt_lines (heap : List Obj) (lhs rhs : Node) : List PrintCall :=
  expr_lines heap rhs ++ ([line_push] ++ (expr_lines heap lhs ++
  [line_pop "%rdi", ⟨"  cmp %%rdi, %%rax\n", []⟩, ⟨"  setl %%al\n", []⟩,
   ⟨"  movzb %%al, %%rax\n", []⟩]))

/-! ## Vocabulary of the claim about loads and stores -/

/-- The store line selected by a type: `mov %al, (%rdi)` for size 1 and
`mov %rax, (%rdi)` otherwise. -/
def store_line (ty : CType) : PrintCall :=
  if ty.size = 1 then ⟨"  mov %%al, (%%rdi)\n", []⟩ else ⟨"  mov %%rax, (%%rdi)\n", []⟩

/-- The lines of an assignment in the words of the specification: the address
of the left side, `push %rax`, the code of the right side, `pop %rdi`, the
store selected by the type of the assignment. -/
def assign_lines (heap : List Obj) (lhs rhs : Node) (ty : CType) : List PrintCall :=
  addr_lines heap lhs ++ ([line_push] ++ (expr_lines heap rhs ++
  [line_pop "%rdi", store_line ty]))

/-! ## Concrete inputs for the claims about `int` range, calls and the arena -/

/-- The program
`int main() { int a[100000000]; int b[100000000]; int c[100000000]; }`: three
locals of 800000000 bytes each. -/
def prog_huge_arrays : List Obj :=
  [Obj.func "main"
    [Obj.lvar "a" (array_of ty_int 100000000), Obj.lvar "b" (array_of ty_int 100000000),
     Obj.lvar "c" (array_of ty_int 100000000)]
    (Node.zeroed NodeKind.ND_BLOCK)]

/-- The node of the call `f(1, 2, 3, 4, 5, 6, 7)`. -/
def node_f_7_args : Node :=
  { Node.zeroed NodeKind.ND_FUNCALL with
    funcname := "f",
    args := [Node.num 1, Node.num 2, Node.num 3, Node.num 4, Node.num 5, Node.num 6,
      Node.num 7],
    ty := some ty_int }

/-- The program `int main() { return f(1, 2, 3, 4, 5, 6, 7); }`. -/
def prog_call_7_args : List Obj :=
  [Obj.func "main" [] (Node.block [Node.unary NodeKind.ND_RETURN node_f_7_args])]

theorem memset_apply (dst : Bytes) (off : Nat) (v : Byte) (n i : Nat) :
    memset dst off v n i = if off ≤ i ∧ i < off + n then v else dst i := rfl

theorem memcpy_apply (dst : Bytes) (off : Nat) (src : Bytes) (n i : Nat) :
    memcpy dst off src n i = if off ≤ i ∧ i < off + n then src (i - off) else dst i := rfl

theorem append_at_capacity (log : CgLog) (src : Bytes) (n : Nat)
    (h : log.__cg_len = CG_BUF_SIZE) : __cg_append_bytes log src n = log := by
  unfold __cg_append_bytes
  simp [h]

theorem append_len_le (log : CgLog) (src : Bytes) (n : Nat)
    (h : log.__cg_len ≤ CG_BUF_SIZE) : (__cg_append_bytes log src n).__cg_len ≤ CG_BUF_SIZE := by
  unfold __cg_append_bytes
  by_cases hn : n = 0
  · rw [if_pos hn]
    exact h
  · rw [if_neg hn]
    by_cases hlt : n < CG_BUF_SIZE - log.__cg_len
    · simp only [if_pos hlt, if_pos hn]
      omega
    · simp only [if_neg hlt]
      by_cases hz : CG_BUF_SIZE - log.__cg_len ≠ 0
      · simp only [if_pos hz]
        omega
      · simp only [if_neg hz]
        exact h

theorem appends_at_capacity (log : CgLog) (later : List (Bytes × Nat))
    (h : log.__cg_len = CG_BUF_SIZE) :
    later.foldl (fun l a => __cg_append_bytes l a.1 a.2) log = log := by
  induction later with
  | nil => rfl
  | cons a rest ih => simp [List.foldl, append_at_capacity log a.1 a.2 h, ih]

theorem append_truncated (log : CgLog) (src : Bytes) (n : Nat)
    (hlen : log.__cg_len ≤ CG_BUF_SIZE) (hn : CG_BUF_SIZE - log.__cg_len < n) :
    (__cg_append_bytes log src n).__cg_len = CG_BUF_SIZE ∧
    (∀ i, i < log.__cg_len →
      (__cg_append_bytes log src n).__cg_buf i = log.__cg_buf i) ∧
    (∀ j, j < CG_BUF_SIZE - log.__cg_len →
      (__cg_append_bytes log src n).__cg_buf (log.__cg_len + j) = src j) := by
  have hn0 : n ≠ 0 := by omega
  have hlt : ¬ n < CG_BUF_SIZE - log.__cg_len := by omega
  unfold __cg_append_bytes
  simp only [hn0, if_false, hlt]
  by_cases hz : CG_BUF_SIZE - log.__cg_len = 0
  · have : log.__cg_len = CG_BUF_SIZE := by omega
    simp [hz, this]
  · simp only [ne_eq, hz, not_false_eq_true, if_true]
    refine ⟨by omega, ?_, ?_⟩
    · intro i hi
      have : ¬ (log.__cg_len ≤ i ∧ i < log.__cg_len + (CG_BUF_SIZE - log.__cg_len)) := by omega
      simp only [memcpy, this, if_false]
    · intro j hj
      have : log.__cg_len ≤ log.__cg_len + j ∧
          log.__cg_len + j < log.__cg_len + (CG_BUF_SIZE - log.__cg_len) := by omega
      simp only [memcpy, this, and_self, if_true, Nat.add_sub_cancel_left]

theorem main_read_input_fst (in_buffer : Bytes) (n i : Nat) :
    (main_read_input in_buffer n).1 i =
      if i = min n 255 ∨ (min n 255 < i ∧ i < 256) then 0 else in_buffer i := by
  have hsz : IN_BUFFER_SIZE = 256 := rfl
  unfold main_read_input
  simp only [hsz]
  by_cases h : n ≥ 256
  · have hm : min n 255 = 255 := by omega
    rw [hm, if_pos h]
    have h2 : ¬ (256 - 1 + 1 < 256) := by omega
    simp only [if_neg h2]
    split_ifs <;> first | rfl | omega
  · have hm : min n 255 = n := by omega
    rw [hm, if_neg h]
    by_cases h2 : n + 1 < 256
    · simp only [if_pos h2, memset_apply]
      split_ifs <;> first | rfl | omega
    · simp only [if_neg h2]
      split_ifs <;> first | rfl | omega

theorem main_read_input_snd (in_buffer : Bytes) (n : Nat) :
    (main_read_input in_buffer n).2 = min n 255 := by
  have hsz : IN_BUFFER_SIZE = 256 := rfl
  unfold main_read_input
  simp only [hsz]
  split_ifs <;> omega

/-- When `main` reaches `env_commit`, the journal is built from the input array
as handed to the front end and from the log `codegen` left, run from the
initial statics on the program the front end returned. -/
theorem main_eq_some (in_buffer : Bytes) (read_len : Nat)
    (front_end : Bytes → Option (List Obj)) (out_buffer : Bytes) (j : Bytes × Nat)
    (h : main in_buffer read_len front_end out_buffer = some j) :
    ∃ prog s, front_end (main_read_input in_buffer read_len).1 = some prog ∧
      (codegen prog CgState.initial).2 = Outcome.ok s ∧
      j = main_journal out_buffer (main_read_input in_buffer read_len).1 s.log := by
  unfold main at h
  simp only at h
  split at h
  · cases h
  · rename_i prog hp
    split at h
    · cases h
    · rename_i s hs
      injection h with h
      exact ⟨prog, s, hp, hs, h.symm⟩

/-! ## The offset pre-pass -/

theorem wrap32_id (x : Int) (h1 : -2 ^ 31 ≤ x) (h2 : x < 2 ^ 31) : wrap32 x = x := by
  unfold wrap32
  omega

theorem align_to_16 (n : Int) (h0 : 0 ≤ n) (h1 : n + 16 ≤ INT_MAX) :
    align_to n 16 = (n + 15) / 16 * 16 := by
  unfold INT_MAX at h1
  have e1 : wrap32 (n + 16) = n + 16 := wrap32_id _ (by omega) (by omega)
  have e2 : wrap32 (n + 16 - 1) = n + 15 := by
    rw [wrap32_id _ (by omega) (by omega)]; omega
  have e3 : Int.tdiv (n + 15) 16 = (n + 15) / 16 :=
    Int.tdiv_eq_ediv (by omega) (by omega)
  have e4 : wrap32 ((n + 15) / 16) = (n + 15) / 16 := wrap32_id _ (by omega) (by omega)
  have e5 : wrap32 ((n + 15) / 16 * 16) = (n + 15) / 16 * 16 :=
    wrap32_id _ (by omega) (by omega)
  unfold align_to
  rw [e1, e2, e3, e4, e5]

theorem total_size_cons (v : Obj) (rest : List Obj) :
    total_size (v :: rest) = v.ty.size + total_size rest := by
  simp [total_size]

theorem total_size_nonneg (locals : List Obj) (h : ∀ v ∈ locals, 0 ≤ v.ty.size) :
    0 ≤ total_size locals := by
  induction locals with
  | nil => simp [total_size]
  | cons v rest ih =>
    rw [total_size_cons]
    have h1 := h v (List.mem_cons_self _ _)
    have h2 := ih (fun w hw => h w (List.mem_cons_of_mem _ hw))
    omega

theorem running_size_zero (v : Obj) (rest : List Obj) :
    running_size (v :: rest) 0 = v.ty.size := by
  simp [running_size, total_size]

theorem running_size_succ (v : Obj) (rest : List Obj) (k : Nat) :
    running_size (v :: rest) (k + 1) = v.ty.size + running_size rest k := by
  simp [running_size, total_size]

/-- The inner loop, when the arithmetic stays within `int`. -/
theorem assign_offsets_chain_spec (locals : List Obj) :
    ∀ off : Int, 0 ≤ off → (∀ v ∈ locals, 0 ≤ v.ty.size) → off + total_size locals ≤ INT_MAX →
      (assign_offsets_chain off locals).2 = off + total_size locals ∧
      (assign_offsets_chain off locals).1.length = locals.length ∧
      ∀ (k : Nat) (v : Obj), locals[k]? = some v →
        (assign_offsets_chain off locals).1[k]? =
          some { v with offset := -(off + running_size locals k) } := by
  induction locals with
  | nil =>
    intro off _ _ _
    simp [assign_offsets_chain, total_size]
  | cons w rest ih =>
    intro off h0 hs hmax
    have hw := hs w (List.mem_cons_self _ _)
    have hrest : ∀ v ∈ rest, 0 ≤ v.ty.size := fun v hv => hs v (List.mem_cons_of_mem _ hv)
    have hnn := total_size_nonneg rest hrest
    rw [total_size_cons] at hmax
    unfold INT_MAX at hmax
    have e1 : wrap32 (off + w.ty.size) = off + w.ty.size := wrap32_id _ (by omega) (by omega)
    have e2 : wrap32 (-(off + w.ty.size)) = -(off + w.ty.size) := wrap32_id _ (by omega) (by omega)
    obtain ⟨i1, i2, i3⟩ := ih (off + w.ty.size) (by omega) hrest (by unfold INT_MAX; omega)
    simp only [assign_offsets_chain, e1, e2]
    refine ⟨?_, ?_, ?_⟩
    · rw [i1, total_size_cons]; omega
    · simp [i2]
    · intro k v hk
      cases k with
      | zero =>
        simp at hk
        subst hk
        simp [running_size_zero]
      | succ k =>
        simp at hk
        have := i3 k v hk
        simp only [List.getElem?_cons_succ, this, running_size_succ]
        congr 3
        omega

theorem assign_lvar_offsets_eq_map (prog : List Obj) :
    assign_lvar_offsets prog = prog.map assign_fn := by
  induction prog with
  | nil => rfl
  | cons fn rest ih =>
    simp only [assign_lvar_offsets, List.map_cons, assign_fn, ih]
    split <;> rfl

theorem assign_lvar_offsets_getElem? (prog : List Obj) (f : Nat) :
    (assign_lvar_offsets prog)[f]? = (prog[f]?).map assign_fn := by
  rw [assign_lvar_offsets_eq_map, List.getElem?_map]

theorem assign_fn_not_function (fn : Obj) (h : fn.is_function = false) : assign_fn fn = fn := by
  simp [assign_fn, h]

theorem assign_fn_function (fn : Obj) (h : fn.is_function = true) :
    assign_fn fn =
      { fn with locals := (assign_offsets_chain 0 fn.locals).1,
                stack_size := align_to (assign_offsets_chain 0 fn.locals).2 16 } := by
  simp [assign_fn, h]

theorem running_size_le_total (locals : List Obj) (h : ∀ v ∈ locals, 0 ≤ v.ty.size) :
    ∀ k : Nat, running_size locals k ≤ total_size locals := by
  induction locals with
  | nil => intro k; simp [running_size, total_size]
  | cons w rest ih =>
    intro k
    have hrest : ∀ v ∈ rest, 0 ≤ v.ty.size := fun v hv => h v (List.mem_cons_of_mem _ hv)
    cases k with
    | zero =>
      rw [running_size_zero, total_size_cons]
      have := total_size_nonneg rest hrest
      omega
    | succ k =>
      rw [running_size_succ, total_size_cons]
      have := ih hrest k
      omega

theorem running_size_ge_size (locals : List Obj) (h : ∀ v ∈ locals, 0 ≤ v.ty.size) :
    ∀ (k : Nat) (v : Obj), locals[k]? = some v → v.ty.size ≤ running_size locals k := by
  induction locals with
  | nil => intro k v hk; simp at hk
  | cons w rest ih =>
    intro k v hk
    have hw := h w (List.mem_cons_self _ _)
    have hrest : ∀ v ∈ rest, 0 ≤ v.ty.size := fun v hv => h v (List.mem_cons_of_mem _ hv)
    cases k with
    | zero =>
      simp at hk
      subst hk
      rw [running_size_zero]
    | succ k =>
      simp at hk
      rw [running_size_succ]
      have := ih hrest k v hk
      omega

theorem running_size_strict (locals : List Obj) (h : ∀ v ∈ locals, 0 < v.ty.size) :
    ∀ (j k : Nat), j < k → k < locals.length → running_size locals j < running_size locals k := by
  induction locals with
  | nil => intro j k _ hk; simp at hk
  | cons w rest ih =>
    intro j k hjk hk
    have hrest : ∀ v ∈ rest, 0 < v.ty.size := fun v hv => h v (List.mem_cons_of_mem _ hv)
    have hrest0 : ∀ v ∈ rest, 0 ≤ v.ty.size := fun v hv => le_of_lt (hrest v hv)
    cases k with
    | zero => omega
    | succ k =>
      simp at hk
      rw [running_size_succ]
      cases j with
      | zero =>
        rw [running_size_zero]
        obtain ⟨v, hv⟩ : ∃ v, rest[k]? = some v := ⟨rest[k], by simp [hk]⟩
        have h1 := running_size_ge_size rest hrest0 k v hv
        have h2 := hrest v (List.getElem?_mem hv)
        omega
      | succ j =>
        rw [running_size_succ]
        have := ih hrest j k (by omega) hk
        omega

theorem dvd_running_size (a : Int) (locals : List Obj) :
    ∀ k : Nat, (∀ w ∈ locals.take (k + 1), a ∣ w.ty.size) → a ∣ running_size locals k := by
  intro k h
  unfold running_size
  generalize locals.take (k + 1) = l at h
  induction l with
  | nil => simp [total_size]
  | cons w rest ih =>
    rw [total_size_cons]
    exact dvd_add (h w (List.mem_cons_self _ _)) (ih (fun v hv => h v (List.mem_cons_of_mem _ hv)))

/-- What the pre-pass does to a function cell whose sizes are in range. -/
theorem assign_fn_in_range (fn : Obj) (hfun : fn.is_function = true)
    (hr : SizesInRange fn.locals) :
    (assign_fn fn).locals.length = fn.locals.length ∧
    (∀ (k : Nat) (v : Obj), fn.locals[k]? = some v →
      (assign_fn fn).locals[k]? = some { v with offset := -(running_size fn.locals k) }) ∧
    (assign_fn fn).stack_size = (total_size fn.locals + 15) / 16 * 16 ∧
    assign_fn fn =
      { fn with locals := (assign_fn fn).locals, stack_size := (assign_fn fn).stack_size } := by
  obtain ⟨h0, hmax⟩ := hr
  have hnn := total_size_nonneg fn.locals h0
  obtain ⟨i1, i2, i3⟩ := assign_offsets_chain_spec fn.locals 0 (le_refl _) h0
    (by unfold INT_MAX at *; omega)
  rw [assign_fn_function fn hfun]
  refine ⟨i2, ?_, ?_, rfl⟩
  · intro k v hk
    have := i3 k v hk
    simpa using this
  · simp only [i1, zero_add]
    exact align_to_16 _ hnn hmax

/-! ## Outcomes and primitive steps -/

theorem Outcome.andThen_eq_ok {o : Outcome} {f : CgState → Outcome} {t : CgState} :
    o.andThen f = Outcome.ok t ↔ ∃ s1, o = Outcome.ok s1 ∧ f s1 = Outcome.ok t := by
  cases o with
  | ok s => simp [Outcome.andThen]
  | fail e s => simp [Outcome.andThen]

theorem Outcome.eq_ok_of_isOk {o : Outcome} (h : o.isOk = true) : o = Outcome.ok o.state := by
  cases o with
  | ok s => rfl
  | fail e s => simp [Outcome.isOk] at h

@[simp] theorem cg_log_print_depth (f : String) (a : List FmtArg) (s : CgState) :
    (cg_log_print f a s).depth = s.depth := rfl

@[simp] theorem cg_log_print_count_i (f : String) (a : List FmtArg) (s : CgState) :
    (cg_log_print f a s).count_i = s.count_i := rfl

@[simp] theorem cg_log_print_current_fn (f : String) (a : List FmtArg) (s : CgState) :
    (cg_log_print f a s).current_fn = s.current_fn := rfl

@[simp] theorem cg_log_print_trace (f : String) (a : List FmtArg) (s : CgState) :
    (cg_log_print f a s).trace = s.trace ++ [⟨f, a⟩] := rfl

theorem defined_labels_append (t u : List PrintCall) :
    defined_labels (t ++ u) = defined_labels t ++ defined_labels u := by
  simp [defined_labels]

theorem jump_targets_append (t u : List PrintCall) :
    jump_targets (t ++ u) = jump_targets t ++ jump_targets u := by
  simp [jump_targets]

theorem defined_labels_print (f : String) (a : List FmtArg) (s : CgState) :
    defined_labels (cg_log_print f a s).trace =
      defined_labels s.trace ++ (label_def ⟨f, a⟩).toList := by
  rw [cg_log_print_trace, defined_labels_append]
  cases h : label_def ⟨f, a⟩ <;> simp [defined_labels, h]

theorem jump_targets_print (f : String) (a : List FmtArg) (s : CgState) :
    jump_targets (cg_log_print f a s).trace =
      jump_targets s.trace ++ (jump_target ⟨f, a⟩).toList := by
  rw [cg_log_print_trace, jump_targets_append]
  cases h : jump_target ⟨f, a⟩ <;> simp [jump_targets, h]

/-! ## Effects of expression code -/

theorem ExprEffect.expr_refl (s : CgState) : ExprEffect 0 s s :=
  ⟨by simp, rfl, rfl, rfl, rfl⟩

theorem ExprEffect.expr_trans {a b : Int} {s t u : CgState} (h1 : ExprEffect a s t)
    (h2 : ExprEffect b t u) : ExprEffect (a + b) s u :=
  ⟨by rw [h2.depth, h1.depth]; omega, by rw [h2.current_fn, h1.current_fn],
   by rw [h2.count_i, h1.count_i], by rw [h2.defs, h1.defs], by rw [h2.jumps, h1.jumps]⟩

theorem ExprEffect.expr_cast {a b : Int} {s t : CgState} (h : ExprEffect a s t) (e : a = b) :
    ExprEffect b s t := e ▸ h

theorem label_def_plain (f : String) (a : List FmtArg) (h : is_plain f = true) :
    label_def ⟨f, a⟩ = none := by
  unfold label_def
  split <;> first
    | rfl
    | (rename_i hf _; simp only [] at hf; subst hf; exact absurd h (by decide))

theorem jump_target_plain (f : String) (a : List FmtArg) (h : is_plain f = true) :
    jump_target ⟨f, a⟩ = none := by
  unfold jump_target
  split <;> first
    | rfl
    | (rename_i hf _; simp only [] at hf; subst hf; exact absurd h (by decide))

/-- A print call that neither defines a label nor jumps. -/
theorem ExprEffect.print (f : String) (a : List FmtArg) (s : CgState)
    (h : is_plain f = true) : ExprEffect 0 s (cg_log_print f a s) :=
  ⟨by simp, rfl, rfl, by rw [defined_labels_print, label_def_plain f a h]; simp,
   by rw [jump_targets_print, jump_target_plain f a h]; simp⟩

theorem push_effect (s : CgState) : ExprEffect 1 s (push s) :=
  ⟨rfl, rfl, rfl, (ExprEffect.print "  push %%rax\n" [] s rfl).defs,
   (ExprEffect.print "  push %%rax\n" [] s rfl).jumps⟩

theorem pop_effect (arg : String) (s : CgState) : ExprEffect (-1) s (pop arg s) :=
  ⟨rfl, rfl, rfl, (ExprEffect.print "  pop %s\n" [FmtArg.str arg] s rfl).defs,
   (ExprEffect.print "  pop %s\n" [FmtArg.str arg] s rfl).jumps⟩

theorem load_effect (ty : Option CType) (s t : CgState) (h : load ty s = Outcome.ok t) :
    ExprEffect 0 s t := by
  unfold load at h
  split at h
  · simp at h
  · split_ifs at h <;> injection h with h <;> subst h
    · exact ExprEffect.expr_refl s
    · exact ExprEffect.print _ _ _ (by decide)
    · exact ExprEffect.print _ _ _ (by decide)

theorem store_effect (ty : Option CType) (s t : CgState) (h : store ty s = Outcome.ok t) :
    ExprEffect (-1) s t := by
  unfold store at h
  split at h
  · simp at h
  · split_ifs at h <;> injection h with h <;> subst h
    · exact ((pop_effect "%rdi" s).expr_trans (ExprEffect.print _ _ _ (by decide))).expr_cast (by omega)
    · exact ((pop_effect "%rdi" s).expr_trans (ExprEffect.print _ _ _ (by decide))).expr_cast (by omega)

theorem gen_addr_var_effect (heap : List Obj) (var : Option ObjPtr) (s t : CgState)
    (h : gen_addr_var heap var s = Outcome.ok t) : ExprEffect 0 s t := by
  unfold gen_addr_var at h
  split at h
  · simp at h
  · split at h
    · simp at h
    · split_ifs at h <;> injection h with h <;> subst h
      · exact ExprEffect.print _ _ _ (by decide)
      · exact ExprEffect.print _ _ _ (by decide)

theorem pop_args_effect : ∀ (n : Nat) (s t : CgState), pop_args n s = Outcome.ok t →
    ExprEffect (-(n : Int)) s t
  | 0, s, t, h => by
    simp only [pop_args] at h
    injection h with h
    subst h
    exact (ExprEffect.expr_refl s).expr_cast (by simp)
  | n + 1, s, t, h => by
    simp only [pop_args] at h
    split at h
    · simp at h
    · exact ((pop_effect _ s).expr_trans (pop_args_effect n _ t h)).expr_cast (by push_cast; omega)

theorem ExprEffect.print2 (f1 f2 : String) (a1 a2 : List FmtArg) (s : CgState)
    (h1 : is_plain f1 = true) (h2 : is_plain f2 = true) :
    ExprEffect 0 s (cg_log_print f2 a2 (cg_log_print f1 a1 s)) :=
  ((ExprEffect.print f1 a1 s h1).expr_trans (ExprEffect.print f2 a2 _ h2)).expr_cast (by omega)

theorem ExprEffect.print3 (f1 f2 f3 : String) (a1 a2 a3 : List FmtArg) (s : CgState)
    (h1 : is_plain f1 = true) (h2 : is_plain f2 = true) (h3 : is_plain f3 = true) :
    ExprEffect 0 s (cg_log_print f3 a3 (cg_log_print f2 a2 (cg_log_print f1 a1 s))) :=
  ((ExprEffect.print2 f1 f2 a1 a2 s h1 h2).expr_trans (ExprEffect.print f3 a3 _ h3)).expr_cast (by omega)

theorem gen_binop_effect (kind : NodeKind) (s t : CgState)
    (h : gen_binop kind s = Outcome.ok t) : ExprEffect 0 s t := by
  cases kind
  case ND_ADD => injection h with h; subst h; exact ExprEffect.print _ _ _ (by decide)
  case ND_SUB => injection h with h; subst h; exact ExprEffect.print _ _ _ (by decide)
  case ND_MUL => injection h with h; subst h; exact ExprEffect.print _ _ _ (by decide)
  case ND_DIV =>
    injection h with h; subst h
    exact ExprEffect.print2 _ _ _ _ _ (by decide) (by decide)
  case ND_EQ =>
    injection h with h; subst h
    exact ExprEffect.print3 _ _ _ _ _ _ _ (by decide) (by decide) (by decide)
  case ND_NE =>
    injection h with h; subst h
    exact ExprEffect.print3 _ _ _ _ _ _ _ (by decide) (by decide) (by decide)
  case ND_LT =>
    injection h with h; subst h
    exact ExprEffect.print3 _ _ _ _ _ _ _ (by decide) (by decide) (by decide)
  case ND_LE =>
    injection h with h; subst h
    exact ExprEffect.print3 _ _ _ _ _ _ _ (by decide) (by decide) (by decide)
  all_goals (simp [gen_binop] at h)
mutual
theorem gen_addr_effect (heap : List Obj) :
    ∀ (node : Node) (s t : CgState), gen_addr heap node s = Outcome.ok t → ExprEffect 0 s t
  | Node.mk kind ty lhs rhs cond then_ els init inc body funcname args var val, s, t, h => by
    cases kind
    case ND_VAR => exact gen_addr_var_effect heap var s t h
    case ND_DEREF => exact gen_expr_ptr_effect heap lhs s t h
    all_goals (simp [gen_addr] at h)
theorem gen_expr_effect (heap : List Obj) :
    ∀ (node : Node) (s t : CgState), gen_expr heap node s = Outcome.ok t → ExprEffect 0 s t
  | Node.mk kind ty lhs rhs cond then_ els init inc body funcname args var val, s, t, h => by
    have binary : ∀ k : NodeKind,
        ((gen_expr_ptr heap rhs s).andThen fun s =>
          (gen_expr_ptr heap lhs (push s)).andThen fun s =>
          gen_binop k (pop "%rdi" s)) = Outcome.ok t → ExprEffect 0 s t := by
      intro k hk
      obtain ⟨s1, h1, hk⟩ := Outcome.andThen_eq_ok.1 hk
      obtain ⟨s2, h2, hk⟩ := Outcome.andThen_eq_ok.1 hk
      exact ((((gen_expr_ptr_effect heap rhs s s1 h1).expr_trans (push_effect s1)).expr_trans
        (gen_expr_ptr_effect heap lhs _ s2 h2)).expr_trans
        ((pop_effect "%rdi" s2).expr_trans (gen_binop_effect k _ t hk))).expr_cast (by omega)
    cases kind
    case ND_NUM =>
      injection h with h; subst h
      exact ExprEffect.print _ _ _ (by decide)
    case ND_NEG =>
      obtain ⟨s1, h1, h⟩ := Outcome.andThen_eq_ok.1 h
      injection h with h; subst h
      exact ((gen_expr_ptr_effect heap lhs s s1 h1).expr_trans
        (ExprEffect.print _ _ _ (by decide))).expr_cast (by omega)
    case ND_VAR =>
      obtain ⟨s1, h1, h⟩ := Outcome.andThen_eq_ok.1 h
      exact ((gen_addr_var_effect heap var s s1 h1).expr_trans (load_effect ty s1 t h)).expr_cast (by omega)
    case ND_DEREF =>
      obtain ⟨s1, h1, h⟩ := Outcome.andThen_eq_ok.1 h
      exact ((gen_expr_ptr_effect heap lhs s s1 h1).expr_trans (load_effect ty s1 t h)).expr_cast (by omega)
    case ND_ADDR => exact gen_addr_ptr_effect heap lhs s t h
    case ND_ASSIGN =>
      obtain ⟨s1, h1, h⟩ := Outcome.andThen_eq_ok.1 h
      obtain ⟨s2, h2, h⟩ := Outcome.andThen_eq_ok.1 h
      exact ((((gen_addr_ptr_effect heap lhs s s1 h1).expr_trans (push_effect s1)).expr_trans
        (gen_expr_ptr_effect heap rhs _ s2 h2)).expr_trans (store_effect ty s2 t h)).expr_cast (by omega)
    case ND_FUNCALL =>
      obtain ⟨s1, h1, h⟩ := Outcome.andThen_eq_ok.1 h
      obtain ⟨s2, h2, h⟩ := Outcome.andThen_eq_ok.1 h
      injection h with h; subst h
      exact (((gen_args_effect heap args s s1 h1).expr_trans (pop_args_effect _ s1 s2 h2)).expr_trans
        (ExprEffect.print2 _ _ _ _ s2 (by decide) (by decide))).expr_cast (by omega)
    all_goals exact binary _ h
theorem gen_addr_ptr_effect (heap : List Obj) :
    ∀ (p : Option Node) (s t : CgState), gen_addr_ptr heap p s = Outcome.ok t → ExprEffect 0 s t
  | none, s, t, h => by simp [gen_addr_ptr] at h
  | some node, s, t, h => gen_addr_effect heap node s t h
theorem gen_expr_ptr_effect (heap : List Obj) :
    ∀ (p : Option Node) (s t : CgState), gen_expr_ptr heap p s = Outcome.ok t → ExprEffect 0 s t
  | none, s, t, h => by simp [gen_expr_ptr] at h
  | some node, s, t, h => gen_expr_effect heap node s t h
theorem gen_args_effect (heap : List Obj) :
    ∀ (args : List Node) (s t : CgState), gen_args heap args s = Outcome.ok t →
      ExprEffect (args.length : Int) s t
  | [], s, t, h => by
    simp only [gen_args] at h
    injection h with h; subst h
    exact (ExprEffect.expr_refl s).expr_cast (by simp)
  | arg :: rest, s, t, h => by
    simp only [gen_args] at h
    obtain ⟨s1, h1, h⟩ := Outcome.andThen_eq_ok.1 h
    exact (((gen_expr_effect heap arg s s1 h1).expr_trans (push_effect s1)).expr_trans
      (gen_args_effect heap rest _ t h)).expr_cast (by simp; omega)
end
/-- In its `ND_VAR` arm `gen_expr` calls `gen_addr(node)` on the node itself
and then `load(node->ty)`. -/
theorem gen_expr_var (heap : List Obj) (node : Node) (s : CgState)
    (h : node.kind = NodeKind.ND_VAR) :
    gen_expr heap node s = (gen_addr heap node s).andThen fun s => load node.ty s := by
  cases node
  simp only at h
  subst h
  simp only [gen_expr, gen_addr]

/-! ## Labels of statement code -/

@[simp] theorem label_def_else (c : Int) :
    label_def ⟨".L.else.%d:\n", [FmtArg.int c]⟩ = some (Label.else_ c) := rfl

@[simp] theorem label_def_begin (c : Int) :
    label_def ⟨".L.begin.%d:\n", [FmtArg.int c]⟩ = some (Label.begin_ c) := rfl

@[simp] theorem label_def_end (c : Int) :
    label_def ⟨".L.end.%d:\n", [FmtArg.int c]⟩ = some (Label.end_ c) := rfl

@[simp] theorem label_def_return (name : String) :
    label_def ⟨".L.return.%s:\n", [FmtArg.str name]⟩ = some (Label.ret name) := rfl

@[simp] theorem label_def_je_else (c : Int) :
    label_def ⟨"  je  .L.else.%d\n", [FmtArg.int c]⟩ = none := rfl

@[simp] theorem label_def_jmp_end (c : Int) :
    label_def ⟨"  jmp .L.end.%d\n", [FmtArg.int c]⟩ = none := rfl

@[simp] theorem label_def_je_end (c : Int) :
    label_def ⟨"  je  .L.end.%d\n", [FmtArg.int c]⟩ = none := rfl

@[simp] theorem label_def_jmp_begin (c : Int) :
    label_def ⟨"  jmp .L.begin.%d\n", [FmtArg.int c]⟩ = none := rfl

@[simp] theorem label_def_jmp_return (name : String) :
    label_def ⟨"  jmp .L.return.%s\n", [FmtArg.str name]⟩ = none := rfl

@[simp] theorem jump_target_else (c : Int) :
    jump_target ⟨".L.else.%d:\n", [FmtArg.int c]⟩ = none := rfl

@[simp] theorem jump_target_begin (c : Int) :
    jump_target ⟨".L.begin.%d:\n", [FmtArg.int c]⟩ = none := rfl

@[simp] theorem jump_target_end (c : Int) :
    jump_target ⟨".L.end.%d:\n", [FmtArg.int c]⟩ = none := rfl

@[simp] theorem jump_target_return (name : String) :
    jump_target ⟨".L.return.%s:\n", [FmtArg.str name]⟩ = none := rfl

@[simp] theorem jump_target_je_else (c : Int) :
    jump_target ⟨"  je  .L.else.%d\n", [FmtArg.int c]⟩ = some (Label.else_ c) := rfl

@[simp] theorem jump_target_jmp_end (c : Int) :
    jump_target ⟨"  jmp .L.end.%d\n", [FmtArg.int c]⟩ = some (Label.end_ c) := rfl

@[simp] theorem jump_target_je_end (c : Int) :
    jump_target ⟨"  je  .L.end.%d\n", [FmtArg.int c]⟩ = some (Label.end_ c) := rfl

@[simp] theorem jump_target_jmp_begin (c : Int) :
    jump_target ⟨"  jmp .L.begin.%d\n", [FmtArg.int c]⟩ = some (Label.begin_ c) := rfl

@[simp] theorem jump_target_jmp_return (name : String) :
    jump_target ⟨"  jmp .L.return.%s\n", [FmtArg.str name]⟩ = some (Label.ret name) := rfl

theorem LabelsGood.lg_nil (c : Int) (cf : Option String) : LabelsGood c c cf [] [] :=
  ⟨by simp, by simp, List.nodup_nil, by simp, by intro c' h1 h2; omega⟩

theorem LabelsGood.lg_cast {lo hi lo' hi' : Int} {cf : Option String} {D J : List Label}
    (h : LabelsGood lo hi cf D J) (e1 : lo = lo') (e2 : hi = hi') :
    LabelsGood lo' hi' cf D J := by
  subst e1; subst e2; exact h

theorem LabelsGood.lg_append {lo mid hi : Int} {cf : Option String} {D1 J1 D2 J2 : List Label}
    (h1 : LabelsGood lo mid cf D1 J1) (h2 : LabelsGood mid hi cf D2 J2)
    (hlo : lo ≤ mid) (hhi : mid ≤ hi) : LabelsGood lo hi cf (D1 ++ D2) (J1 ++ J2) := by
  refine ⟨?_, ?_, ?_, ?_, ?_⟩
  · intro l hl
    rcases List.mem_append.1 hl with hl | hl
    · rcases h1.jumps l hl with h | h
      · exact Or.inl (List.mem_append_left _ h)
      · exact Or.inr h
    · rcases h2.jumps l hl with h | h
      · exact Or.inl (List.mem_append_right _ h)
      · exact Or.inr h
  · intro l hl
    rcases List.mem_append.1 hl with hl | hl
    · obtain ⟨c, e, a, b⟩ := h1.range l hl
      exact ⟨c, e, a, by omega⟩
    · obtain ⟨c, e, a, b⟩ := h2.range l hl
      exact ⟨c, e, by omega, b⟩
  · rw [List.nodup_append]
    refine ⟨h1.nodup, h2.nodup, ?_⟩
    intro l hl1 hl2
    obtain ⟨c, e, a, b⟩ := h1.range l hl1
    obtain ⟨c', e', a', b'⟩ := h2.range l hl2
    rw [e] at e'
    injection e' with e'
    omega
  · intro c
    constructor
    · intro hl
      rcases List.mem_append.1 hl with hl | hl
      · exact List.mem_append_left _ ((h1.used c).1 hl)
      · exact List.mem_append_right _ ((h2.used c).1 hl)
    · intro hl
      rcases List.mem_append.1 hl with hl | hl
      · exact List.mem_append_left _ ((h1.used c).2 hl)
      · exact List.mem_append_right _ ((h2.used c).2 hl)
  · intro c a b
    by_cases hc : c < mid
    · exact List.mem_append_left _ (h1.ends c a hc)
    · exact List.mem_append_right _ (h2.ends c (by omega) b)

/-- The labels of a `return`: one jump to the return label of the function. -/
theorem LabelsGood.ret (c : Int) (name : String) :
    LabelsGood c c (some name) [] [Label.ret name] :=
  ⟨by intro l hl; simp at hl; exact Or.inr ⟨name, rfl, hl⟩, by simp, List.nodup_nil,
   by simp, by intro c' h1 h2; omega⟩

theorem LabelsGood.congr {lo hi : Int} {cf : Option String} {D J D' J' : List Label}
    (h : LabelsGood lo hi cf D J) (hD : D.Perm D') (hJ : ∀ l, l ∈ J ↔ l ∈ J') :
    LabelsGood lo hi cf D' J' := by
  refine ⟨?_, ?_, hD.nodup_iff.1 h.nodup, ?_, ?_⟩
  · intro l hl
    rcases h.jumps l ((hJ l).2 hl) with h' | h'
    · exact Or.inl (hD.mem_iff.1 h')
    · exact Or.inr h'
  · intro l hl
    exact h.range l (hD.mem_iff.2 hl)
  · intro c
    exact ⟨fun hl => (hJ _).1 ((h.used c).1 (hD.mem_iff.2 hl)),
      fun hl => (hJ _).1 ((h.used c).2 (hD.mem_iff.2 hl))⟩
  · intro c a b
    exact hD.mem_iff.1 (h.ends c a b)

/-- The labels an `if` adds by itself: `.L.else.c` and `.L.end.c`, both defined
and both jumped to. -/
theorem LabelsGood.if_core (c : Int) (cf : Option String) :
    LabelsGood c (c + 1) cf [Label.else_ c, Label.end_ c] [Label.else_ c, Label.end_ c] := by
  refine ⟨fun l hl => Or.inl hl, ?_, by simp, ?_, ?_⟩
  · intro l hl
    simp at hl
    rcases hl with rfl | rfl <;> exact ⟨c, rfl, by omega, by omega⟩
  · intro c'
    simp
  · intro c' a b
    have : c' = c := by omega
    subst this
    simp

/-- The labels a loop adds by itself: `.L.begin.c` and `.L.end.c` are defined,
`.L.begin.c` is jumped to, and `.L.end.c` is jumped to only from the condition,
if there is one. -/
theorem LabelsGood.for_core (c : Int) (cf : Option String) (Jc : List Label)
    (hJc : ∀ l ∈ Jc, l = Label.end_ c) :
    LabelsGood c (c + 1) cf [Label.begin_ c, Label.end_ c] (Label.begin_ c :: Jc) := by
  refine ⟨?_, ?_, by simp, ?_, ?_⟩
  · intro l hl
    simp at hl
    rcases hl with rfl | hl
    · exact Or.inl (by simp)
    · rw [hJc l hl]
      exact Or.inl (by simp)
  · intro l hl
    simp at hl
    rcases hl with rfl | rfl <;> exact ⟨c, rfl, by omega, by omega⟩
  · intro c'
    simp
    intro h
    exact Or.inl h
  · intro c' a b
    have : c' = c := by omega
    subst this
    simp

theorem LabelsGood.if_ {c : Int} {k1 k2 : Nat} {cf : Option String} {D1 J1 D2 J2 : List Label}
    (h1 : LabelsGood (c + 1) (c + 1 + k1) cf D1 J1)
    (h2 : LabelsGood (c + 1 + k1) (c + 1 + k1 + k2) cf D2 J2) :
    LabelsGood c (c + 1 + k1 + k2) cf
      (D1 ++ Label.else_ c :: (D2 ++ [Label.end_ c]))
      (Label.else_ c :: (J1 ++ Label.end_ c :: J2)) := by
  have h := ((LabelsGood.if_core c cf).lg_append h1 (by omega) (by omega)).lg_append h2
    (by omega) (by omega)
  refine h.congr ?_ ?_
  · refine List.Perm.symm (List.perm_middle.trans (List.Perm.cons _ ?_))
    rw [← List.append_assoc]
    exact List.perm_append_singleton _ _
  · intro l
    simp only [List.mem_append, List.mem_cons, List.mem_singleton, List.not_mem_nil, or_false]
    tauto

theorem LabelsGood.for_ {c : Int} {k0 k1 : Nat} {cf : Option String}
    {D0 J0 D1 J1 Jc : List Label}
    (h0 : LabelsGood (c + 1) (c + 1 + k0) cf D0 J0)
    (h1 : LabelsGood (c + 1 + k0) (c + 1 + k0 + k1) cf D1 J1)
    (hJc : ∀ l ∈ Jc, l = Label.end_ c) :
    LabelsGood c (c + 1 + k0 + k1) cf
      (D0 ++ Label.begin_ c :: (D1 ++ [Label.end_ c]))
      (J0 ++ (Jc ++ (J1 ++ [Label.begin_ c]))) := by
  have h := ((LabelsGood.for_core c cf Jc hJc).lg_append h0 (by omega) (by omega)).lg_append h1
    (by omega) (by omega)
  refine h.congr ?_ ?_
  · refine List.Perm.symm (List.perm_middle.trans (List.Perm.cons _ ?_))
    rw [← List.append_assoc]
    exact List.perm_append_singleton _ _
  · intro l
    simp only [List.mem_append, List.mem_cons, List.mem_singleton, List.not_mem_nil, or_false]
    tauto

/-! ## Effects of statement code -/

@[simp] theorem count_fst (s : CgState) : (count s).1 = s.count_i := rfl

@[simp] theorem count_snd_count_i (s : CgState) : (count s).2.count_i = s.count_i + 1 := rfl

@[simp] theorem count_snd_depth (s : CgState) : (count s).2.depth = s.depth := rfl

@[simp] theorem count_snd_current_fn (s : CgState) : (count s).2.current_fn = s.current_fn := rfl

@[simp] theorem count_snd_trace (s : CgState) : (count s).2.trace = s.trace := rfl

theorem LabelsGood.lg_cast3 {lo hi lo' hi' : Int} {cf cf' : Option String} {D J : List Label}
    (h : LabelsGood lo hi cf D J) (e1 : lo = lo') (e2 : hi = hi') (e3 : cf = cf') :
    LabelsGood lo' hi' cf' D J := by
  subst e1; subst e2; subst e3; exact h

theorem StmtEffect.of_expr {s t : CgState} (h : ExprEffect 0 s t) : StmtEffect 0 s t :=
  ⟨by rw [h.depth]; omega, h.current_fn, by rw [h.count_i]; simp,
   [], [], by rw [h.defs]; simp, by rw [h.jumps]; simp,
   (LabelsGood.lg_nil _ _).lg_cast rfl (by simp)⟩

theorem StmtEffect.stmt_cast {a b : Nat} {s t : CgState} (h : StmtEffect a s t) (e : a = b) :
    StmtEffect b s t := e ▸ h

theorem StmtEffect.stmt_trans {a b : Nat} {s t u : CgState} (h1 : StmtEffect a s t)
    (h2 : StmtEffect b t u) : StmtEffect (a + b) s u := by
  obtain ⟨D1, J1, d1, j1, g1⟩ := h1.labels
  obtain ⟨D2, J2, d2, j2, g2⟩ := h2.labels
  refine ⟨by rw [h2.depth, h1.depth], by rw [h2.current_fn, h1.current_fn],
    by rw [h2.count_i, h1.count_i]; push_cast; omega, D1 ++ D2, J1 ++ J2,
    by rw [d2, d1, List.append_assoc], by rw [j2, j1, List.append_assoc], ?_⟩
  have g2' := g2.lg_cast3 h1.count_i (by rw [h1.count_i]) (by rw [h1.current_fn])
  exact (g1.lg_append g2' (by omega) (by omega)).lg_cast rfl (by push_cast; omega)

theorem gen_return_jmp_effect (s t : CgState) (h : gen_return_jmp s = Outcome.ok t) :
    StmtEffect 0 s t := by
  unfold gen_return_jmp at h
  split at h
  · simp at h
  · rename_i fn hfn
    injection h with h; subst h
    refine ⟨rfl, rfl, by simp, [], [Label.ret fn.name], ?_, ?_, ?_⟩
    · rw [defined_labels_print]; simp
    · rw [jump_targets_print]; simp
    · rw [hfn]
      exact (LabelsGood.ret _ _).lg_cast rfl (by simp)

theorem gen_for_inc_effect (heap : List Obj) (inc : Option Node) (s t : CgState)
    (h : gen_for_inc heap inc s = Outcome.ok t) : ExprEffect 0 s t := by
  unfold gen_for_inc at h
  split at h
  · injection h with h; subst h; exact ExprEffect.expr_refl s
  · exact gen_expr_effect heap _ s t h

/-- The optional condition of a loop: expression code, then at most one jump,
to `.L.end.c`. -/
theorem gen_for_cond_effect (heap : List Obj) (cond : Option Node) (c : Int) (s t : CgState)
    (h : gen_for_cond heap cond c s = Outcome.ok t) :
    t.depth = s.depth ∧ t.current_fn = s.current_fn ∧ t.count_i = s.count_i ∧
    defined_labels t.trace = defined_labels s.trace ∧
    ∃ Jc, jump_targets t.trace = jump_targets s.trace ++ Jc ∧ ∀ l ∈ Jc, l = Label.end_ c := by
  unfold gen_for_cond at h
  split at h
  · injection h with h; subst h
    exact ⟨rfl, rfl, rfl, rfl, [], by simp, by simp⟩
  · obtain ⟨s1, h1, h⟩ := Outcome.andThen_eq_ok.1 h
    injection h with h; subst h
    have e := gen_expr_effect heap _ s s1 h1
    refine ⟨by simp [e.depth], by simp [e.current_fn], by simp [e.count_i], ?_,
      [Label.end_ c], ?_, by simp⟩
    · rw [defined_labels_print, defined_labels_print, e.defs]
      simp [label_def_plain "  cmp $0, %%rax\n" [] (by decide)]
    · rw [jump_targets_print, jump_targets_print, e.jumps]
      simp [jump_target_plain "  cmp $0, %%rax\n" [] (by decide)]

theorem if_effect (s s1 s2 s3 : CgState) (k1 k2 : Nat)
    (hc : ExprEffect 0 (count s).2 s1)
    (h1 : StmtEffect k1
      (cg_log_print "  je  .L.else.%d\n" [FmtArg.int (count s).1]
        (cg_log_print "  cmp $0, %%rax\n" [] s1)) s2)
    (h2 : StmtEffect k2
      (cg_log_print ".L.else.%d:\n" [FmtArg.int (count s).1]
        (cg_log_print "  jmp .L.end.%d\n" [FmtArg.int (count s).1] s2)) s3) :
    StmtEffect (1 + k1 + k2) s (cg_log_print ".L.end.%d:\n" [FmtArg.int (count s).1] s3) := by
  obtain ⟨D1, J1, d1, j1, g1⟩ := h1.labels
  obtain ⟨D2, J2, d2, j2, g2⟩ := h2.labels
  have hd1 := h1.depth
  have hd2 := h2.depth
  have hf1 := h1.current_fn
  have hf2 := h2.current_fn
  have hc1 := h1.count_i
  have hc2 := h2.count_i
  have pc := label_def_plain "  cmp $0, %%rax\n" [] (by decide)
  have pj := jump_target_plain "  cmp $0, %%rax\n" [] (by decide)
  simp only [cg_log_print_depth, cg_log_print_current_fn, cg_log_print_count_i, count_fst,
    hc.depth, hc.current_fn, hc.count_i, count_snd_depth, count_snd_current_fn,
    count_snd_count_i] at hd1 hd2 hf1 hf2 hc1 hc2 g1 g2
  simp only [defined_labels_print, jump_targets_print, count_fst, label_def_je_else,
    label_def_jmp_end, label_def_else, jump_target_je_else, jump_target_jmp_end,
    jump_target_else, pc, pj, hc.defs, hc.jumps, count_snd_trace, Option.toList,
    List.append_nil] at d1 j1 d2 j2
  refine ⟨by simp [hd2, hd1], by simp [hf2, hf1], by simp [hc2, hc1]; omega,
    D1 ++ Label.else_ s.count_i :: (D2 ++ [Label.end_ s.count_i]),
    Label.else_ s.count_i :: (J1 ++ Label.end_ s.count_i :: J2), ?_, ?_, ?_⟩
  · simp only [defined_labels_print, count_fst, label_def_end, Option.toList, d2, d1]
    simp [List.append_assoc]
  · simp only [jump_targets_print, count_fst, jump_target_end, Option.toList, j2, j1]
    simp [List.append_assoc]
  · rw [hf1] at g2
    have g2' := g2.lg_cast3 hc1 (by rw [hc1]) rfl
    exact (LabelsGood.if_ g1 g2').lg_cast rfl (by push_cast; omega)

theorem for_effect (s s1 s2 s3 s4 : CgState) (k0 k1 : Nat)
    (h0 : StmtEffect k0 (count s).2 s1)
    (hcond : s2.depth = (cg_log_print ".L.begin.%d:\n" [FmtArg.int (count s).1] s1).depth ∧
      s2.current_fn = (cg_log_print ".L.begin.%d:\n" [FmtArg.int (count s).1] s1).current_fn ∧
      s2.count_i = (cg_log_print ".L.begin.%d:\n" [FmtArg.int (count s).1] s1).count_i ∧
      defined_labels s2.trace =
        defined_labels (cg_log_print ".L.begin.%d:\n" [FmtArg.int (count s).1] s1).trace ∧
      ∃ Jc, jump_targets s2.trace =
        jump_targets (cg_log_print ".L.begin.%d:\n" [FmtArg.int (count s).1] s1).trace ++ Jc ∧
        ∀ l ∈ Jc, l = Label.end_ (count s).1)
    (h1 : StmtEffect k1 s2 s3)
    (hinc : ExprEffect 0 s3 s4) :
    StmtEffect (1 + k0 + k1) s
      (cg_log_print ".L.end.%d:\n" [FmtArg.int (count s).1]
        (cg_log_print "  jmp .L.begin.%d\n" [FmtArg.int (count s).1] s4)) := by
  obtain ⟨D0, J0, d0, j0, g0⟩ := h0.labels
  obtain ⟨D1, J1, d1, j1, g1⟩ := h1.labels
  obtain ⟨cd, cf, cc, cdefs, Jc, cj, hJc⟩ := hcond
  have hd0 := h0.depth
  have hd1 := h1.depth
  have hf0 := h0.current_fn
  have hf1 := h1.current_fn
  have hc0 := h0.count_i
  have hc1 := h1.count_i
  simp only [cg_log_print_depth, cg_log_print_current_fn, cg_log_print_count_i, count_fst,
    count_snd_depth, count_snd_current_fn, count_snd_count_i] at hd0 hf0 hc0 cd cf cc g0 hJc
  simp only [defined_labels_print, jump_targets_print, count_fst, label_def_begin,
    jump_target_begin, count_snd_trace, Option.toList, List.append_nil] at d0 j0 cdefs cj
  refine ⟨by simp [hinc.depth, hd1, cd, hd0], by simp [hinc.current_fn, hf1, cf, hf0],
    by simp [hinc.count_i, hc1, cc, hc0]; omega,
    D0 ++ Label.begin_ s.count_i :: (D1 ++ [Label.end_ s.count_i]),
    J0 ++ (Jc ++ (J1 ++ [Label.begin_ s.count_i])), ?_, ?_, ?_⟩
  · simp only [defined_labels_print, count_fst, label_def_end, label_def_jmp_begin,
      Option.toList, hinc.defs, d1, cdefs, d0]
    simp [List.append_assoc]
  · simp only [jump_targets_print, count_fst, jump_target_end, jump_target_jmp_begin,
      Option.toList, hinc.jumps, j1, cj, j0]
    simp [List.append_assoc]
  · have g1' := g1.lg_cast3 (cc.trans hc0) (by rw [cc, hc0]) (by rw [cf, hf0])
    exact (LabelsGood.for_ g0 g1' hJc).lg_cast rfl (by push_cast; omega)

mutual
theorem gen_stmt_effect (heap : List Obj) :
    ∀ (node : Node) (s t : CgState), gen_stmt heap node s = Outcome.ok t →
      StmtEffect (cf_count node) s t
  | Node.mk kind ty lhs rhs cond then_ els init inc body funcname args var val, s, t, h => by
    cases kind
    case ND_IF =>
      simp only [gen_stmt] at h
      obtain ⟨s1, hc, h⟩ := Outcome.andThen_eq_ok.1 h
      obtain ⟨s2, h1, h⟩ := Outcome.andThen_eq_ok.1 h
      obtain ⟨s3, h2, h⟩ := Outcome.andThen_eq_ok.1 h
      injection h with h; subst h
      simp only [cf_count]
      exact if_effect s s1 s2 s3 _ _ (gen_expr_ptr_effect heap cond _ s1 hc)
        (gen_stmt_ptr_effect heap then_ _ s2 h1) (gen_stmt_opt_effect heap els _ s3 h2)
    case ND_FOR =>
      simp only [gen_stmt] at h
      obtain ⟨s1, h0, h⟩ := Outcome.andThen_eq_ok.1 h
      obtain ⟨s2, hc, h⟩ := Outcome.andThen_eq_ok.1 h
      obtain ⟨s3, h1, h⟩ := Outcome.andThen_eq_ok.1 h
      obtain ⟨s4, hi, h⟩ := Outcome.andThen_eq_ok.1 h
      injection h with h; subst h
      simp only [cf_count]
      exact for_effect s s1 s2 s3 s4 _ _ (gen_stmt_opt_effect heap init _ s1 h0)
        (gen_for_cond_effect heap cond _ _ s2 hc) (gen_stmt_ptr_effect heap then_ s2 s3 h1)
        (gen_for_inc_effect heap inc s3 s4 hi)
    case ND_BLOCK =>
      simp only [gen_stmt] at h
      simp only [cf_count]
      exact gen_stmt_list_effect heap body s t h
    case ND_RETURN =>
      simp only [gen_stmt] at h
      obtain ⟨s1, h1, h⟩ := Outcome.andThen_eq_ok.1 h
      simp only [cf_count]
      exact ((StmtEffect.of_expr (gen_expr_ptr_effect heap lhs s s1 h1)).stmt_trans
        (gen_return_jmp_effect s1 t h)).stmt_cast (by omega)
    case ND_EXPR_STMT =>
      simp only [gen_stmt] at h
      simp only [cf_count]
      exact StmtEffect.of_expr (gen_expr_ptr_effect heap lhs s t h)
    all_goals (simp [gen_stmt] at h)
theorem gen_stmt_ptr_effect (heap : List Obj) :
    ∀ (p : Option Node) (s t : CgState), gen_stmt_ptr heap p s = Outcome.ok t →
      StmtEffect (cf_count_opt p) s t
  | none, s, t, h => by simp [gen_stmt_ptr] at h
  | some node, s, t, h => by
    simp only [cf_count_opt]
    exact gen_stmt_effect heap node s t h
theorem gen_stmt_opt_effect (heap : List Obj) :
    ∀ (p : Option Node) (s t : CgState), gen_stmt_opt heap p s = Outcome.ok t →
      StmtEffect (cf_count_opt p) s t
  | none, s, t, h => by
    simp only [gen_stmt_opt] at h
    injection h with h; subst h
    simp only [cf_count_opt]
    exact StmtEffect.of_expr (ExprEffect.expr_refl s)
  | some node, s, t, h => by
    simp only [cf_count_opt]
    exact gen_stmt_effect heap node s t h
theorem gen_stmt_list_effect (heap : List Obj) :
    ∀ (body : List Node) (s t : CgState), gen_stmt_list heap body s = Outcome.ok t →
      StmtEffect (cf_count_list body) s t
  | [], s, t, h => by
    simp only [gen_stmt_list] at h
    injection h with h; subst h
    simp only [cf_count_list]
    exact StmtEffect.of_expr (ExprEffect.expr_refl s)
  | node :: rest, s, t, h => by
    simp only [gen_stmt_list] at h
    obtain ⟨s1, h1, h⟩ := Outcome.andThen_eq_ok.1 h
    simp only [cf_count_list]
    exact (gen_stmt_effect heap node s s1 h1).stmt_trans (gen_stmt_list_effect heap rest s1 t h)
end

/-! ## Effects of the data and text sections -/

theorem ProgLabels.pl_nil (c : Int) : ProgLabels c c [] [] :=
  ⟨by simp, by simp, by simp, by simp, by intro c' h1 h2; omega⟩

theorem ProgLabels.pl_cast {lo hi lo' hi' : Int} {D J : List Label}
    (h : ProgLabels lo hi D J) (e1 : lo = lo') (e2 : hi = hi') : ProgLabels lo' hi' D J := by
  subst e1; subst e2; exact h

/-- The labels of one function: those of its body, and its return label. -/
theorem ProgLabels.of_function {lo hi : Int} {name : String} {D J : List Label}
    (h : LabelsGood lo hi (some name) D J) : ProgLabels lo hi (D ++ [Label.ret name]) J := by
  refine ⟨?_, ?_, ?_, ?_, ?_⟩
  · intro l hl
    rcases h.jumps l hl with h' | ⟨n, hn, h'⟩
    · exact List.mem_append_left _ h'
    · injection hn with hn
      subst hn; subst h'
      simp
  · intro l hl c hc
    rcases List.mem_append.1 hl with hl | hl
    · obtain ⟨c', e, a, b⟩ := h.range l hl
      rw [e] at hc
      injection hc with hc
      omega
    · simp at hl
      subst hl
      simp [Label.number] at hc
  · intro l hl hn
    rcases List.mem_append.1 hl with hl | hl
    · rw [List.count_append, List.count_eq_one_of_mem h.nodup hl]
      have : l ≠ Label.ret name := by
        intro e; subst e; simp [Label.number] at hn
      simp [List.count_cons, this]
    · simp at hl
      subst hl
      simp [Label.number] at hn
  · intro c
    constructor
    · intro hl
      rcases List.mem_append.1 hl with hl | hl
      · exact (h.used c).1 hl
      · simp at hl
    · intro hl
      rcases List.mem_append.1 hl with hl | hl
      · exact (h.used c).2 hl
      · simp at hl
  · intro c a b
    exact List.mem_append_left _ (h.ends c a b)

theorem ProgLabels.pl_append {lo mid hi : Int} {D1 J1 D2 J2 : List Label}
    (h1 : ProgLabels lo mid D1 J1) (h2 : ProgLabels mid hi D2 J2)
    (hlo : lo ≤ mid) (hhi : mid ≤ hi) : ProgLabels lo hi (D1 ++ D2) (J1 ++ J2) := by
  refine ⟨?_, ?_, ?_, ?_, ?_⟩
  · intro l hl
    rcases List.mem_append.1 hl with hl | hl
    · exact List.mem_append_left _ (h1.jumps l hl)
    · exact List.mem_append_right _ (h2.jumps l hl)
  · intro l hl c hc
    rcases List.mem_append.1 hl with hl | hl
    · have := h1.range l hl c hc
      omega
    · have := h2.range l hl c hc
      omega
  · intro l hl hn
    obtain ⟨c, hc⟩ := Option.ne_none_iff_exists'.1 hn
    rw [List.count_append]
    rcases List.mem_append.1 hl with hl | hl
    · have hnot : l ∉ D2 := by
        intro hl2
        have a := h1.range l hl c hc
        have b := h2.range l hl2 c hc
        omega
      rw [h1.once l hl hn, List.count_eq_zero_of_not_mem hnot]
    · have hnot : l ∉ D1 := by
        intro hl1
        have a := h1.range l hl1 c hc
        have b := h2.range l hl c hc
        omega
      rw [h2.once l hl hn, List.count_eq_zero_of_not_mem hnot]
  · intro c
    constructor
    · intro hl
      rcases List.mem_append.1 hl with hl | hl
      · exact List.mem_append_left _ ((h1.used c).1 hl)
      · exact List.mem_append_right _ ((h2.used c).1 hl)
    · intro hl
      rcases List.mem_append.1 hl with hl | hl
      · exact List.mem_append_left _ ((h1.used c).2 hl)
      · exact List.mem_append_right _ ((h2.used c).2 hl)
  · intro c a b
    by_cases hc : c < mid
    · exact List.mem_append_left _ (h1.ends c a hc)
    · exact List.mem_append_right _ (h2.ends c (by omega) b)

theorem ProgEffect.prog_refl (s : CgState) : ProgEffect 0 s s :=
  ⟨rfl, by simp, [], [], by simp, by simp, (ProgLabels.pl_nil _).pl_cast rfl (by simp)⟩

theorem ProgEffect.prog_trans {a b : Nat} {s t u : CgState} (h1 : ProgEffect a s t)
    (h2 : ProgEffect b t u) : ProgEffect (a + b) s u := by
  obtain ⟨D1, J1, d1, j1, g1⟩ := h1.labels
  obtain ⟨D2, J2, d2, j2, g2⟩ := h2.labels
  refine ⟨by rw [h2.depth, h1.depth], by rw [h2.count_i, h1.count_i]; push_cast; omega,
    D1 ++ D2, J1 ++ J2, by rw [d2, d1, List.append_assoc], by rw [j2, j1, List.append_assoc],
    ?_⟩
  have g2' := g2.pl_cast h1.count_i (by rw [h1.count_i])
  exact (g1.pl_append g2' (by omega) (by omega)).pl_cast rfl (by push_cast; omega)

theorem emit_init_data_effect (init_data : Nat → Int) (size : Int) (s : CgState) :
    ExprEffect 0 s (emit_init_data init_data size s) := by
  unfold emit_init_data
  generalize List.range size.toNat = l
  induction l generalizing s with
  | nil => exact ExprEffect.expr_refl s
  | cons i rest ih =>
    simp only [List.foldl_cons]
    exact ((ExprEffect.print _ _ s (by decide)).expr_trans (ih _)).expr_cast (by omega)

theorem emit_data_effect : ∀ (prog : List Obj) (s : CgState), ExprEffect 0 s (emit_data prog s)
  | [], s => ExprEffect.expr_refl s
  | var :: rest, s => by
    simp only [emit_data]
    split
    · exact emit_data_effect rest s
    · have h3 := ExprEffect.print3 "  .data\n" "  .globl %s\n" "%s:\n" [] [FmtArg.str var.name]
        [FmtArg.str var.name] s (by decide) (by decide) (by decide)
      split
      · exact ((h3.expr_trans (emit_init_data_effect _ _ _)).expr_trans
          (emit_data_effect rest _)).expr_cast (by omega)
      · exact ((h3.expr_trans (ExprEffect.print _ _ _ (by decide))).expr_trans
          (emit_data_effect rest _)).expr_cast (by omega)

theorem emit_params_effect : ∀ (i : Nat) (params : List Obj) (s t : CgState),
    emit_params i params s = Outcome.ok t → ExprEffect 0 s t
  | _, [], s, t, h => by
    simp only [emit_params] at h
    injection h with h; subst h
    exact ExprEffect.expr_refl s
  | i, var :: rest, s, t, h => by
    simp only [emit_params] at h
    split at h
    · split at h
      · simp at h
      · exact ((ExprEffect.print _ _ s (by decide)).expr_trans
          (emit_params_effect (i + 1) rest _ t h)).expr_cast (by omega)
    · split at h
      · simp at h
      · exact ((ExprEffect.print _ _ s (by decide)).expr_trans
          (emit_params_effect (i + 1) rest _ t h)).expr_cast (by omega)

/-! ## The assertion of `emit_text` -/

theorem Outcome.noAssert_ok (s : CgState) : (Outcome.ok s).NoAssert := by
  intro t h; cases h

theorem Outcome.noAssert_fail (e : CgError) (s : CgState) (he : e ≠ CgError.assert_failed) :
    (Outcome.fail e s).NoAssert := by
  intro t h
  injection h with h1 h2
  exact he h1

theorem Outcome.noAssert_andThen {o : Outcome} {f : CgState → Outcome} (h : o.NoAssert)
    (hf : ∀ s1, o = Outcome.ok s1 → (f s1).NoAssert) : (o.andThen f).NoAssert := by
  cases o with
  | ok s => exact hf s rfl
  | fail e s => exact h

theorem load_noAssert (ty : Option CType) (s : CgState) : (load ty s).NoAssert := by
  unfold load
  split
  · exact Outcome.noAssert_fail _ _ (by decide)
  · split_ifs <;> exact Outcome.noAssert_ok _

theorem store_noAssert (ty : Option CType) (s : CgState) : (store ty s).NoAssert := by
  unfold store
  split
  · exact Outcome.noAssert_fail _ _ (by decide)
  · split_ifs <;> exact Outcome.noAssert_ok _

theorem gen_addr_var_noAssert (heap : List Obj) (var : Option ObjPtr) (s : CgState) :
    (gen_addr_var heap var s).NoAssert := by
  unfold gen_addr_var
  split
  · exact Outcome.noAssert_fail _ _ (by decide)
  · split
    · exact Outcome.noAssert_fail _ _ (by decide)
    · split_ifs <;> exact Outcome.noAssert_ok _

theorem pop_args_noAssert : ∀ (n : Nat) (s : CgState), (pop_args n s).NoAssert
  | 0, s => Outcome.noAssert_ok s
  | n + 1, s => by
    simp only [pop_args]
    split
    · exact Outcome.noAssert_fail _ _ (by decide)
    · exact pop_args_noAssert n _

theorem gen_binop_noAssert (kind : NodeKind) (s : CgState) : (gen_binop kind s).NoAssert := by
  cases kind <;> simp only [gen_binop] <;> first
    | exact Outcome.noAssert_ok _
    | exact Outcome.noAssert_fail _ _ (by decide)

mutual
theorem gen_addr_noAssert (heap : List Obj) :
    ∀ (node : Node) (s : CgState), (gen_addr heap node s).NoAssert
  | Node.mk kind ty lhs rhs cond then_ els init inc body funcname args var val, s => by
    cases kind
    case ND_VAR => exact gen_addr_var_noAssert heap var s
    case ND_DEREF => exact gen_expr_ptr_noAssert heap lhs s
    all_goals exact Outcome.noAssert_fail _ _ (by decide)
theorem gen_expr_noAssert (heap : List Obj) :
    ∀ (node : Node) (s : CgState), (gen_expr heap node s).NoAssert
  | Node.mk kind ty lhs rhs cond then_ els init inc body funcname args var val, s => by
    have binary : ∀ k : NodeKind,
        ((gen_expr_ptr heap rhs s).andThen fun s =>
          (gen_expr_ptr heap lhs (push s)).andThen fun s =>
          gen_binop k (pop "%rdi" s)).NoAssert := by
      intro k
      exact Outcome.noAssert_andThen (gen_expr_ptr_noAssert heap rhs s) fun s1 _ =>
        Outcome.noAssert_andThen (gen_expr_ptr_noAssert heap lhs _) fun s2 _ =>
        gen_binop_noAssert k _
    cases kind
    case ND_NUM => exact Outcome.noAssert_ok _
    case ND_NEG =>
      exact Outcome.noAssert_andThen (gen_expr_ptr_noAssert heap lhs s) fun s1 _ =>
        Outcome.noAssert_ok _
    case ND_VAR =>
      exact Outcome.noAssert_andThen (gen_addr_var_noAssert heap var s) fun s1 _ =>
        load_noAssert ty s1
    case ND_DEREF =>
      exact Outcome.noAssert_andThen (gen_expr_ptr_noAssert heap lhs s) fun s1 _ =>
        load_noAssert ty s1
    case ND_ADDR => exact gen_addr_ptr_noAssert heap lhs s
    case ND_ASSIGN =>
      exact Outcome.noAssert_andThen (gen_addr_ptr_noAssert heap lhs s) fun s1 _ =>
        Outcome.noAssert_andThen (gen_expr_ptr_noAssert heap rhs _) fun s2 _ =>
        store_noAssert ty s2
    case ND_FUNCALL =>
      exact Outcome.noAssert_andThen (gen_args_noAssert heap args s) fun s1 _ =>
        Outcome.noAssert_andThen (pop_args_noAssert _ s1) fun s2 _ =>
        Outcome.noAssert_ok _
    all_goals exact binary _
theorem gen_addr_ptr_noAssert (heap : List Obj) :
    ∀ (p : Option Node) (s : CgState), (gen_addr_ptr heap p s).NoAssert
  | none, s => Outcome.noAssert_fail _ _ (by decide)
  | some node, s => gen_addr_noAssert heap node s
theorem gen_expr_ptr_noAssert (heap : List Obj) :
    ∀ (p : Option Node) (s : CgState), (gen_expr_ptr heap p s).NoAssert
  | none, s => Outcome.noAssert_fail _ _ (by decide)
  | some node, s => gen_expr_noAssert heap node s
theorem gen_args_noAssert (heap : List Obj) :
    ∀ (args : List Node) (s : CgState), (gen_args heap args s).NoAssert
  | [], s => Outcome.noAssert_ok s
  | arg :: rest, s => by
    simp only [gen_args]
    exact Outcome.noAssert_andThen (gen_expr_noAssert heap arg s) fun s1 _ =>
      gen_args_noAssert heap rest _
end

theorem gen_for_cond_noAssert (heap : List Obj) (cond : Option Node) (c : Int) (s : CgState) :
    (gen_for_cond heap cond c s).NoAssert := by
  unfold gen_for_cond
  split
  · exact Outcome.noAssert_ok _
  · exact Outcome.noAssert_andThen (gen_expr_noAssert heap _ s) fun s1 _ =>
      Outcome.noAssert_ok _

theorem gen_for_inc_noAssert (heap : List Obj) (inc : Option Node) (s : CgState) :
    (gen_for_inc heap inc s).NoAssert := by
  unfold gen_for_inc
  split
  · exact Outcome.noAssert_ok _
  · exact gen_expr_noAssert heap _ s

theorem gen_return_jmp_noAssert (s : CgState) : (gen_return_jmp s).NoAssert := by
  unfold gen_return_jmp
  split
  · exact Outcome.noAssert_fail _ _ (by decide)
  · exact Outcome.noAssert_ok _

mutual
theorem gen_stmt_noAssert (heap : List Obj) :
    ∀ (node : Node) (s : CgState), (gen_stmt heap node s).NoAssert
  | Node.mk kind ty lhs rhs cond then_ els init inc body funcname args var val, s => by
    cases kind
    case ND_IF =>
      simp only [gen_stmt]
      exact Outcome.noAssert_andThen (gen_expr_ptr_noAssert heap cond _) fun s1 _ =>
        Outcome.noAssert_andThen (gen_stmt_ptr_noAssert heap then_ _) fun s2 _ =>
        Outcome.noAssert_andThen (gen_stmt_opt_noAssert heap els _) fun s3 _ =>
        Outcome.noAssert_ok _
    case ND_FOR =>
      simp only [gen_stmt]
      exact Outcome.noAssert_andThen (gen_stmt_opt_noAssert heap init _) fun s1 _ =>
        Outcome.noAssert_andThen (gen_for_cond_noAssert heap cond _ _) fun s2 _ =>
        Outcome.noAssert_andThen (gen_stmt_ptr_noAssert heap then_ _) fun s3 _ =>
        Outcome.noAssert_andThen (gen_for_inc_noAssert heap inc _) fun s4 _ =>
        Outcome.noAssert_ok _
    case ND_BLOCK => exact gen_stmt_list_noAssert heap body s
    case ND_RETURN =>
      simp only [gen_stmt]
      exact Outcome.noAssert_andThen (gen_expr_ptr_noAssert heap lhs s) fun s1 _ =>
        gen_return_jmp_noAssert s1
    case ND_EXPR_STMT => exact gen_expr_ptr_noAssert heap lhs s
    all_goals exact Outcome.noAssert_fail _ _ (by decide)
theorem gen_stmt_ptr_noAssert (heap : List Obj) :
    ∀ (p : Option Node) (s : CgState), (gen_stmt_ptr heap p s).NoAssert
  | none, s => Outcome.noAssert_fail _ _ (by decide)
  | some node, s => gen_stmt_noAssert heap node s
theorem gen_stmt_opt_noAssert (heap : List Obj) :
    ∀ (p : Option Node) (s : CgState), (gen_stmt_opt heap p s).NoAssert
  | none, s => Outcome.noAssert_ok s
  | some node, s => gen_stmt_noAssert heap node s
theorem gen_stmt_list_noAssert (heap : List Obj) :
    ∀ (body : List Node) (s : CgState), (gen_stmt_list heap body s).NoAssert
  | [], s => Outcome.noAssert_ok s
  | node :: rest, s => by
    simp only [gen_stmt_list]
    exact Outcome.noAssert_andThen (gen_stmt_noAssert heap node s) fun s1 _ =>
      gen_stmt_list_noAssert heap rest s1
end

theorem emit_params_noAssert : ∀ (i : Nat) (params : List Obj) (s : CgState),
    (emit_params i params s).NoAssert
  | _, [], s => Outcome.noAssert_ok s
  | i, var :: rest, s => by
    simp only [emit_params]
    split
    · split
      · exact Outcome.noAssert_fail _ _ (by decide)
      · exact emit_params_noAssert (i + 1) rest _
    · split
      · exact Outcome.noAssert_fail _ _ (by decide)
      · exact emit_params_noAssert (i + 1) rest _

theorem defined_labels_print_plain (f : String) (a : List FmtArg) (s : CgState)
    (h : is_plain f = true) :
    defined_labels (cg_log_print f a s).trace = defined_labels s.trace :=
  (ExprEffect.print f a s h).defs

theorem jump_targets_print_plain (f : String) (a : List FmtArg) (s : CgState)
    (h : is_plain f = true) :
    jump_targets (cg_log_print f a s).trace = jump_targets s.trace :=
  (ExprEffect.print f a s h).jumps

theorem emit_prologue_facts (fn : Obj) (s : CgState) :
    (emit_prologue fn s).depth = s.depth ∧ (emit_prologue fn s).count_i = s.count_i ∧
    (emit_prologue fn s).current_fn = some fn ∧
    defined_labels (emit_prologue fn s).trace = defined_labels s.trace ∧
    jump_targets (emit_prologue fn s).trace = jump_targets s.trace := by
  refine ⟨by simp [emit_prologue], by simp [emit_prologue], by simp [emit_prologue], ?_, ?_⟩
  · simp only [emit_prologue]
    rw [defined_labels_print_plain _ _ _ (by decide), defined_labels_print_plain _ _ _ (by decide),
      defined_labels_print_plain _ _ _ (by decide)]
    show defined_labels (cg_log_print "%s:\n" [FmtArg.str fn.name] _).trace = _
    rw [defined_labels_print_plain _ _ _ (by decide), defined_labels_print_plain _ _ _ (by decide),
      defined_labels_print_plain _ _ _ (by decide)]
  · simp only [emit_prologue]
    rw [jump_targets_print_plain _ _ _ (by decide), jump_targets_print_plain _ _ _ (by decide),
      jump_targets_print_plain _ _ _ (by decide)]
    show jump_targets (cg_log_print "%s:\n" [FmtArg.str fn.name] _).trace = _
    rw [jump_targets_print_plain _ _ _ (by decide), jump_targets_print_plain _ _ _ (by decide),
      jump_targets_print_plain _ _ _ (by decide)]

theorem emit_epilogue_facts (fn : Obj) (s : CgState) :
    (emit_epilogue fn s).depth = s.depth ∧ (emit_epilogue fn s).count_i = s.count_i ∧
    defined_labels (emit_epilogue fn s).trace = defined_labels s.trace ++ [Label.ret fn.name] ∧
    jump_targets (emit_epilogue fn s).trace = jump_targets s.trace := by
  refine ⟨by simp [emit_epilogue], by simp [emit_epilogue], ?_, ?_⟩
  · simp only [emit_epilogue]
    rw [defined_labels_print_plain _ _ _ (by decide), defined_labels_print_plain _ _ _ (by decide),
      defined_labels_print_plain _ _ _ (by decide), defined_labels_print]
    simp
  · simp only [emit_epilogue]
    rw [jump_targets_print_plain _ _ _ (by decide), jump_targets_print_plain _ _ _ (by decide),
      jump_targets_print_plain _ _ _ (by decide), jump_targets_print]
    simp

theorem emit_text_loop_effect (heap : List Obj) :
    ∀ (prog : List Obj) (s t : CgState), emit_text_loop heap prog s = Outcome.ok t →
      ProgEffect (cf_count_prog prog) s t
  | [], s, t, h => by
    simp only [emit_text_loop] at h
    injection h with h; subst h
    exact ProgEffect.prog_refl s
  | fn :: rest, s, t, h => by
    simp only [emit_text_loop] at h
    by_cases hfun : fn.is_function = true
    · simp only [hfun, Bool.not_true, Bool.false_eq_true, if_false] at h
      obtain ⟨s1, hp, h⟩ := Outcome.andThen_eq_ok.1 h
      obtain ⟨s2, hb, h⟩ := Outcome.andThen_eq_ok.1 h
      have ep := emit_params_effect _ _ _ s1 hp
      have eb := gen_stmt_ptr_effect heap fn.body s1 s2 hb
      split_ifs at h with hd
      have er := emit_text_loop_effect heap rest _ t h
      obtain ⟨D, J, d, j, g⟩ := eb.labels
      obtain ⟨pd, pc, pf, pdefs, pjumps⟩ := emit_prologue_facts fn s
      obtain ⟨qd, qc, qdefs, qjumps⟩ := emit_epilogue_facts fn s2
      -- the function by itself
      have one : ProgEffect (cf_count_opt fn.body) s (emit_epilogue fn s2) := by
        refine ⟨by rw [qd, eb.depth, ep.depth, pd]; omega, by rw [qc, eb.count_i, ep.count_i, pc],
          D ++ [Label.ret fn.name], J, ?_, ?_, ?_⟩
        · rw [qdefs, d, ep.defs, pdefs, List.append_assoc]
        · rw [qjumps, j, ep.jumps, pjumps]
        · rw [ep.current_fn, pf, ep.count_i, pc] at g
          exact ProgLabels.of_function g
      simp only [cf_count_prog, hfun, if_true]
      exact one.prog_trans er
    · simp only [hfun, Bool.not_false, if_true] at h
      simp only [cf_count_prog, hfun, Bool.false_eq_true, if_false, zero_add]
      exact emit_text_loop_effect heap rest s t h

theorem emit_text_loop_noAssert (heap : List Obj) :
    ∀ (prog : List Obj) (s : CgState), s.depth = 0 → (emit_text_loop heap prog s).NoAssert
  | [], s, _ => Outcome.noAssert_ok s
  | fn :: rest, s, h0 => by
    simp only [emit_text_loop]
    by_cases hfun : fn.is_function = true
    · simp only [hfun, Bool.not_true, Bool.false_eq_true, if_false]
      refine Outcome.noAssert_andThen (emit_params_noAssert _ _ _) fun s1 hp => ?_
      refine Outcome.noAssert_andThen (gen_stmt_ptr_noAssert heap _ s1) fun s2 hb => ?_
      have ep := emit_params_effect _ _ _ s1 hp
      have eb := gen_stmt_ptr_effect heap fn.body s1 s2 hb
      have hd : s2.depth = 0 := by
        rw [eb.depth, ep.depth, (emit_prologue_facts fn s).1, h0]
        rfl
      simp only [hd, ne_eq, not_true_eq_false, if_false]
      exact emit_text_loop_noAssert heap rest _ (by rw [(emit_epilogue_facts fn s2).1, hd])
    · simp only [hfun, Bool.not_false, if_true]
      exact emit_text_loop_noAssert heap rest s h0

/-! ## `codegen` as a whole -/

theorem assign_fn_is_function (fn : Obj) : (assign_fn fn).is_function = fn.is_function := by
  unfold assign_fn
  split <;> rfl

theorem assign_fn_body (fn : Obj) : (assign_fn fn).body = fn.body := by
  unfold assign_fn
  split <;> rfl

theorem cf_count_prog_assign (prog : List Obj) :
    cf_count_prog (assign_lvar_offsets prog) = cf_count_prog prog := by
  rw [assign_lvar_offsets_eq_map]
  induction prog with
  | nil => rfl
  | cons fn rest ih =>
    simp only [List.map_cons, cf_count_prog, assign_fn_is_function, assign_fn_body, ih]

theorem codegen_snd (prog : List Obj) (s : CgState) :
    (codegen prog s).2 =
      emit_text (assign_lvar_offsets prog)
        (emit_data (assign_lvar_offsets prog) (cg_log_reset s)) := rfl

/-- What a run of `codegen` that returns does: `depth` is unchanged, the label
counter advances by the number of control-flow statements of the program, and
the labels of the whole output are good for the numbers drawn. -/
theorem codegen_effect (prog : List Obj) (s t : CgState)
    (h : (codegen prog s).2 = Outcome.ok t) :
    t.depth = s.depth ∧ t.count_i = s.count_i + cf_count_prog prog ∧
    ProgLabels s.count_i (s.count_i + cf_count_prog prog)
      (defined_labels t.trace) (jump_targets t.trace) := by
  rw [codegen_snd] at h
  have e := emit_text_loop_effect _ _ _ t h
  have ed := emit_data_effect (assign_lvar_offsets prog) (cg_log_reset s)
  rw [cf_count_prog_assign] at e
  obtain ⟨D, J, d, j, g⟩ := e.labels
  have hd : (cg_log_reset s).depth = s.depth := rfl
  have hc : (cg_log_reset s).count_i = s.count_i := rfl
  have h1 : defined_labels (cg_log_reset s).trace = [] := rfl
  have h2 : jump_targets (cg_log_reset s).trace = [] := rfl
  rw [ed.defs, h1, List.nil_append] at d
  rw [ed.jumps, h2, List.nil_append] at j
  rw [ed.count_i, hc] at g
  refine ⟨by rw [e.depth, ed.depth, hd]; omega, by rw [e.count_i, ed.count_i, hc], ?_⟩
  rw [d, j]
  exact g

theorem codegen_noAssert (prog : List Obj) (s : CgState) (h : s.depth = 0) :
    (codegen prog s).2.NoAssert := by
  rw [codegen_snd]
  refine emit_text_loop_noAssert _ _ _ ?_
  rw [(emit_data_effect _ _).depth]
  simp [cg_log_reset, h]

/-- An `if` or loop statement draws the counter value it is entered with: the
last line it emits is the definition of `.L.end.c` for that value. -/
theorem gen_stmt_last_label (heap : List Obj) :
    ∀ (node : Node) (s t : CgState), gen_stmt heap node s = Outcome.ok t →
      node.kind = NodeKind.ND_IF ∨ node.kind = NodeKind.ND_FOR →
      t.trace.getLast? = some ⟨".L.end.%d:\n", [FmtArg.int s.count_i]⟩
  | Node.mk kind ty lhs rhs cond then_ els init inc body funcname args var val, s, t, h, hk => by
    simp only at hk
    rcases hk with hk | hk
    · subst hk
      simp only [gen_stmt] at h
      obtain ⟨s1, hc, h⟩ := Outcome.andThen_eq_ok.1 h
      obtain ⟨s2, h1, h⟩ := Outcome.andThen_eq_ok.1 h
      obtain ⟨s3, h2, h⟩ := Outcome.andThen_eq_ok.1 h
      injection h with h; subst h
      rw [cg_log_print_trace, List.getLast?_concat, count_fst]
    · subst hk
      simp only [gen_stmt] at h
      obtain ⟨s1, h0, h⟩ := Outcome.andThen_eq_ok.1 h
      obtain ⟨s2, hc, h⟩ := Outcome.andThen_eq_ok.1 h
      obtain ⟨s3, h1, h⟩ := Outcome.andThen_eq_ok.1 h
      obtain ⟨s4, hi, h⟩ := Outcome.andThen_eq_ok.1 h
      injection h with h; subst h
      rw [cg_log_print_trace, List.getLast?_concat, count_fst]

/-! ## Transformations the generators cannot observe -/

theorem relog_print (log : CgLog) (f : String) (a : List FmtArg) (s : CgState) :
    relog log (cg_log_print f a s) = cg_log_print f a (relog log s) := by
  simp [relog, cg_log_print, replay]

theorem relog_unobserved (log : CgLog) : Unobserved (relog log) :=
  ⟨relog_print log, fun s => by simp [push, relog, cg_log_print, replay],
   fun arg s => by simp [pop, relog, cg_log_print, replay], fun _ => rfl, fun _ => rfl,
   fun _ => rfl, fun _ => rfl⟩

theorem Outcome.map_ok (g : CgState → CgState) (s : CgState) :
    (Outcome.ok s).map g = Outcome.ok (g s) := rfl

theorem Outcome.map_fail (g : CgState → CgState) (e : CgError) (s : CgState) :
    (Outcome.fail e s).map g = Outcome.fail e (g s) := rfl

theorem Outcome.andThen_map {g : CgState → CgState} {o o' : Outcome}
    {f f' : CgState → Outcome} (ho : o' = o.map g) (hf : ∀ s, f' (g s) = (f s).map g) :
    o'.andThen f' = (o.andThen f).map g := by
  subst ho
  cases o with
  | ok s => exact hf s
  | fail e s => rfl

theorem Outcome.isOk_map (g : CgState → CgState) (o : Outcome) : (o.map g).isOk = o.isOk := by
  cases o <;> rfl

theorem Outcome.state_map (g : CgState → CgState) (o : Outcome) :
    (o.map g).state = g o.state := by
  cases o <;> rfl

theorem Unobserved.load_comm {g : CgState → CgState} (hg : Unobserved g) (ty : Option CType)
    (s : CgState) : load ty (g s) = (load ty s).map g := by
  unfold Chibicc.load
  split
  · rfl
  · split_ifs <;> simp only [Outcome.map_ok, hg.print]

theorem Unobserved.store_comm {g : CgState → CgState} (hg : Unobserved g) (ty : Option CType)
    (s : CgState) : store ty (g s) = (store ty s).map g := by
  unfold Chibicc.store
  simp only [hg.pop]
  split
  · rfl
  · split_ifs <;> simp only [Outcome.map_ok, hg.print]

theorem Unobserved.gen_addr_var_comm {g : CgState → CgState} (hg : Unobserved g) (heap : List Obj)
    (var : Option ObjPtr) (s : CgState) :
    gen_addr_var heap var (g s) = (gen_addr_var heap var s).map g := by
  unfold Chibicc.gen_addr_var
  split
  · rfl
  · split
    · rfl
    · split_ifs <;> simp only [Outcome.map_ok, hg.print]

theorem Unobserved.pop_args_comm {g : CgState → CgState} (hg : Unobserved g) :
    ∀ (n : Nat) (s : CgState), pop_args n (g s) = (pop_args n s).map g
  | 0, s => rfl
  | n + 1, s => by
    simp only [Chibicc.pop_args]
    split
    · rfl
    · rw [hg.pop]
      exact Unobserved.pop_args_comm hg n _

theorem Unobserved.gen_binop_comm {g : CgState → CgState} (hg : Unobserved g) (kind : NodeKind)
    (s : CgState) : gen_binop kind (g s) = (gen_binop kind s).map g := by
  cases kind <;> simp only [Chibicc.gen_binop, Outcome.map_ok, Outcome.map_fail, hg.print]
mutual
theorem gen_addr_comm {g : CgState → CgState} (hg : Unobserved g) (heap : List Obj) :
    ∀ (node : Node) (s : CgState), gen_addr heap node (g s) = (gen_addr heap node s).map g
  | Node.mk kind ty lhs rhs cond then_ els init inc body funcname args var val, s => by
    cases kind
    case ND_VAR => exact hg.gen_addr_var_comm heap var s
    case ND_DEREF => exact gen_expr_ptr_comm hg heap lhs s
    all_goals rfl
theorem gen_expr_comm {g : CgState → CgState} (hg : Unobserved g) (heap : List Obj) :
    ∀ (node : Node) (s : CgState), gen_expr heap node (g s) = (gen_expr heap node s).map g
  | Node.mk kind ty lhs rhs cond then_ els init inc body funcname args var val, s => by
    have binary : ∀ k : NodeKind,
        ((gen_expr_ptr heap rhs (g s)).andThen fun s =>
          (gen_expr_ptr heap lhs (push s)).andThen fun s =>
          gen_binop k (pop "%rdi" s)) =
        ((gen_expr_ptr heap rhs s).andThen fun s =>
          (gen_expr_ptr heap lhs (push s)).andThen fun s =>
          gen_binop k (pop "%rdi" s)).map g := by
      intro k
      refine Outcome.andThen_map (gen_expr_ptr_comm hg heap rhs s) fun s1 => ?_
      refine Outcome.andThen_map ?_ fun s2 => ?_
      · rw [hg.push]; exact gen_expr_ptr_comm hg heap lhs _
      · rw [hg.pop]; exact hg.gen_binop_comm k _
    cases kind
    case ND_NUM =>
      simp only [gen_expr, Outcome.map_ok, hg.print]
    case ND_NEG =>
      simp only [gen_expr]
      refine Outcome.andThen_map (gen_expr_ptr_comm hg heap lhs s) fun s1 => ?_
      simp only [Outcome.map_ok, hg.print]
    case ND_VAR =>
      simp only [gen_expr]
      exact Outcome.andThen_map (hg.gen_addr_var_comm heap var s) fun s1 => hg.load_comm ty s1
    case ND_DEREF =>
      simp only [gen_expr]
      exact Outcome.andThen_map (gen_expr_ptr_comm hg heap lhs s) fun s1 => hg.load_comm ty s1
    case ND_ADDR => exact gen_addr_ptr_comm hg heap lhs s
    case ND_ASSIGN =>
      simp only [gen_expr]
      refine Outcome.andThen_map (gen_addr_ptr_comm hg heap lhs s) fun s1 => ?_
      refine Outcome.andThen_map ?_ fun s2 => hg.store_comm ty s2
      rw [hg.push]; exact gen_expr_ptr_comm hg heap rhs _
    case ND_FUNCALL =>
      simp only [gen_expr]
      refine Outcome.andThen_map (gen_args_comm hg heap args s) fun s1 => ?_
      refine Outcome.andThen_map (hg.pop_args_comm _ s1) fun s2 => ?_
      simp only [Outcome.map_ok, hg.print]
    all_goals exact binary _
theorem gen_addr_ptr_comm {g : CgState → CgState} (hg : Unobserved g) (heap : List Obj) :
    ∀ (p : Option Node) (s : CgState), gen_addr_ptr heap p (g s) = (gen_addr_ptr heap p s).map g
  | none, _ => rfl
  | some node, s => gen_addr_comm hg heap node s
theorem gen_expr_ptr_comm {g : CgState → CgState} (hg : Unobserved g) (heap : List Obj) :
    ∀ (p : Option Node) (s : CgState), gen_expr_ptr heap p (g s) = (gen_expr_ptr heap p s).map g
  | none, _ => rfl
  | some node, s => gen_expr_comm hg heap node s
theorem gen_args_comm {g : CgState → CgState} (hg : Unobserved g) (heap : List Obj) :
    ∀ (args : List Node) (s : CgState), gen_args heap args (g s) = (gen_args heap args s).map g
  | [], s => rfl
  | arg :: rest, s => by
    simp only [gen_args]
    refine Outcome.andThen_map (gen_expr_comm hg heap arg s) fun s1 => ?_
    rw [hg.push]
    exact gen_args_comm hg heap rest _
end

theorem gen_for_cond_comm {g : CgState → CgState} (hg : Unobserved g) (heap : List Obj)
    (cond : Option Node) (c : Int) (s : CgState) :
    gen_for_cond heap cond c (g s) = (gen_for_cond heap cond c s).map g := by
  unfold gen_for_cond
  split
  · rfl
  · refine Outcome.andThen_map (gen_expr_comm hg heap _ s) fun s1 => ?_
    simp only [Outcome.map_ok, hg.print]

theorem gen_for_inc_comm {g : CgState → CgState} (hg : Unobserved g) (heap : List Obj)
    (inc : Option Node) (s : CgState) :
    gen_for_inc heap inc (g s) = (gen_for_inc heap inc s).map g := by
  unfold gen_for_inc
  split
  · rfl
  · exact gen_expr_comm hg heap _ s

theorem gen_return_jmp_comm {g : CgState → CgState} (hg : Unobserved g) (s : CgState) :
    gen_return_jmp (g s) = (gen_return_jmp s).map g := by
  unfold gen_return_jmp
  rw [hg.current_fn]
  split
  · rfl
  · simp only [Outcome.map_ok, hg.print]

mutual
theorem gen_stmt_comm {g : CgState → CgState} (hg : Unobserved g) (heap : List Obj) :
    ∀ (node : Node) (s : CgState), gen_stmt heap node (g s) = (gen_stmt heap node s).map g
  | Node.mk kind ty lhs rhs cond then_ els init inc body funcname args var val, s => by
    cases kind
    case ND_IF =>
      simp only [gen_stmt, hg.count_fst, hg.count_snd]
      refine Outcome.andThen_map (gen_expr_ptr_comm hg heap cond _) fun s1 => ?_
      refine Outcome.andThen_map ?_ fun s2 => ?_
      · rw [← hg.print, ← hg.print]; exact gen_stmt_ptr_comm hg heap then_ _
      refine Outcome.andThen_map ?_ fun s3 => ?_
      · rw [← hg.print, ← hg.print]; exact gen_stmt_opt_comm hg heap els _
      simp only [Outcome.map_ok, hg.print]
    case ND_FOR =>
      simp only [gen_stmt, hg.count_fst, hg.count_snd]
      refine Outcome.andThen_map (gen_stmt_opt_comm hg heap init _) fun s1 => ?_
      refine Outcome.andThen_map ?_ fun s2 => ?_
      · rw [← hg.print]; exact gen_for_cond_comm hg heap cond _ _
      refine Outcome.andThen_map (gen_stmt_ptr_comm hg heap then_ _) fun s3 => ?_
      refine Outcome.andThen_map (gen_for_inc_comm hg heap inc _) fun s4 => ?_
      simp only [Outcome.map_ok, hg.print]
    case ND_BLOCK => exact gen_stmt_list_comm hg heap body s
    case ND_RETURN =>
      simp only [gen_stmt]
      exact Outcome.andThen_map (gen_expr_ptr_comm hg heap lhs s) fun s1 =>
        gen_return_jmp_comm hg s1
    case ND_EXPR_STMT => exact gen_expr_ptr_comm hg heap lhs s
    all_goals rfl
theorem gen_stmt_ptr_comm {g : CgState → CgState} (hg : Unobserved g) (heap : List Obj) :
    ∀ (p : Option Node) (s : CgState), gen_stmt_ptr heap p (g s) = (gen_stmt_ptr heap p s).map g
  | none, _ => rfl
  | some node, s => gen_stmt_comm hg heap node s
theorem gen_stmt_opt_comm {g : CgState → CgState} (hg : Unobserved g) (heap : List Obj) :
    ∀ (p : Option Node) (s : CgState), gen_stmt_opt heap p (g s) = (gen_stmt_opt heap p s).map g
  | none, _ => rfl
  | some node, s => gen_stmt_comm hg heap node s
theorem gen_stmt_list_comm {g : CgState → CgState} (hg : Unobserved g) (heap : List Obj) :
    ∀ (body : List Node) (s : CgState),
      gen_stmt_list heap body (g s) = (gen_stmt_list heap body s).map g
  | [], s => rfl
  | node :: rest, s => by
    simp only [gen_stmt_list]
    exact Outcome.andThen_map (gen_stmt_comm hg heap node s) fun s1 =>
      gen_stmt_list_comm hg heap rest s1
end

theorem emit_params_comm {g : CgState → CgState} (hg : Unobserved g) :
    ∀ (i : Nat) (params : List Obj) (s : CgState),
      emit_params i params (g s) = (emit_params i params s).map g
  | _, [], s => rfl
  | i, var :: rest, s => by
    simp only [emit_params]
    split
    · split
      · rfl
      · rw [← hg.print]; exact emit_params_comm hg (i + 1) rest _
    · split
      · rfl
      · rw [← hg.print]; exact emit_params_comm hg (i + 1) rest _

theorem emit_init_data_comm (g : CgState → CgState)
    (hp : ∀ f a s, g (cg_log_print f a s) = cg_log_print f a (g s))
    (init_data : Nat → Int) (size : Int) (s : CgState) :
    emit_init_data init_data size (g s) = g (emit_init_data init_data size s) := by
  unfold emit_init_data
  generalize List.range size.toNat = l
  induction l generalizing s with
  | nil => rfl
  | cons i rest ih => simp only [List.foldl_cons, ← hp, ih]

theorem emit_data_comm (g : CgState → CgState)
    (hp : ∀ f a s, g (cg_log_print f a s) = cg_log_print f a (g s)) :
    ∀ (prog : List Obj) (s : CgState), emit_data prog (g s) = g (emit_data prog s)
  | [], _ => rfl
  | var :: rest, s => by
    simp only [emit_data]
    split
    · exact emit_data_comm g hp rest s
    · split
      · rw [← hp, ← hp, ← hp, emit_init_data_comm g hp]
        exact emit_data_comm g hp rest _
      · rw [← hp, ← hp, ← hp, ← hp]
        exact emit_data_comm g hp rest _

theorem set_current_fn_print (fn : Option Obj) (f : String) (a : List FmtArg) (s : CgState) :
    set_current_fn fn (cg_log_print f a s) = cg_log_print f a (set_current_fn fn s) := rfl

theorem emit_prologue_relog (log : CgLog) (fn : Obj) (s : CgState) :
    emit_prologue fn (relog log s) = relog log (emit_prologue fn s) := by
  simp [emit_prologue, relog, cg_log_print, replay]

theorem emit_epilogue_relog (log : CgLog) (fn : Obj) (s : CgState) :
    emit_epilogue fn (relog log s) = relog log (emit_epilogue fn s) := by
  simp [emit_epilogue, relog, cg_log_print, replay]

theorem emit_prologue_set_current_fn (F : Option Obj) (fn : Obj) (s : CgState) :
    emit_prologue fn (set_current_fn F s) = emit_prologue fn s := by
  simp [emit_prologue, set_current_fn, cg_log_print]

theorem emit_text_loop_relog (log : CgLog) (heap : List Obj) :
    ∀ (prog : List Obj) (s : CgState),
      emit_text_loop heap prog (relog log s) = (emit_text_loop heap prog s).map (relog log)
  | [], _ => rfl
  | fn :: rest, s => by
    simp only [emit_text_loop]
    split
    · exact emit_text_loop_relog log heap rest s
    · rw [emit_prologue_relog]
      refine Outcome.andThen_map (emit_params_comm (relog_unobserved log) _ _ _) fun s1 => ?_
      refine Outcome.andThen_map (gen_stmt_ptr_comm (relog_unobserved log) heap _ s1) fun s2 => ?_
      have hd : (relog log s2).depth = s2.depth := rfl
      rw [hd]
      split
      · rfl
      · rw [emit_epilogue_relog]
        exact emit_text_loop_relog log heap rest _

/-- The text section does not read the `current_fn` it is entered with. -/
theorem emit_text_loop_set_current_fn (F G : Option Obj) (heap : List Obj) :
    ∀ (prog : List Obj) (s : CgState),
      (emit_text_loop heap prog (set_current_fn F s)).map (set_current_fn G) =
        (emit_text_loop heap prog s).map (set_current_fn G)
  | [], _ => rfl
  | fn :: rest, s => by
    simp only [emit_text_loop]
    split
    · exact emit_text_loop_set_current_fn F G heap rest s
    · rw [emit_prologue_set_current_fn]

/-! ## Agreement of logs -/

theorem append_agree (l1 l2 : CgLog) (src : Bytes) (n : Nat) (h : l1.Agree l2) :
    (__cg_append_bytes l1 src n).Agree (__cg_append_bytes l2 src n) := by
  obtain ⟨hl, hb⟩ := h
  have key : ∀ k : Nat,
      (CgLog.mk (memcpy l1.__cg_buf l1.__cg_len src k) (l1.__cg_len + k)).Agree
        (CgLog.mk (memcpy l2.__cg_buf l1.__cg_len src k) (l1.__cg_len + k)) := by
    intro k
    refine ⟨rfl, ?_⟩
    intro i hi
    simp only [memcpy_apply]
    split_ifs with h2
    · rfl
    · exact hb i (by simp only at hi; omega)
  unfold __cg_append_bytes
  by_cases hn : n = 0
  · simp only [hn, if_true]
    exact ⟨hl, hb⟩
  · simp only [hn, if_false, ← hl]
    by_cases h1 : n < CG_BUF_SIZE - l1.__cg_len
    · simp only [h1, if_true, ne_eq, hn, not_false_eq_true]
      exact key n
    · simp only [h1, if_false]
      by_cases h2 : CG_BUF_SIZE - l1.__cg_len = 0
      · simp only [h2, ne_eq, not_true_eq_false, if_false]
        exact ⟨hl, hb⟩
      · simp only [ne_eq, h2, not_false_eq_true, if_true]
        exact key (CG_BUF_SIZE - l1.__cg_len)

theorem vprint_agree (l1 l2 : CgLog) (f : String) (a : List FmtArg) (h : l1.Agree l2) :
    (__cg_vprint l1 f a).Agree (__cg_vprint l2 f a) := by
  unfold __cg_vprint
  simp only []
  split_ifs
  · exact h
  · exact append_agree _ _ _ _ h
  · exact append_agree _ _ _ _ h

theorem replay_agree (tr : List PrintCall) :
    ∀ (l1 l2 : CgLog), l1.Agree l2 → (replay l1 tr).Agree (replay l2 tr) := by
  induction tr with
  | nil => intro l1 l2 h; exact h
  | cons p rest ih =>
    intro l1 l2 h
    simp only [replay, List.foldl_cons]
    exact ih _ _ (vprint_agree _ _ _ _ h)

theorem agree_contents (l1 l2 : CgLog) (h : l1.Agree l2) :
    cg_log_size l1 = cg_log_size l2 ∧ l1.contents = l2.contents := by
  obtain ⟨hl, hb⟩ := h
  refine ⟨hl, ?_⟩
  unfold CgLog.contents Bytes.firstN
  rw [← hl]
  apply List.map_congr_left
  intro i hi
  exact hb i (List.mem_range.1 hi)

/-! ## Running `codegen` twice -/

theorem assign_offsets_chain_idem : ∀ (locals : List Obj) (off : Int),
    assign_offsets_chain off (assign_offsets_chain off locals).1 =
      assign_offsets_chain off locals
  | [], _ => rfl
  | var :: rest, off => by
    simp only [assign_offsets_chain]
    rw [assign_offsets_chain_idem rest]

theorem assign_fn_idem (fn : Obj) : assign_fn (assign_fn fn) = assign_fn fn := by
  by_cases h : fn.is_function = true
  · rw [assign_fn_function fn h]
    rw [assign_fn_function _ (by simpa using h)]
    simp only [assign_offsets_chain_idem]
  · have h' : fn.is_function = false := by simpa using h
    rw [assign_fn_not_function fn h', assign_fn_not_function fn h']

theorem assign_lvar_offsets_idem (prog : List Obj) :
    assign_lvar_offsets (assign_lvar_offsets prog) = assign_lvar_offsets prog := by
  simp only [assign_lvar_offsets_eq_map, List.map_map]
  apply List.map_congr_left
  intro fn _
  exact assign_fn_idem fn

theorem CgState.eq_of_fields (a b : CgState) (h1 : a.log = b.log) (h2 : a.depth = b.depth)
    (h3 : a.current_fn = b.current_fn) (h4 : a.count_i = b.count_i)
    (h5 : a.trace = b.trace) : a = b := by
  cases a; cases b
  simp only at h1 h2 h3 h4 h5
  subst h1; subst h2; subst h3; subst h4; subst h5
  rfl

/-- The emission of `codegen`, entered with two states that differ only in
the log buffer and in `current_fn`, yields the same outcome up to those. -/
theorem emission_independent (P : List Obj) (u v : CgState) (hd : u.depth = v.depth)
    (hc : u.count_i = v.count_i) (hu : u.trace = []) (hv : v.trace = []) (G : Option Obj) :
    (emit_text P (emit_data P v)).map (set_current_fn G) =
      ((emit_text P (emit_data P u)).map (relog v.log)).map (set_current_fn G) := by
  have hvu : v = set_current_fn v.current_fn (relog v.log u) := by
    apply CgState.eq_of_fields
    · simp [set_current_fn, relog, hu, replay]
    · simp [set_current_fn, relog, hd]
    · simp [set_current_fn]
    · simp [set_current_fn, relog, hc]
    · simp [set_current_fn, relog, hu, hv]
  unfold emit_text
  conv => lhs; rw [hvu]
  rw [emit_data_comm _ (set_current_fn_print _), emit_text_loop_set_current_fn,
    emit_data_comm _ (relog_print _), emit_text_loop_relog]

/-- The log of the state `codegen` ends in is the replay of its trace on the
reset log. -/
theorem codegen_state_log (prog : List Obj) (s : CgState) :
    (codegen prog s).2.state.log =
      replay (cg_log_reset s).log (codegen prog s).2.state.trace := by
  have hu : cg_log_reset s = relog (cg_log_reset s).log (cg_log_reset s) := by
    apply CgState.eq_of_fields <;> simp [relog, cg_log_reset, replay]
  have h : (codegen prog s).2 = (codegen prog s).2.map (relog (cg_log_reset s).log) := by
    conv => lhs; rw [codegen_snd]; unfold emit_text; rw [hu]
    rw [emit_data_comm _ (relog_print _), emit_text_loop_relog]
    rfl
  have h2 := congrArg Outcome.state h
  rw [Outcome.state_map] at h2
  conv => lhs; rw [h2]
  rfl

theorem codegen_of_assigned (prog : List Obj) (t : CgState) :
    codegen (codegen prog t).1 t = codegen prog t := by
  simp only [codegen, assign_lvar_offsets_idem]

theorem codegen_fst_eq (prog : List Obj) (s t : CgState) :
    (codegen prog s).1 = (codegen prog t).1 := rfl

/-- The outcome of `codegen` is determined by the program, `depth` and the
label counter on entry. -/
theorem codegen_determined (prog : List Obj) (s s' : CgState)
    (hd : s'.depth = s.depth) (hc : s'.count_i = s.count_i) :
    (codegen prog s').2.isOk = (codegen prog s).2.isOk ∧
    (codegen prog s').2.state.trace = (codegen prog s).2.state.trace ∧
    (codegen prog s').2.state.depth = (codegen prog s).2.state.depth ∧
    (codegen prog s').2.state.count_i = (codegen prog s).2.state.count_i ∧
    cg_log_size (codegen prog s').2.state.log = cg_log_size (codegen prog s).2.state.log ∧
    (codegen prog s').2.state.log.contents = (codegen prog s).2.state.log.contents := by
  have e := emission_independent (assign_lvar_offsets prog) (cg_log_reset s) (cg_log_reset s')
    (by simp [cg_log_reset, hd]) (by simp [cg_log_reset, hc]) rfl rfl none
  rw [← codegen_snd, ← codegen_snd] at e
  have e1 := congrArg Outcome.isOk e
  have e2 := congrArg Outcome.state e
  simp only [Outcome.isOk_map, Outcome.state_map] at e1 e2
  have ht : (codegen prog s').2.state.trace = (codegen prog s).2.state.trace :=
    (congrArg (fun x : CgState => x.trace) e2 :)
  have hdp : (codegen prog s').2.state.depth = (codegen prog s).2.state.depth :=
    (congrArg (fun x : CgState => x.depth) e2 :)
  have hct : (codegen prog s').2.state.count_i = (codegen prog s).2.state.count_i :=
    (congrArg (fun x : CgState => x.count_i) e2 :)
  have hlog : (codegen prog s').2.state.log =
      replay (cg_log_reset s').log (codegen prog s).2.state.trace := by
    rw [codegen_state_log prog s', ht]
  have hag : ((codegen prog s').2.state.log).Agree ((codegen prog s).2.state.log) := by
    rw [hlog, codegen_state_log prog s]
    exact replay_agree _ _ _ ⟨rfl, fun i hi => absurd hi (Nat.not_lt_zero i)⟩
  exact ⟨e1, ht, hdp, hct,
    (agree_contents _ _ hag).1, (agree_contents _ _ hag).2⟩

/-! ## The order in which label numbers are drawn -/

theorem reached_if (n : Node) (h : n.kind = NodeKind.ND_IF) :
    reached n = n :: (reached_opt n.then_ ++ reached_opt n.els) := by
  cases n
  simp only at h
  subst h
  simp only [reached]

theorem reached_for (n : Node) (h : n.kind = NodeKind.ND_FOR) :
    reached n = n :: (reached_opt n.init ++ reached_opt n.then_) := by
  cases n
  simp only at h
  subst h
  simp only [reached]

theorem reached_block (n : Node) (h : n.kind = NodeKind.ND_BLOCK) :
    reached n = reached_list n.body := by
  cases n
  simp only at h
  subst h
  simp only [reached]

theorem reached_list_append : ∀ (a b : List Node),
    reached_list (a ++ b) = reached_list a ++ reached_list b
  | [], b => by simp [reached_list]
  | x :: a, b => by simp [reached_list, reached_list_append a b]

mutual
theorem reached_length : ∀ node : Node, (reached node).length = cf_count node
  | Node.mk kind ty lhs rhs cond then_ els init inc body funcname args var val => by
    cases kind
    case ND_IF =>
      simp only [reached, cf_count, List.length_cons, List.length_append]
      rw [reached_opt_length then_, reached_opt_length els]
      omega
    case ND_FOR =>
      simp only [reached, cf_count, List.length_cons, List.length_append]
      rw [reached_opt_length init, reached_opt_length then_]
      omega
    case ND_BLOCK =>
      simp only [reached, cf_count]
      exact reached_list_length body
    all_goals simp [reached, cf_count]
theorem reached_opt_length : ∀ p : Option Node, (reached_opt p).length = cf_count_opt p
  | none => by simp [reached_opt, cf_count_opt]
  | some node => by
    simp only [reached_opt, cf_count_opt]
    exact reached_length node
theorem reached_list_length : ∀ body : List Node, (reached_list body).length = cf_count_list body
  | [] => by simp [reached_list, cf_count_list]
  | node :: rest => by
    simp only [reached_list, cf_count_list, List.length_append]
    rw [reached_length node, reached_list_length rest]
end

theorem reached_prog_length : ∀ prog : List Obj, (reached_prog prog).length = cf_count_prog prog
  | [] => by simp [reached_prog, cf_count_prog]
  | fn :: rest => by
    simp only [reached_prog, cf_count_prog, List.length_append]
    rw [reached_prog_length rest]
    split <;> simp [reached_opt_length]

theorem getElem?_append_of_left {α : Type} (a b : List α) (k : Nat) (x : α)
    (h : a[k]? = some x) : (a ++ b)[k]? = some x := by
  have hk : k < a.length := by
    by_contra hc
    rw [List.getElem?_eq_none (by omega)] at h
    cases h
  rw [List.getElem?_append_left hk]
  exact h

theorem getElem?_append_of_right {α : Type} (a b : List α) (k : Nat) (x : α)
    (h : b[k]? = some x) : (a ++ b)[a.length + k]? = some x := by
  rw [List.getElem?_append_right (by omega)]
  simpa using h

/-- Every call of `gen_stmt` on an `if` or loop statement inside the run on
`root` is made on a statement of the reach order, with the counter advanced by
the position of the statement in that order. -/
theorem enters_sound (heap : List Obj) {root n : Node} {s0 s : CgState}
    (h : Enters heap root s0 n s)
    (hk : n.kind = NodeKind.ND_IF ∨ n.kind = NodeKind.ND_FOR) :
    ∃ k : Nat, (reached root)[k]? = some n ∧ s.count_i = s0.count_i + k := by
  induction h with
  | self n s =>
    refine ⟨0, ?_, by simp⟩
    rcases hk with hk | hk
    · rw [reached_if n hk]; simp
    · rw [reached_for n hk]; simp
  | if_then root sub n s0 s1 s hr hcond hsub h ih =>
    obtain ⟨k, e, c⟩ := ih hk
    have ec := gen_expr_ptr_effect heap root.cond _ s1 hcond
    refine ⟨k + 1, ?_, ?_⟩
    · rw [reached_if root hr, hsub, List.getElem?_cons_succ]
      exact getElem?_append_of_left _ _ _ _ e
    · rw [c]
      simp only [cg_log_print_count_i, ec.count_i, count_snd_count_i]
      push_cast; omega
  | if_els root sub n s0 s1 s2 s hr hcond hthen hsub h ih =>
    obtain ⟨k, e, c⟩ := ih hk
    have ec := gen_expr_ptr_effect heap root.cond _ s1 hcond
    have et := gen_stmt_ptr_effect heap root.then_ _ s2 hthen
    refine ⟨(reached_opt root.then_).length + k + 1, ?_, ?_⟩
    · rw [reached_if root hr, hsub, List.getElem?_cons_succ]
      exact getElem?_append_of_right _ _ _ _ e
    · rw [c, reached_opt_length]
      simp only [cg_log_print_count_i, et.count_i, ec.count_i, count_snd_count_i]
      push_cast; omega
  | for_init root sub n s0 s hr hsub h ih =>
    obtain ⟨k, e, c⟩ := ih hk
    refine ⟨k + 1, ?_, ?_⟩
    · rw [reached_for root hr, hsub, List.getElem?_cons_succ]
      exact getElem?_append_of_left _ _ _ _ e
    · rw [c]
      simp only [count_snd_count_i]
      push_cast; omega
  | for_then root sub n s0 s1 s2 s hr hinit hcond hsub h ih =>
    obtain ⟨k, e, c⟩ := ih hk
    have ei := gen_stmt_opt_effect heap root.init _ s1 hinit
    obtain ⟨_, _, ecount, _⟩ := gen_for_cond_effect heap root.cond _ _ s2 hcond
    refine ⟨(reached_opt root.init).length + k + 1, ?_, ?_⟩
    · rw [reached_for root hr, hsub, List.getElem?_cons_succ]
      exact getElem?_append_of_right _ _ _ _ e
    · rw [c, reached_opt_length, ecount]
      simp only [cg_log_print_count_i, ei.count_i, count_snd_count_i]
      push_cast; omega
  | block root sub n before after s0 s1 s hr hbody hbefore h ih =>
    obtain ⟨k, e, c⟩ := ih hk
    have eb := gen_stmt_list_effect heap before s0 s1 hbefore
    refine ⟨(reached_list before).length + k, ?_, ?_⟩
    · rw [reached_block root hr, hbody, reached_list_append]
      apply getElem?_append_of_right
      simp only [reached_list]
      exact getElem?_append_of_left _ _ _ _ e
    · rw [c, reached_list_length, eb.count_i]
      push_cast; omega

theorem getElem?_append_cases {α : Type} (a b : List α) (k : Nat) (x : α)
    (h : (a ++ b)[k]? = some x) :
    a[k]? = some x ∨ ∃ j : Nat, k = a.length + j ∧ b[j]? = some x := by
  by_cases hk : k < a.length
  · rw [List.getElem?_append_left hk] at h
    exact Or.inl h
  · rw [List.getElem?_append_right (by omega)] at h
    exact Or.inr ⟨k - a.length, by omega, h⟩

mutual
theorem enters_complete (heap : List Obj) :
    ∀ (root : Node) (k : Nat) (n : Node), (reached root)[k]? = some n →
      ∀ (s0 t : CgState), gen_stmt heap root s0 = Outcome.ok t →
        ∃ s, Enters heap root s0 n s ∧ s.count_i = s0.count_i + k ∧
          (gen_stmt heap n s).isOk = true
  | Node.mk kind ty lhs rhs cond then_ els init inc body funcname args var val, k, n, hr,
      s0, t, h => by
    cases kind
    case ND_IF =>
      simp only [reached] at hr
      cases k with
      | zero =>
        simp only [List.getElem?_cons_zero, Option.some.injEq] at hr
        subst hr
        exact ⟨s0, Enters.self _ _, by simp, by rw [h]; rfl⟩
      | succ j =>
        rw [List.getElem?_cons_succ] at hr
        simp only [gen_stmt] at h
        obtain ⟨s1, hc, h⟩ := Outcome.andThen_eq_ok.1 h
        obtain ⟨s2, h1, h⟩ := Outcome.andThen_eq_ok.1 h
        obtain ⟨s3, h2, h⟩ := Outcome.andThen_eq_ok.1 h
        have ec := gen_expr_ptr_effect heap cond _ s1 hc
        have et := gen_stmt_ptr_effect heap then_ _ s2 h1
        rcases getElem?_append_cases _ _ _ _ hr with e | ⟨i, ki, e⟩
        · obtain ⟨sub, hsub, ih⟩ := enters_complete_opt heap then_ j n e
          have h1' := h1
          rw [hsub] at h1'
          simp only [gen_stmt_ptr] at h1'
          obtain ⟨s, hs, c, ok⟩ := ih _ s2 h1'
          refine ⟨s, Enters.if_then _ sub n s0 s1 s rfl hc hsub hs, ?_, ok⟩
          rw [c]
          simp only [cg_log_print_count_i, ec.count_i, count_snd_count_i]
          push_cast; omega
        · obtain ⟨sub, hsub, ih⟩ := enters_complete_opt heap els i n e
          have h2' := h2
          rw [hsub] at h2'
          simp only [gen_stmt_opt] at h2'
          obtain ⟨s, hs, c, ok⟩ := ih _ s3 h2'
          refine ⟨s, Enters.if_els _ sub n s0 s1 s2 s rfl hc h1 hsub hs, ?_, ok⟩
          rw [c, ki, reached_opt_length]
          simp only [cg_log_print_count_i, et.count_i, ec.count_i, count_snd_count_i]
          push_cast; omega
    case ND_FOR =>
      simp only [reached] at hr
      cases k with
      | zero =>
        simp only [List.getElem?_cons_zero, Option.some.injEq] at hr
        subst hr
        exact ⟨s0, Enters.self _ _, by simp, by rw [h]; rfl⟩
      | succ j =>
        rw [List.getElem?_cons_succ] at hr
        simp only [gen_stmt] at h
        obtain ⟨s1, h0, h⟩ := Outcome.andThen_eq_ok.1 h
        obtain ⟨s2, hc, h⟩ := Outcome.andThen_eq_ok.1 h
        obtain ⟨s3, h1, h⟩ := Outcome.andThen_eq_ok.1 h
        have ei := gen_stmt_opt_effect heap init _ s1 h0
        obtain ⟨_, _, ecount, _⟩ := gen_for_cond_effect heap cond _ _ s2 hc
        rcases getElem?_append_cases _ _ _ _ hr with e | ⟨i, ki, e⟩
        · obtain ⟨sub, hsub, ih⟩ := enters_complete_opt heap init j n e
          have h0' := h0
          rw [hsub] at h0'
          simp only [gen_stmt_opt] at h0'
          obtain ⟨s, hs, c, ok⟩ := ih _ s1 h0'
          refine ⟨s, Enters.for_init _ sub n s0 s rfl hsub hs, ?_, ok⟩
          rw [c]
          simp only [count_snd_count_i]
          push_cast; omega
        · obtain ⟨sub, hsub, ih⟩ := enters_complete_opt heap then_ i n e
          have h1' := h1
          rw [hsub] at h1'
          simp only [gen_stmt_ptr] at h1'
          obtain ⟨s, hs, c, ok⟩ := ih _ s3 h1'
          refine ⟨s, Enters.for_then _ sub n s0 s1 s2 s rfl h0 hc hsub hs, ?_, ok⟩
          rw [c, ki, reached_opt_length, ecount]
          simp only [cg_log_print_count_i, ei.count_i, count_snd_count_i]
          push_cast; omega
    case ND_BLOCK =>
      simp only [reached] at hr
      simp only [gen_stmt] at h
      obtain ⟨before, sub, after, s1, s, hb, hbefore, hs, c, ok⟩ :=
        enters_complete_list heap body k n hr s0 t h
      exact ⟨s, Enters.block _ sub n before after s0 s1 s rfl hb hbefore hs, c, ok⟩
    all_goals (simp [reached] at hr)
theorem enters_complete_opt (heap : List Obj) :
    ∀ (p : Option Node) (k : Nat) (n : Node), (reached_opt p)[k]? = some n →
      ∃ sub, p = some sub ∧ ∀ (s0 t : CgState), gen_stmt heap sub s0 = Outcome.ok t →
        ∃ s, Enters heap sub s0 n s ∧ s.count_i = s0.count_i + k ∧
          (gen_stmt heap n s).isOk = true
  | none, k, n, hr => by simp [reached_opt] at hr
  | some node, k, n, hr => by
    simp only [reached_opt] at hr
    exact ⟨node, rfl, enters_complete heap node k n hr⟩
theorem enters_complete_list (heap : List Obj) :
    ∀ (body : List Node) (k : Nat) (n : Node), (reached_list body)[k]? = some n →
      ∀ (s0 t : CgState), gen_stmt_list heap body s0 = Outcome.ok t →
        ∃ before sub after s1 s, body = before ++ sub :: after ∧
          gen_stmt_list heap before s0 = Outcome.ok s1 ∧ Enters heap sub s1 n s ∧
          s.count_i = s0.count_i + k ∧ (gen_stmt heap n s).isOk = true
  | [], k, n, hr, s0, t, h => by simp [reached_list] at hr
  | node :: rest, k, n, hr, s0, t, h => by
    simp only [reached_list] at hr
    simp only [gen_stmt_list] at h
    obtain ⟨s1, h1, h⟩ := Outcome.andThen_eq_ok.1 h
    rcases getElem?_append_cases _ _ _ _ hr with e | ⟨i, ki, e⟩
    · obtain ⟨s, hs, c, ok⟩ := enters_complete heap node k n e s0 s1 h1
      exact ⟨[], node, rest, s0, s, rfl, rfl, hs, c, ok⟩
    · obtain ⟨before, sub, after, s2, s, hb, hbefore, hs, c, ok⟩ :=
        enters_complete_list heap rest i n e s1 t h
      refine ⟨node :: before, sub, after, s2, s, by rw [hb]; rfl, ?_, hs, ?_, ok⟩
      · simp only [gen_stmt_list, h1, Outcome.andThen]
        exact hbefore
      · rw [c, ki, reached_length, (gen_stmt_effect heap node s0 s1 h1).count_i]
        push_cast; omega
end

theorem reached_prog_assign (prog : List Obj) :
    reached_prog (assign_lvar_offsets prog) = reached_prog prog := by
  rw [assign_lvar_offsets_eq_map]
  induction prog with
  | nil => rfl
  | cons fn rest ih =>
    simp only [List.map_cons, reached_prog, assign_fn_is_function, assign_fn_body, ih]

/-- Every call of `gen_stmt` on an `if` or loop statement inside the run of the
text section is made on a statement of the reach order of the program, with the
counter advanced by the position of the statement in that order. -/
theorem entersProg_sound (heap : List Obj) {prog : List Obj} {n : Node} {s0 s : CgState}
    (h : EntersProg heap prog s0 n s)
    (hk : n.kind = NodeKind.ND_IF ∨ n.kind = NodeKind.ND_FOR) :
    ∃ k : Nat, (reached_prog prog)[k]? = some n ∧ s.count_i = s0.count_i + k := by
  induction h with
  | skip fn rest n s0 s hfn h ih =>
    obtain ⟨k, e, c⟩ := ih hk
    refine ⟨k, ?_, c⟩
    simp only [reached_prog, hfn, Bool.false_eq_true, if_false, List.nil_append]
    exact e
  | here fn rest body n s0 s1 s hfn hparams hbody h =>
    obtain ⟨k, e, c⟩ := enters_sound heap h hk
    have ep := emit_params_effect _ _ _ s1 hparams
    obtain ⟨_, pc, _⟩ := emit_prologue_facts fn s0
    refine ⟨k, ?_, by rw [c, ep.count_i, pc]⟩
    simp only [reached_prog, hfn, if_true, hbody, reached_opt]
    exact getElem?_append_of_left _ _ _ _ e
  | later fn rest n s0 s1 s2 s hfn hparams hbody hdepth h ih =>
    obtain ⟨k, e, c⟩ := ih hk
    have ep := emit_params_effect _ _ _ s1 hparams
    have eb := gen_stmt_ptr_effect heap fn.body s1 s2 hbody
    obtain ⟨_, pc, _⟩ := emit_prologue_facts fn s0
    obtain ⟨_, qc, _⟩ := emit_epilogue_facts fn s2
    refine ⟨(reached_opt fn.body).length + k, ?_, ?_⟩
    · simp only [reached_prog, hfn, if_true]
      exact getElem?_append_of_right _ _ _ _ e
    · rw [c, qc, eb.count_i, ep.count_i, pc, reached_opt_length]
      push_cast; omega

/-- In a run of the text section that returns, the statement at position `k` of
the reach order of the program is passed to `gen_stmt` with the counter
advanced by `k`, and that call returns. -/
theorem entersProg_complete (heap : List Obj) :
    ∀ (prog : List Obj) (k : Nat) (n : Node), (reached_prog prog)[k]? = some n →
      ∀ (s0 t : CgState), emit_text_loop heap prog s0 = Outcome.ok t →
        ∃ s, EntersProg heap prog s0 n s ∧ s.count_i = s0.count_i + k ∧
          (gen_stmt heap n s).isOk = true
  | [], k, n, hr, s0, t, h => by simp [reached_prog] at hr
  | fn :: rest, k, n, hr, s0, t, h => by
    simp only [emit_text_loop] at h
    by_cases hfun : fn.is_function = true
    · simp only [hfun, Bool.not_true, Bool.false_eq_true, if_false] at h
      obtain ⟨s1, hp, h⟩ := Outcome.andThen_eq_ok.1 h
      obtain ⟨s2, hb, h⟩ := Outcome.andThen_eq_ok.1 h
      have ep := emit_params_effect _ _ _ s1 hp
      have eb := gen_stmt_ptr_effect heap fn.body s1 s2 hb
      obtain ⟨_, pc, _⟩ := emit_prologue_facts fn s0
      obtain ⟨_, qc, _⟩ := emit_epilogue_facts fn s2
      split_ifs at h with hd
      simp only [reached_prog, hfun, if_true] at hr
      rcases getElem?_append_cases _ _ _ _ hr with e | ⟨i, ki, e⟩
      · obtain ⟨body, hbody, ih⟩ := enters_complete_opt heap fn.body k n e
        have hb' := hb
        rw [hbody] at hb'
        simp only [gen_stmt_ptr] at hb'
        obtain ⟨s, hs, c, ok⟩ := ih s1 s2 hb'
        exact ⟨s, EntersProg.here fn rest body n s0 s1 s hfun hp hbody hs,
          by rw [c, ep.count_i, pc], ok⟩
      · obtain ⟨s, hs, c, ok⟩ := entersProg_complete heap rest i n e _ t h
        refine ⟨s, EntersProg.later fn rest n s0 s1 s2 s hfun hp hb (by simpa using hd) hs, ?_, ok⟩
        rw [c, qc, eb.count_i, ep.count_i, pc, ki, reached_opt_length]
        push_cast; omega
    · simp only [hfun, Bool.not_false, if_true] at h
      simp only [reached_prog, hfun, Bool.false_eq_true, if_false, List.nil_append] at hr
      obtain ⟨s, hs, c, ok⟩ := entersProg_complete heap rest k n hr s0 t h
      exact ⟨s, EntersProg.skip fn rest n s0 s (by simpa using hfun) hs, c, ok⟩

mutual
theorem reached_kind : ∀ (root n : Node), n ∈ reached root →
    n.kind = NodeKind.ND_IF ∨ n.kind = NodeKind.ND_FOR
  | Node.mk kind ty lhs rhs cond then_ els init inc body funcname args var val, n, h => by
    cases kind
    case ND_IF =>
      simp only [reached, List.mem_cons, List.mem_append] at h
      rcases h with h | h | h
      · subst h; exact Or.inl rfl
      · exact reached_opt_kind then_ n h
      · exact reached_opt_kind els n h
    case ND_FOR =>
      simp only [reached, List.mem_cons, List.mem_append] at h
      rcases h with h | h | h
      · subst h; exact Or.inr rfl
      · exact reached_opt_kind init n h
      · exact reached_opt_kind then_ n h
    case ND_BLOCK =>
      simp only [reached] at h
      exact reached_list_kind body n h
    all_goals (simp [reached] at h)
theorem reached_opt_kind : ∀ (p : Option Node) (n : Node), n ∈ reached_opt p →
    n.kind = NodeKind.ND_IF ∨ n.kind = NodeKind.ND_FOR
  | none, n, h => by simp [reached_opt] at h
  | some node, n, h => by
    simp only [reached_opt] at h
    exact reached_kind node n h
theorem reached_list_kind : ∀ (body : List Node) (n : Node), n ∈ reached_list body →
    n.kind = NodeKind.ND_IF ∨ n.kind = NodeKind.ND_FOR
  | [], n, h => by simp [reached_list] at h
  | node :: rest, n, h => by
    simp only [reached_list, List.mem_append] at h
    rcases h with h | h
    · exact reached_kind node n h
    · exact reached_list_kind rest n h
end

theorem reached_prog_kind : ∀ (prog : List Obj) (n : Node), n ∈ reached_prog prog →
    n.kind = NodeKind.ND_IF ∨ n.kind = NodeKind.ND_FOR
  | [], n, h => by simp [reached_prog] at h
  | fn :: rest, n, h => by
    simp only [reached_prog, List.mem_append] at h
    rcases h with h | h
    · split at h
      · exact reached_opt_kind _ n h
      · simp at h
    · exact reached_prog_kind rest n h

/-! ## Emitted lines do not depend on the state -/

theorem replay_append (log : CgLog) (t u : List PrintCall) :
    replay log (t ++ u) = replay (replay log t) u := by
  simp [replay, List.foldl_append]

theorem continued_stmtFrame (s : CgState) : StmtFrame (CgState.continued s) :=
  ⟨fun f a x => by simp [CgState.continued, cg_log_print, replay],
   fun x => by simp [CgState.continued, push, cg_log_print, replay, add_assoc],
   fun arg x => by simp [CgState.continued, pop, cg_log_print, replay, add_sub_assoc],
   fun _ => rfl, fun _ => rfl, fun _ => rfl⟩

theorem restarted_exprFrame (c : Int) (fn : Option Obj) : ExprFrame (CgState.restarted c fn) :=
  ⟨fun _ _ _ => rfl, fun _ => rfl, fun _ _ => rfl⟩

theorem StmtFrame.toExpr {g : CgState → CgState} (hg : StmtFrame g) : ExprFrame g :=
  ⟨hg.print, hg.push, hg.pop⟩

theorem continued_start (s : CgState) :
    s.continued (CgState.start s.count_i s.current_fn) = s := by
  simp [CgState.continued, CgState.start, CgState.initial, replay]

theorem continued_trace (s x : CgState) : (s.continued x).trace = s.trace ++ x.trace := rfl

theorem continued_depth (s x : CgState) : (s.continued x).depth = s.depth + x.depth := rfl

theorem continued_log (s x : CgState) : (s.continued x).log = replay s.log x.trace := rfl

theorem restarted_initial (c : Int) (fn : Option Obj) :
    CgState.restarted c fn CgState.initial = CgState.start c fn := rfl

theorem ExprFrame.load_frame {g : CgState → CgState} (hg : ExprFrame g) (ty : Option CType)
    (s : CgState) : load ty (g s) = (load ty s).map g := by
  unfold Chibicc.load
  split
  · rfl
  · split_ifs <;> simp only [Outcome.map_ok, hg.print]

theorem ExprFrame.store_frame {g : CgState → CgState} (hg : ExprFrame g) (ty : Option CType)
    (s : CgState) : store ty (g s) = (store ty s).map g := by
  unfold Chibicc.store
  simp only [hg.pop]
  split
  · rfl
  · split_ifs <;> simp only [Outcome.map_ok, hg.print]

theorem ExprFrame.gen_addr_var_frame {g : CgState → CgState} (hg : ExprFrame g)
    (heap : List Obj) (var : Option ObjPtr) (s : CgState) :
    gen_addr_var heap var (g s) = (gen_addr_var heap var s).map g := by
  unfold Chibicc.gen_addr_var
  split
  · rfl
  · split
    · rfl
    · split_ifs <;> simp only [Outcome.map_ok, hg.print]

theorem ExprFrame.pop_args_frame {g : CgState → CgState} (hg : ExprFrame g) :
    ∀ (n : Nat) (s : CgState), pop_args n (g s) = (pop_args n s).map g
  | 0, s => rfl
  | n + 1, s => by
    simp only [Chibicc.pop_args]
    split
    · rfl
    · rw [hg.pop]
      exact ExprFrame.pop_args_frame hg n _

theorem ExprFrame.gen_binop_frame {g : CgState → CgState} (hg : ExprFrame g) (kind : NodeKind)
    (s : CgState) : gen_binop kind (g s) = (gen_binop kind s).map g := by
  cases kind <;> simp only [Chibicc.gen_binop, Outcome.map_ok, Outcome.map_fail, hg.print]

mutual
theorem gen_addr_frame {g : CgState → CgState} (hg : ExprFrame g) (heap : List Obj) :
    ∀ (node : Node) (s : CgState), gen_addr heap node (g s) = (gen_addr heap node s).map g
  | Node.mk kind ty lhs rhs cond then_ els init inc body funcname args var val, s => by
    cases kind
    case ND_VAR => exact hg.gen_addr_var_frame heap var s
    case ND_DEREF => exact gen_expr_ptr_frame hg heap lhs s
    all_goals rfl
theorem gen_expr_frame {g : CgState → CgState} (hg : ExprFrame g) (heap : List Obj) :
    ∀ (node : Node) (s : CgState), gen_expr heap node (g s) = (gen_expr heap node s).map g
  | Node.mk kind ty lhs rhs cond then_ els init inc body funcname args var val, s => by
    have binary : ∀ k : NodeKind,
        ((gen_expr_ptr heap rhs (g s)).andThen fun s =>
          (gen_expr_ptr heap lhs (push s)).andThen fun s =>
          gen_binop k (pop "%rdi" s)) =
        ((gen_expr_ptr heap rhs s).andThen fun s =>
          (gen_expr_ptr heap lhs (push s)).andThen fun s =>
          gen_binop k (pop "%rdi" s)).map g := by
      intro k
      refine Outcome.andThen_map (gen_expr_ptr_frame hg heap rhs s) fun s1 => ?_
      refine Outcome.andThen_map ?_ fun s2 => ?_
      · rw [hg.push]; exact gen_expr_ptr_frame hg heap lhs _
      · rw [hg.pop]; exact hg.gen_binop_frame k _
    cases kind
    case ND_NUM =>
      simp only [gen_expr, Outcome.map_ok, hg.print]
    case ND_NEG =>
      simp only [gen_expr]
      refine Outcome.andThen_map (gen_expr_ptr_frame hg heap lhs s) fun s1 => ?_
      simp only [Outcome.map_ok, hg.print]
    case ND_VAR =>
      simp only [gen_expr]
      exact Outcome.andThen_map (hg.gen_addr_var_frame heap var s) fun s1 => hg.load_frame ty s1
    case ND_DEREF =>
      simp only [gen_expr]
      exact Outcome.andThen_map (gen_expr_ptr_frame hg heap lhs s) fun s1 => hg.load_frame ty s1
    case ND_ADDR => exact gen_addr_ptr_frame hg heap lhs s
    case ND_ASSIGN =>
      simp only [gen_expr]
      refine Outcome.andThen_map (gen_addr_ptr_frame hg heap lhs s) fun s1 => ?_
      refine Outcome.andThen_map ?_ fun s2 => hg.store_frame ty s2
      rw [hg.push]; exact gen_expr_ptr_frame hg heap rhs _
    case ND_FUNCALL =>
      simp only [gen_expr]
      refine Outcome.andThen_map (gen_args_frame hg heap args s) fun s1 => ?_
      refine Outcome.andThen_map (hg.pop_args_frame _ s1) fun s2 => ?_
      simp only [Outcome.map_ok, hg.print]
    all_goals exact binary _
theorem gen_addr_ptr_frame {g : CgState → CgState} (hg : ExprFrame g) (heap : List Obj) :
    ∀ (p : Option Node) (s : CgState), gen_addr_ptr heap p (g s) = (gen_addr_ptr heap p s).map g
  | none, _ => rfl
  | some node, s => gen_addr_frame hg heap node s
theorem gen_expr_ptr_frame {g : CgState → CgState} (hg : ExprFrame g) (heap : List Obj) :
    ∀ (p : Option Node) (s : CgState), gen_expr_ptr heap p (g s) = (gen_expr_ptr heap p s).map g
  | none, _ => rfl
  | some node, s => gen_expr_frame hg heap node s
theorem gen_args_frame {g : CgState → CgState} (hg : ExprFrame g) (heap : List Obj) :
    ∀ (args : List Node) (s : CgState), gen_args heap args (g s) = (gen_args heap args s).map g
  | [], s => rfl
  | arg :: rest, s => by
    simp only [gen_args]
    refine Outcome.andThen_map (gen_expr_frame hg heap arg s) fun s1 => ?_
    rw [hg.push]
    exact gen_args_frame hg heap rest _
end

theorem gen_for_cond_frame {g : CgState → CgState} (hg : ExprFrame g) (heap : List Obj)
    (cond : Option Node) (c : Int) (s : CgState) :
    gen_for_cond heap cond c (g s) = (gen_for_cond heap cond c s).map g := by
  unfold gen_for_cond
  split
  · rfl
  · refine Outcome.andThen_map (gen_expr_frame hg heap _ s) fun s1 => ?_
    simp only [Outcome.map_ok, hg.print]

theorem gen_for_inc_frame {g : CgState → CgState} (hg : ExprFrame g) (heap : List Obj)
    (inc : Option Node) (s : CgState) :
    gen_for_inc heap inc (g s) = (gen_for_inc heap inc s).map g := by
  unfold gen_for_inc
  split
  · rfl
  · exact gen_expr_frame hg heap _ s

theorem gen_return_jmp_frame {g : CgState → CgState} (hg : StmtFrame g) (s : CgState) :
    gen_return_jmp (g s) = (gen_return_jmp s).map g := by
  unfold gen_return_jmp
  rw [hg.current_fn]
  split
  · rfl
  · simp only [Outcome.map_ok, hg.print]

mutual
theorem gen_stmt_frame {g : CgState → CgState} (hg : StmtFrame g) (heap : List Obj) :
    ∀ (node : Node) (s : CgState), gen_stmt heap node (g s) = (gen_stmt heap node s).map g
  | Node.mk kind ty lhs rhs cond then_ els init inc body funcname args var val, s => by
    cases kind
    case ND_IF =>
      simp only [gen_stmt, hg.count_fst, hg.count_snd]
      refine Outcome.andThen_map (gen_expr_ptr_frame hg.toExpr heap cond _) fun s1 => ?_
      refine Outcome.andThen_map ?_ fun s2 => ?_
      · rw [← hg.print, ← hg.print]; exact gen_stmt_ptr_frame hg heap then_ _
      refine Outcome.andThen_map ?_ fun s3 => ?_
      · rw [← hg.print, ← hg.print]; exact gen_stmt_opt_frame hg heap els _
      simp only [Outcome.map_ok, hg.print]
    case ND_FOR =>
      simp only [gen_stmt, hg.count_fst, hg.count_snd]
      refine Outcome.andThen_map (gen_stmt_opt_frame hg heap init _) fun s1 => ?_
      refine Outcome.andThen_map ?_ fun s2 => ?_
      · rw [← hg.print]; exact gen_for_cond_frame hg.toExpr heap cond _ _
      refine Outcome.andThen_map (gen_stmt_ptr_frame hg heap then_ _) fun s3 => ?_
      refine Outcome.andThen_map (gen_for_inc_frame hg.toExpr heap inc _) fun s4 => ?_
      simp only [Outcome.map_ok, hg.print]
    case ND_BLOCK => exact gen_stmt_list_frame hg heap body s
    case ND_RETURN =>
      simp only [gen_stmt]
      exact Outcome.andThen_map (gen_expr_ptr_frame hg.toExpr heap lhs s) fun s1 =>
        gen_return_jmp_frame hg s1
    case ND_EXPR_STMT => exact gen_expr_ptr_frame hg.toExpr heap lhs s
    all_goals rfl
theorem gen_stmt_ptr_frame {g : CgState → CgState} (hg : StmtFrame g) (heap : List Obj) :
    ∀ (p : Option Node) (s : CgState), gen_stmt_ptr heap p (g s) = (gen_stmt_ptr heap p s).map g
  | none, _ => rfl
  | some node, s => gen_stmt_frame hg heap node s
theorem gen_stmt_opt_frame {g : CgState → CgState} (hg : StmtFrame g) (heap : List Obj) :
    ∀ (p : Option Node) (s : CgState), gen_stmt_opt heap p (g s) = (gen_stmt_opt heap p s).map g
  | none, _ => rfl
  | some node, s => gen_stmt_frame hg heap node s
theorem gen_stmt_list_frame {g : CgState → CgState} (hg : StmtFrame g) (heap : List Obj) :
    ∀ (body : List Node) (s : CgState),
      gen_stmt_list heap body (g s) = (gen_stmt_list heap body s).map g
  | [], s => rfl
  | node :: rest, s => by
    simp only [gen_stmt_list]
    exact Outcome.andThen_map (gen_stmt_frame hg heap node s) fun s1 =>
      gen_stmt_list_frame hg heap rest s1
end

/-- Expression code run from any state is its run from the start of the
process, continued from that state: it returns in the one exactly when it
returns in the other, and it appends the same lines. -/
theorem gen_expr_from (heap : List Obj) (e : Node) (s : CgState) :
    gen_expr heap e s =
      (gen_expr heap e CgState.initial).map
        (fun x => s.continued (CgState.restarted s.count_i s.current_fn x)) := by
  have h1 := gen_expr_frame (restarted_exprFrame s.count_i s.current_fn) heap e CgState.initial
  have h2 := gen_expr_frame (continued_stmtFrame s).toExpr heap e
    (CgState.restarted s.count_i s.current_fn CgState.initial)
  rw [restarted_initial] at h1 h2
  rw [continued_start] at h2
  rw [h2, h1]
  cases gen_expr heap e CgState.initial <;> rfl

theorem gen_addr_from (heap : List Obj) (e : Node) (s : CgState) :
    gen_addr heap e s =
      (gen_addr heap e CgState.initial).map
        (fun x => s.continued (CgState.restarted s.count_i s.current_fn x)) := by
  have h1 := gen_addr_frame (restarted_exprFrame s.count_i s.current_fn) heap e CgState.initial
  have h2 := gen_addr_frame (continued_stmtFrame s).toExpr heap e
    (CgState.restarted s.count_i s.current_fn CgState.initial)
  rw [restarted_initial] at h1 h2
  rw [continued_start] at h2
  rw [h2, h1]
  cases gen_addr heap e CgState.initial <;> rfl

theorem gen_stmt_from (heap : List Obj) (n : Node) (s : CgState) :
    gen_stmt heap n s =
      (gen_stmt heap n (CgState.start s.count_i s.current_fn)).map s.continued := by
  have h := gen_stmt_frame (continued_stmtFrame s) heap n
    (CgState.start s.count_i s.current_fn)
  rw [continued_start] at h
  exact h

theorem gen_expr_trace (heap : List Obj) (e : Node) (s : CgState) :
    (gen_expr heap e s).state.trace = s.trace ++ expr_lines heap e := by
  rw [gen_expr_from, Outcome.state_map]
  rfl

theorem gen_expr_isOk (heap : List Obj) (e : Node) (s : CgState) :
    (gen_expr heap e s).isOk = (gen_expr heap e CgState.initial).isOk := by
  rw [gen_expr_from, Outcome.isOk_map]

theorem gen_addr_trace (heap : List Obj) (e : Node) (s : CgState) :
    (gen_addr heap e s).state.trace = s.trace ++ addr_lines heap e := by
  rw [gen_addr_from, Outcome.state_map]
  rfl

theorem gen_addr_isOk (heap : List Obj) (e : Node) (s : CgState) :
    (gen_addr heap e s).isOk = (gen_addr heap e CgState.initial).isOk := by
  rw [gen_addr_from, Outcome.isOk_map]

theorem gen_stmt_trace (heap : List Obj) (n : Node) (s : CgState) :
    (gen_stmt heap n s).state.trace = s.trace ++ stmt_lines heap n s.count_i s.current_fn := by
  rw [gen_stmt_from, Outcome.state_map]
  rfl

theorem gen_stmt_isOk (heap : List Obj) (n : Node) (s : CgState) :
    (gen_stmt heap n s).isOk =
      (gen_stmt heap n (CgState.start s.count_i s.current_fn)).isOk := by
  rw [gen_stmt_from, Outcome.isOk_map]

/-! ## The contents of the log -/

theorem firstN_length (b : Bytes) (n : Nat) : (b.firstN n).length = n := by
  simp [Bytes.firstN]

theorem firstN_getElem? (b : Bytes) (n i : Nat) (h : i < n) : (b.firstN n)[i]? = some (b i) := by
  simp [Bytes.firstN, List.getElem?_map, List.getElem?_range h]

theorem contents_length (log : CgLog) : log.contents.length = log.__cg_len := by
  simp [CgLog.contents, firstN_length]

theorem firstN_bytes_of (l : List Byte) : (bytes_of l).firstN l.length = l := by
  apply List.ext_getElem?
  intro i
  by_cases h : i < l.length
  · rw [firstN_getElem? _ _ _ h]
    simp [bytes_of, List.getD, List.getElem?_eq_getElem h]
  · rw [List.getElem?_eq_none (by rw [firstN_length]; omega), List.getElem?_eq_none (by omega)]

theorem firstN_take (b : Bytes) (n k : Nat) : (b.firstN n).take k = b.firstN (min k n) := by
  apply List.ext_getElem?
  intro i
  by_cases h : i < min k n
  · rw [firstN_getElem? _ _ _ h, List.getElem?_take_of_lt (by omega),
      firstN_getElem? _ _ _ (by omega)]
  · rw [List.getElem?_eq_none (by rw [List.length_take, firstN_length]; omega),
      List.getElem?_eq_none (by rw [firstN_length]; omega)]

/-- One append: the contents are the old contents followed by the new bytes,
cut at the capacity. -/
theorem append_contents (log : CgLog) (src : Bytes) (n : Nat)
    (h : log.__cg_len ≤ CG_BUF_SIZE) :
    (__cg_append_bytes log src n).contents = (log.contents ++ src.firstN n).take CG_BUF_SIZE := by
  apply List.ext_getElem?
  intro i
  have hlen : ((log.contents ++ src.firstN n).take CG_BUF_SIZE).length =
      min CG_BUF_SIZE (log.__cg_len + n) := by
    rw [List.length_take, List.length_append, contents_length, firstN_length]
  unfold __cg_append_bytes
  by_cases hn : n = 0
  · subst hn
    simp only [if_true]
    have : src.firstN 0 = [] := rfl
    rw [this, List.append_nil, List.take_of_length_le (by rw [contents_length]; exact h)]
  · simp only [hn, if_false]
    by_cases hlt : n < CG_BUF_SIZE - log.__cg_len
    · have hz : n ≠ 0 := hn
      simp only [hlt, if_true, ne_eq, hz, not_false_eq_true]
      rw [List.take_of_length_le
        (by rw [List.length_append, contents_length, firstN_length]; omega)]
      by_cases hi : i < log.__cg_len + n
      · simp only [CgLog.contents]
        rw [firstN_getElem? _ _ _ hi]
        by_cases hi2 : i < log.__cg_len
        · rw [List.getElem?_append_left (by rw [firstN_length]; exact hi2),
            firstN_getElem? _ _ _ hi2]
          have : ¬ (log.__cg_len ≤ i ∧ i < log.__cg_len + n) := by omega
          simp only [memcpy, this, if_false]
        · rw [List.getElem?_append_right (by rw [firstN_length]; omega), firstN_length,
            firstN_getElem? _ _ _ (by omega)]
          have : log.__cg_len ≤ i ∧ i < log.__cg_len + n := by omega
          simp only [memcpy, this, and_self, if_true]
      · rw [List.getElem?_eq_none (by simp only [CgLog.contents, firstN_length]; omega),
          List.getElem?_eq_none
            (by rw [List.length_append, contents_length, firstN_length]; omega)]
    · simp only [hlt, if_false]
      by_cases hz : CG_BUF_SIZE - log.__cg_len = 0
      · simp only [ne_eq, hz, not_true_eq_false, if_false]
        rw [List.take_append_of_le_length (by rw [contents_length]; omega),
          List.take_of_length_le (by rw [contents_length]; omega)]
      · simp only [ne_eq, hz, not_false_eq_true, if_true]
        by_cases hi : i < CG_BUF_SIZE
        · simp only [CgLog.contents]
          rw [firstN_getElem? _ _ _ (by omega), List.getElem?_take_of_lt hi]
          by_cases hi2 : i < log.__cg_len
          · rw [List.getElem?_append_left (by rw [firstN_length]; exact hi2),
              firstN_getElem? _ _ _ hi2]
            have : ¬ (log.__cg_len ≤ i ∧
                i < log.__cg_len + (CG_BUF_SIZE - log.__cg_len)) := by omega
            simp only [memcpy, this, if_false]
          · rw [List.getElem?_append_right (by rw [firstN_length]; omega), firstN_length,
              firstN_getElem? _ _ _ (by omega)]
            have : log.__cg_len ≤ i ∧
                i < log.__cg_len + (CG_BUF_SIZE - log.__cg_len) := by omega
            simp only [memcpy, this, and_self, if_true]
        · rw [List.getElem?_eq_none (by simp only [CgLog.contents, firstN_length]; omega),
            List.getElem?_eq_none (by rw [List.length_take]; omega)]

theorem take_append_take {α : Type} (a b : List α) (k : Nat) :
    ((a.take k) ++ b).take k = (a ++ b).take k := by
  by_cases h : k ≤ a.length
  · rw [List.take_append_of_le_length (by rw [List.length_take]; omega),
      List.take_append_of_le_length h, List.take_take, Nat.min_self]
  · have ha : a.length ≤ k := by omega
    rw [List.take_of_length_le ha]

theorem append_all_len_le (strs : List (List Byte)) :
    ∀ (log : CgLog), log.__cg_len ≤ CG_BUF_SIZE → (append_all log strs).__cg_len ≤ CG_BUF_SIZE := by
  induction strs with
  | nil => intro log h; exact h
  | cons x rest ih =>
    intro log h
    exact ih _ (append_len_le log _ _ h)

/-- Any number of appends: the contents are the old contents followed by the
concatenation of the strings, cut at the capacity. -/
theorem append_all_contents (strs : List (List Byte)) :
    ∀ (log : CgLog), log.__cg_len ≤ CG_BUF_SIZE →
      (append_all log strs).contents = (log.contents ++ strs.flatten).take CG_BUF_SIZE := by
  induction strs with
  | nil =>
    intro log h
    simp only [append_all, List.foldl_nil, List.flatten_nil, List.append_nil]
    rw [List.take_of_length_le (by rw [contents_length]; exact h)]
  | cons x rest ih =>
    intro log h
    have h1 := append_len_le log (bytes_of x) x.length h
    have e : append_all log (x :: rest) =
        append_all (__cg_append_bytes log (bytes_of x) x.length) rest := rfl
    rw [e, ih _ h1, append_contents log _ _ h, firstN_bytes_of, take_append_take,
      List.flatten_cons, List.append_assoc]

theorem append_zero (log : CgLog) (src : Bytes) : __cg_append_bytes log src 0 = log := by
  unfold __cg_append_bytes
  rw [if_pos rfl]

theorem vprint_text (log : CgLog) (text : List Byte) :
    (if text.length = 0 then log
      else __cg_append_bytes log (fun i => (text.take (TMP_SIZE - 1)).getD i 0)
        (if text.length ≥ TMP_SIZE then TMP_SIZE - 1 else text.length)) =
    __cg_append_bytes log (bytes_of (text.take (TMP_SIZE - 1)))
      (text.take (TMP_SIZE - 1)).length := by
  have hT : TMP_SIZE = 1024 := rfl
  by_cases h0 : text.length = 0
  · rw [if_pos h0, List.length_take, h0, Nat.min_zero, append_zero]
  · rw [if_neg h0]
    have hn : (if text.length ≥ TMP_SIZE then TMP_SIZE - 1 else text.length) =
        (text.take (TMP_SIZE - 1)).length := by
      rw [List.length_take]
      split_ifs <;> omega
    rw [hn]
    rfl

/-- One `cg_log_print` call appends the bytes of its line. -/
theorem vprint_eq_append (log : CgLog) (f : String) (a : List FmtArg) :
    __cg_vprint log f a =
      __cg_append_bytes log (bytes_of (line_bytes ⟨f, a⟩)) (line_bytes ⟨f, a⟩).length := by
  exact vprint_text log ((vformat f.toList a).map Char.toNat)

theorem replay_eq_append_all (trace : List PrintCall) :
    ∀ log : CgLog, replay log trace = append_all log (trace.map line_bytes) := by
  induction trace with
  | nil => intro log; rfl
  | cons p rest ih =>
    intro log
    have e : replay log (p :: rest) = replay (__cg_vprint log p.fmt p.args) rest := rfl
    rw [e, ih, vprint_eq_append]
    rfl

/-- The log of a state reached by print calls from a reset log holds the lines
of the trace, cut at the capacity. -/
theorem replay_contents (log : CgLog) (trace : List PrintCall) (h : log.__cg_len = 0) :
    (replay log trace).contents = ((trace.map line_bytes).flatten).take CG_BUF_SIZE := by
  rw [replay_eq_append_all, append_all_contents _ _ (by rw [h]; exact Nat.zero_le _)]
  have : log.contents = [] := by simp [CgLog.contents, Bytes.firstN, h]
  rw [this, List.nil_append]

theorem codegen_contents (prog : List Obj) (s : CgState) :
    (codegen prog s).2.state.log.contents =
      (((codegen prog s).2.state.trace.map line_bytes).flatten).take CG_BUF_SIZE := by
  rw [codegen_state_log, replay_contents _ _ rfl]

theorem assign_prog_return (name : String) (N : Int) :
    assign_lvar_offsets (prog_return name N) = prog_return name N := by
  have ha : align_to 0 16 = 0 := by decide
  simp only [prog_return, assign_lvar_offsets, Obj.func, Obj.zeroed, assign_offsets_chain, ha]
  rfl

theorem emit_data_prog_return (name : String) (N : Int) (s : CgState) :
    emit_data (prog_return name N) s = s := by
  simp only [prog_return, emit_data, Obj.func, Obj.zeroed]
  rfl

theorem gen_body_return (heap : List Obj) (N : Int) (s : CgState) (fn : Obj)
    (h : s.current_fn = some fn) :
    gen_stmt_ptr heap (some (Node.block [Node.unary NodeKind.ND_RETURN (Node.num N)])) s =
      Outcome.ok (cg_log_print "  jmp .L.return.%s\n" [FmtArg.str fn.name]
        (cg_log_print "  mov $%d, %%rax\n" [FmtArg.int N] s)) := by
  simp only [gen_stmt_ptr, Node.block, Node.unary, Node.num, Node.zeroed, gen_stmt, gen_stmt_list,
    gen_expr_ptr, gen_expr, Outcome.andThen, gen_return_jmp, cg_log_print_current_fn, h]

theorem emit_text_prog_return (name : String) (N : Int) (s : CgState) (h : s.depth = 0) :
    emit_text (prog_return name N) s =
      Outcome.ok (emit_epilogue (Obj.func name []
          (Node.block [Node.unary NodeKind.ND_RETURN (Node.num N)]))
        (cg_log_print "  jmp .L.return.%s\n" [FmtArg.str name]
          (cg_log_print "  mov $%d, %%rax\n" [FmtArg.int N]
            (emit_prologue (Obj.func name []
              (Node.block [Node.unary NodeKind.ND_RETURN (Node.num N)])) s)))) := by
  have hp := emit_prologue_facts (Obj.func name []
    (Node.block [Node.unary NodeKind.ND_RETURN (Node.num N)])) s
  have hb := gen_body_return (prog_return name N) N _ _ hp.2.2.1
  have hfun : (Obj.func name []
    (Node.block [Node.unary NodeKind.ND_RETURN (Node.num N)])).is_function = true := rfl
  have hparams : (Obj.func name []
    (Node.block [Node.unary NodeKind.ND_RETURN (Node.num N)])).params = none := rfl
  have hbody : (Obj.func name []
    (Node.block [Node.unary NodeKind.ND_RETURN (Node.num N)])).body =
      some (Node.block [Node.unary NodeKind.ND_RETURN (Node.num N)]) := rfl
  have hname : (Obj.func name []
    (Node.block [Node.unary NodeKind.ND_RETURN (Node.num N)])).name = name := rfl
  unfold emit_text
  conv => lhs; arg 2; unfold prog_return
  simp only [emit_text_loop, hfun, Bool.not_true, Bool.false_eq_true, if_false, hparams,
    obj_chain, emit_params, Outcome.andThen, hbody, hb, hname, cg_log_print_depth, hp.1, h,
    ne_eq, not_true_eq_false]

theorem line_bytes_of_short (p : PrintCall) (text : List Char)
    (h : vformat p.fmt.toList p.args = text) (hlen : text.length ≤ TMP_SIZE - 1) :
    line_bytes p = text.map Char.toNat := by
  unfold line_bytes
  rw [h, List.take_of_length_le (by rw [List.length_map]; exact hlen)]

theorem trace_prog_return (name : String) (N : Int) (s : CgState) (h : s.depth = 0) :
    (codegen (prog_return name N) s).2 =
      Outcome.ok (codegen (prog_return name N) s).2.state ∧
    (codegen (prog_return name N) s).2.state.trace = lines_return name N := by
  rw [codegen_snd, assign_prog_return, emit_data_prog_return,
    emit_text_prog_return name N (cg_log_reset s) h]
  refine ⟨rfl, ?_⟩
  simp only [Outcome.state, emit_epilogue, emit_prologue, cg_log_print_trace, cg_log_reset,
    lines_return, List.nil_append, List.cons_append, List.append_assoc]
  rfl

theorem bytes_prog_return (name : String) (N : Int) (hname : name.length ≤ 1000)
    (hN : (toString N).length ≤ 1000) :
    ((lines_return name N).map line_bytes).flatten = (text_return name N).map Char.toNat := by
  have hT : TMP_SIZE - 1 = 1023 := rfl
  have hn : name.toList.length ≤ 1000 := hname
  have hd : (toString N).toList.length ≤ 1000 := hN
  have l1 : line_bytes ⟨"  .globl %s\n", [FmtArg.str name]⟩ =
      ("  .globl ".toList ++ (name.toList ++ "\n".toList)).map Char.toNat :=
    line_bytes_of_short _ _ rfl (by
      rw [hT, List.length_append, List.length_append]
      have : "  .globl ".toList.length = 9 := rfl
      have : "\n".toList.length = 1 := rfl
      omega)
  have l3 : line_bytes ⟨"%s:\n", [FmtArg.str name]⟩ =
      (name.toList ++ ":\n".toList).map Char.toNat :=
    line_bytes_of_short _ _ rfl (by
      rw [hT, List.length_append]
      have : ":\n".toList.length = 2 := rfl
      omega)
  have l7 : line_bytes ⟨"  mov $%d, %%rax\n", [FmtArg.int N]⟩ =
      ("  mov $".toList ++ ((toString N).toList ++ ", %rax\n".toList)).map Char.toNat :=
    line_bytes_of_short _ _ rfl (by
      rw [hT, List.length_append, List.length_append]
      have : "  mov $".toList.length = 7 := rfl
      have : ", %rax\n".toList.length = 7 := rfl
      omega)
  have l8 : line_bytes ⟨"  jmp .L.return.%s\n", [FmtArg.str name]⟩ =
      ("  jmp .L.return.".toList ++ (name.toList ++ "\n".toList)).map Char.toNat :=
    line_bytes_of_short _ _ rfl (by
      rw [hT, List.length_append, List.length_append]
      have : "  jmp .L.return.".toList.length = 16 := rfl
      have : "\n".toList.length = 1 := rfl
      omega)
  have l9 : line_bytes ⟨".L.return.%s:\n", [FmtArg.str name]⟩ =
      (".L.return.".toList ++ (name.toList ++ ":\n".toList)).map Char.toNat :=
    line_bytes_of_short _ _ rfl (by
      rw [hT, List.length_append, List.length_append]
      have : ".L.return.".toList.length = 10 := rfl
      have : ":\n".toList.length = 2 := rfl
      omega)
  have l2 : line_bytes ⟨"  .text\n", []⟩ = "  .text\n".toList.map Char.toNat := by decide
  have l4 : line_bytes ⟨"  push %%rbp\n", []⟩ = "  push %rbp\n".toList.map Char.toNat := by decide
  have l5 : line_bytes ⟨"  mov %%rsp, %%rbp\n", []⟩ =
      "  mov %rsp, %rbp\n".toList.map Char.toNat := by decide
  have l6 : line_bytes ⟨"  sub $%d, %%rsp\n", [FmtArg.int 0]⟩ =
      "  sub $0, %rsp\n".toList.map Char.toNat := by decide
  have l10 : line_bytes ⟨"  mov %%rbp, %%rsp\n", []⟩ =
      "  mov %rbp, %rsp\n".toList.map Char.toNat := by decide
  have l11 : line_bytes ⟨"  pop %%rbp\n", []⟩ = "  pop %rbp\n".toList.map Char.toNat := by decide
  have l12 : line_bytes ⟨"  ret\n", []⟩ = "  ret\n".toList.map Char.toNat := by decide
  simp only [lines_return, List.map_cons, List.map_nil, List.flatten_cons, List.flatten_nil,
    l1, l2, l3, l4, l5, l6, l7, l8, l9, l10, l11, l12, text_return, List.append_nil]
  simp only [String.toList, List.map_append, List.append_assoc, List.map_cons, List.map_nil,
    List.cons_append, List.nil_append]

/-! ## Function calls -/

/-- Expression code that returns from the start of the process returns from any
state, with its lines appended and `depth` unchanged. -/
theorem gen_expr_returns (heap : List Obj) (e : Node) (s : CgState)
    (h : (gen_expr heap e CgState.initial).isOk = true) :
    ∃ t, gen_expr heap e s = Outcome.ok t ∧ t.trace = s.trace ++ expr_lines heap e ∧
      t.depth = s.depth := by
  have hok : (gen_expr heap e s).isOk = true := by rw [gen_expr_isOk]; exact h
  have heq := Outcome.eq_ok_of_isOk hok
  exact ⟨_, heq, gen_expr_trace heap e s, by
    have := (gen_expr_effect heap e s _ heq).depth
    omega⟩

theorem push_trace (s : CgState) : (push s).trace = s.trace ++ [line_push] := rfl

theorem push_depth (s : CgState) : (push s).depth = s.depth + 1 := rfl

theorem pop_trace (reg : String) (s : CgState) : (pop reg s).trace = s.trace ++ [line_pop reg] :=
  rfl

theorem pop_depth (reg : String) (s : CgState) : (pop reg s).depth = s.depth - 1 := rfl

theorem gen_args_returns (heap : List Obj) :
    ∀ (args : List Node) (s : CgState),
      (∀ a ∈ args, (gen_expr heap a CgState.initial).isOk = true) →
      ∃ t, gen_args heap args s = Outcome.ok t ∧
        t.trace = s.trace ++ (args.map fun a => expr_lines heap a ++ [line_push]).flatten ∧
        t.depth = s.depth + args.length
  | [], s, _ => ⟨s, rfl, by simp, by simp⟩
  | a :: rest, s, h => by
    obtain ⟨t1, h1, tr1, d1⟩ := gen_expr_returns heap a s (h a (List.mem_cons_self _ _))
    obtain ⟨t, h2, tr2, d2⟩ := gen_args_returns heap rest (push t1)
      (fun b hb => h b (List.mem_cons_of_mem _ hb))
    refine ⟨t, ?_, ?_, ?_⟩
    · simp only [gen_args, h1, Outcome.andThen]
      exact h2
    · rw [tr2, push_trace, tr1]
      simp only [List.map_cons, List.flatten_cons, List.append_assoc]
    · rw [d2, push_depth, d1]
      simp only [List.length_cons]
      push_cast; omega

theorem pop_args_returns : ∀ (n : Nat) (s : CgState), n ≤ 6 →
    ∃ t, pop_args n s = Outcome.ok t ∧
      t.trace = s.trace ++ (argreg64.take n).reverse.map line_pop ∧ t.depth = s.depth - n
  | 0, s, _ => ⟨s, rfl, by simp, by simp⟩
  | i + 1, s, h => by
    have hi : i < argreg64.length := by
      have : argreg64.length = 6 := rfl
      omega
    have hreg : argreg64[i]? = some argreg64[i] := List.getElem?_eq_getElem hi
    obtain ⟨t, h2, tr2, d2⟩ := pop_args_returns i (pop argreg64[i] s) (by omega)
    refine ⟨t, ?_, ?_, ?_⟩
    · simp only [pop_args, hreg]
      exact h2
    · have htake : argreg64.take (i + 1) = argreg64.take i ++ [argreg64[i]] := by
        rw [List.take_succ, hreg]
        rfl
      rw [tr2, pop_trace, htake, List.reverse_append, List.map_append, List.append_assoc]
      rfl
    · rw [d2, pop_depth]
      push_cast; omega

theorem gen_expr_funcall (heap : List Obj) (node : Node) (s : CgState)
    (hk : node.kind = NodeKind.ND_FUNCALL) :
    gen_expr heap node s =
      ((gen_args heap node.args s).andThen fun s =>
        (pop_args node.args.length s).andThen fun s =>
        Outcome.ok (cg_log_print "  call %s\n" [FmtArg.str node.funcname]
          (cg_log_print "  mov $0, %%rax\n" [] s))) := by
  cases node
  simp only at hk
  subst hk
  simp only [gen_expr]

/-! ## Parameters -/

theorem argreg8_getElem? (i : Nat) (h : i < 6) : argreg8[i]? = some (argreg8.getD i "") := by
  have : i < argreg8.length := h
  simp [List.getD, List.getElem?_eq_getElem this]

theorem argreg64_getElem? (i : Nat) (h : i < 6) : argreg64[i]? = some (argreg64.getD i "") := by
  have : i < argreg64.length := h
  simp [List.getD, List.getElem?_eq_getElem this]

theorem argreg8_none (i : Nat) (h : 6 ≤ i) : argreg8[i]? = none :=
  List.getElem?_eq_none (by have : argreg8.length = 6 := rfl; omega)

theorem argreg64_none (i : Nat) (h : 6 ≤ i) : argreg64[i]? = none :=
  List.getElem?_eq_none (by have : argreg64.length = 6 := rfl; omega)

theorem emit_params_step (i : Nat) (var : Obj) (rest : List Obj) (s : CgState) (h : i < 6) :
    emit_params i (var :: rest) s =
      emit_params (i + 1) rest (cg_log_print (param_line i var).fmt (param_line i var).args s) := by
  simp only [emit_params, param_line]
  split_ifs with hs
  · rw [argreg8_getElem? i h]
  · rw [argreg64_getElem? i h]

theorem emit_params_stop (i : Nat) (var : Obj) (rest : List Obj) (s : CgState) (h : 6 ≤ i) :
    emit_params i (var :: rest) s = Outcome.fail CgError.out_of_bounds s := by
  simp only [emit_params]
  split_ifs with hs
  · rw [argreg8_none i h]
  · rw [argreg64_none i h]

/-- Up to six parameters: every parameter is stored from the register of its
position, and the loop returns. -/
theorem emit_params_within : ∀ (params : List Obj) (i : Nat) (s : CgState),
    i + params.length ≤ 6 →
    ∃ t, emit_params i params s = Outcome.ok t ∧ t.trace = s.trace ++ param_lines i params
  | [], i, s, _ => ⟨s, rfl, by simp [param_lines]⟩
  | var :: rest, i, s, h => by
    simp only [List.length_cons] at h
    obtain ⟨t, h1, tr⟩ := emit_params_within rest (i + 1) _ (by omega)
    refine ⟨t, by rw [emit_params_step i var rest s (by omega)]; exact h1, ?_⟩
    rw [tr, cg_log_print_trace]
    simp [param_lines]

/-- More than six parameters: after the parameters at positions 0 to 5 the loop
reads past the end of the register table. -/
theorem emit_params_beyond : ∀ (params : List Obj) (i : Nat) (s : CgState),
    i ≤ 6 → 6 < i + params.length →
    ∃ t, emit_params i params s = Outcome.fail CgError.out_of_bounds t ∧
      t.trace = s.trace ++ param_lines i (params.take (6 - i))
  | [], i, s, hi, h => by simp at h; omega
  | var :: rest, i, s, hi, h => by
    simp only [List.length_cons] at h
    by_cases h6 : i = 6
    · subst h6
      exact ⟨s, emit_params_stop 6 var rest s (le_refl _), by simp [param_lines]⟩
    · obtain ⟨t, h1, tr⟩ := emit_params_beyond rest (i + 1) _ (by omega) (by omega)
      refine ⟨t, by rw [emit_params_step i var rest s (by omega)]; exact h1, ?_⟩
      have e : 6 - i = (6 - (i + 1)) + 1 := by omega
      rw [tr, cg_log_print_trace, e, List.take_succ_cons]
      simp [param_lines]

/-! ## The data section -/

theorem emit_init_data_trace (init_data : Nat → Int) (size : Int) (s : CgState) :
    (emit_init_data init_data size s).trace =
      s.trace ++ (List.range size.toNat).map
        fun i => ⟨"  .byte %d\n", [FmtArg.int (init_data i)]⟩ := by
  unfold emit_init_data
  generalize List.range size.toNat = l
  induction l generalizing s with
  | nil => simp
  | cons i rest ih =>
    rw [List.foldl_cons, ih, cg_log_print_trace]
    simp

theorem data_section_cons (var : Obj) (rest : List Obj) :
    data_section (var :: rest) =
      (if var.is_function then [] else data_lines var) ++ data_section rest := by
  unfold data_section
  cases h : var.is_function <;> simp [List.filter, h]

theorem emit_data_trace : ∀ (prog : List Obj) (s : CgState),
    (emit_data prog s).trace = s.trace ++ data_section prog
  | [], s => by simp [emit_data, data_section]
  | var :: rest, s => by
    rw [data_section_cons]
    simp only [emit_data]
    split
    · rw [emit_data_trace rest s, List.nil_append]
    · split
      · rename_i d hd
        rw [emit_data_trace rest, emit_init_data_trace]
        simp only [cg_log_print_trace, data_lines, hd, List.append_assoc, List.cons_append,
          List.nil_append]
      · rename_i hd
        rw [emit_data_trace rest]
        simp only [cg_log_print_trace, data_lines, hd, List.append_assoc, List.cons_append,
          List.nil_append]

theorem data_section_assign (prog : List Obj) :
    data_section (assign_lvar_offsets prog) = data_section prog := by
  rw [assign_lvar_offsets_eq_map]
  induction prog with
  | nil => rfl
  | cons fn rest ih =>
    rw [List.map_cons, data_section_cons, data_section_cons, ih, assign_fn_is_function]
    cases h : fn.is_function
    · rw [assign_fn_not_function fn h]
    · rfl

theorem prefixed_unobserved (pre : CgState) : Unobserved (CgState.prefixed pre) :=
  ⟨fun f a x => by simp [CgState.prefixed, cg_log_print, replay],
   fun x => by simp [CgState.prefixed, push, cg_log_print, replay],
   fun arg x => by simp [CgState.prefixed, pop, cg_log_print, replay],
   fun _ => rfl, fun _ => rfl, fun _ => rfl, fun _ => rfl⟩

theorem emit_prologue_prefixed (pre : CgState) (fn : Obj) (x : CgState) :
    emit_prologue fn (pre.prefixed x) = pre.prefixed (emit_prologue fn x) := by
  simp [emit_prologue, CgState.prefixed, cg_log_print, replay]

theorem emit_epilogue_prefixed (pre : CgState) (fn : Obj) (x : CgState) :
    emit_epilogue fn (pre.prefixed x) = pre.prefixed (emit_epilogue fn x) := by
  simp [emit_epilogue, CgState.prefixed, cg_log_print, replay]

theorem emit_text_loop_prefixed (pre : CgState) (heap : List Obj) :
    ∀ (prog : List Obj) (x : CgState),
      emit_text_loop heap prog (pre.prefixed x) =
        (emit_text_loop heap prog x).map (CgState.prefixed pre)
  | [], _ => rfl
  | fn :: rest, x => by
    simp only [emit_text_loop]
    split
    · exact emit_text_loop_prefixed pre heap rest x
    · rw [emit_prologue_prefixed]
      refine Outcome.andThen_map (emit_params_comm (prefixed_unobserved pre) _ _ _) fun s1 => ?_
      refine Outcome.andThen_map
        (gen_stmt_ptr_comm (prefixed_unobserved pre) heap _ s1) fun s2 => ?_
      have hd : (pre.prefixed s2).depth = s2.depth := rfl
      rw [hd]
      split
      · rfl
      · rw [emit_epilogue_prefixed]
        exact emit_text_loop_prefixed pre heap rest _

/-- The trace of `codegen`: the data section, then the text section. -/
theorem codegen_trace (prog : List Obj) (s : CgState) :
    (codegen prog s).2.state.trace =
      data_section prog ++ text_section (assign_lvar_offsets prog) s := by
  have hd := emit_data_effect (assign_lvar_offsets prog) (cg_log_reset s)
  have htr := emit_data_trace (assign_lvar_offsets prog) (cg_log_reset s)
  have hu : emit_data (assign_lvar_offsets prog) (cg_log_reset s) =
      (emit_data (assign_lvar_offsets prog) (cg_log_reset s)).prefixed (cg_log_reset s) := by
    apply CgState.eq_of_fields
    · simp [CgState.prefixed, cg_log_reset, replay]
    · simp [CgState.prefixed, hd.depth]
    · simp [CgState.prefixed, hd.current_fn]
    · simp [CgState.prefixed, hd.count_i]
    · simp [CgState.prefixed, cg_log_reset]
  rw [codegen_snd]
  unfold emit_text
  rw [hu, emit_text_loop_prefixed, Outcome.state_map]
  show _ ++ _ = _
  rw [htr, data_section_assign]
  rfl

/-! ## The arena -/

theorem testBit_mask (w k i : Nat) (hk : k ≤ w) :
    (unot w (2 ^ k - 1)).testBit i = (decide (i < w) && !decide (i < k)) := by
  have h : unot w (2 ^ k - 1) = 2 ^ w - ((2 ^ k - 1) + 1) := by
    unfold unot
    omega
  have hlt : 2 ^ k - 1 < 2 ^ w := by
    have : 2 ^ k ≤ 2 ^ w := Nat.pow_le_pow_right (by decide) hk
    have : 0 < 2 ^ k := Nat.two_pow_pos k
    omega
  rw [h, Nat.testBit_two_pow_sub_succ hlt, Nat.testBit_two_pow_sub_one]

theorem land_mask (w k y : Nat) (hy : y < 2 ^ w) (hk : k ≤ w) :
    y &&& unot w (2 ^ k - 1) = y / 2 ^ k * 2 ^ k := by
  apply Nat.eq_of_testBit_eq
  intro i
  rw [Nat.testBit_and, testBit_mask w k i hk, Nat.mul_comm, Nat.testBit_mul_pow_two,
    ← Nat.shiftRight_eq_div_pow, Nat.testBit_shiftRight]
  by_cases h1 : i < k
  · have : ¬ i ≥ k := by omega
    simp [h1, this]
  · have h2 : i ≥ k := by omega
    have h3 : k + (i - k) = i := by omega
    by_cases h4 : i < w
    · simp [h1, h2, h3, h4]
    · have : y.testBit i = false := by
        apply Nat.testBit_lt_two_pow
        calc y < 2 ^ w := hy
          _ ≤ 2 ^ i := Nat.pow_le_pow_right (by decide) (by omega)
      simp [h1, h2, h3, this]

theorem round_up_spec (x a : Nat) (ha : 0 < a) :
    a ∣ round_up x a ∧ x ≤ round_up x a ∧ round_up x a < x + a := by
  unfold round_up
  refine ⟨Dvd.intro_left _ rfl, ?_, ?_⟩
  · have h := Nat.div_add_mod (x + a - 1) a
    have h2 := Nat.mod_lt (x + a - 1) ha
    have h3 : (x + a - 1) / a * a = a * ((x + a - 1) / a) := Nat.mul_comm _ _
    omega
  · have h := Nat.div_mul_le_self (x + a - 1) a
    omega

theorem uadd_of_lt (w x y : Nat) (h : x + y < 2 ^ w) : uadd w x y = x + y :=
  Nat.mod_eq_of_lt h

theorem usub_of_le (w x y : Nat) (h : y ≤ x) (hx : x < 2 ^ w) : usub w x y = x - y := by
  unfold usub
  have e : x + 2 ^ w - y = (x - y) + 2 ^ w := by omega
  rw [e, Nat.add_mod_right, Nat.mod_eq_of_lt (by omega)]

theorem umul_of_lt (w x y : Nat) (h : x * y < 2 ^ w) : umul w x y = x * y :=
  Nat.mod_eq_of_lt h

/-- Within range, `__arena_alloc` is: exit when the block from the next
multiple of the alignment at or after the current address would end past the
pool, and otherwise return that address, zero the block on request, and set the
offset to the end of the block. -/
theorem arena_alloc_in_range (w base : Nat) (a : Arena) (size k : Nat) (zero_init : Bool)
    (hoff : a.__arena_offset ≤ ARENA_SIZE) (hr : RequestInRange w base size (2 ^ k)) :
    __arena_alloc w base a size (2 ^ k) zero_init =
      if round_up (base + a.__arena_offset) (2 ^ k) + size > base + ARENA_SIZE then none
      else some (round_up (base + a.__arena_offset) (2 ^ k),
        { __arena_buffer :=
            if zero_init then
              memset a.__arena_buffer (round_up (base + a.__arena_offset) (2 ^ k) - base) 0 size
            else a.__arena_buffer,
          __arena_offset := round_up (base + a.__arena_offset) (2 ^ k) - base + size }) := by
  unfold RequestInRange at hr
  have hA : 0 < 2 ^ k := Nat.two_pow_pos k
  obtain ⟨_, hge, hlt⟩ := round_up_spec (base + a.__arena_offset) (2 ^ k) hA
  have hkw : k ≤ w := by
    by_contra hc
    have : 2 ^ w ≤ 2 ^ k := Nat.pow_le_pow_right (by decide) (by omega)
    omega
  have hcurr : uadd w base a.__arena_offset = base + a.__arena_offset :=
    uadd_of_lt _ _ _ (by omega)
  have hm : usub w (2 ^ k) 1 = 2 ^ k - 1 := usub_of_le _ _ _ hA (by omega)
  have hsum : uadd w (base + a.__arena_offset) (2 ^ k - 1) =
      base + a.__arena_offset + 2 ^ k - 1 := by
    rw [uadd_of_lt _ _ _ (by omega)]
    omega
  have hal : uadd w (base + a.__arena_offset) (usub w (2 ^ k) 1) &&&
      unot w (usub w (2 ^ k) 1) = round_up (base + a.__arena_offset) (2 ^ k) := by
    rw [hm, hsum, land_mask w k _ (by omega) hkw]
    rfl
  unfold __arena_alloc
  simp only [hcurr, hal]
  rw [uadd_of_lt w _ size (by omega), uadd_of_lt w base ARENA_SIZE (by omega),
    usub_of_le w _ _ hge (by omega)]
  have hofs : uadd w a.__arena_offset
      (uadd w (round_up (base + a.__arena_offset) (2 ^ k) - (base + a.__arena_offset)) size) =
      round_up (base + a.__arena_offset) (2 ^ k) - base + size := by
    rw [uadd_of_lt w _ size (by omega), uadd_of_lt w _ _ (by omega)]
    omega
  rw [hofs]

theorem round_up_add_multiple (base off k : Nat) (h : 2 ^ k ∣ base) :
    round_up (base + off) (2 ^ k) - base = round_up off (2 ^ k) := by
  obtain ⟨q, rfl⟩ := h
  have hA : 0 < 2 ^ k := Nat.two_pow_pos k
  unfold round_up
  have e : 2 ^ k * q + off + 2 ^ k - 1 = 2 ^ k * q + (off + 2 ^ k - 1) := by omega
  rw [e, Nat.mul_add_div hA, Nat.add_mul, Nat.mul_comm q (2 ^ k)]
  omega

theorem gen_stmt_opt_lines (heap : List Obj) (p : Option Node) (u v : CgState)
    (h : gen_stmt_opt heap p u = Outcome.ok v) :
    v.trace = u.trace ++
      lines_if_present p (fun n => stmt_lines heap n u.count_i u.current_fn) := by
  cases p with
  | none =>
    simp only [gen_stmt_opt] at h
    injection h with h
    subst h
    simp [lines_if_present]
  | some n =>
    simp only [gen_stmt_opt] at h
    have := gen_stmt_trace heap n u
    rw [h] at this
    exact this

theorem gen_stmt_ptr_lines (heap : List Obj) (p : Option Node) (u v : CgState)
    (h : gen_stmt_ptr heap p u = Outcome.ok v) :
    v.trace = u.trace ++
      lines_if_present p (fun n => stmt_lines heap n u.count_i u.current_fn) := by
  cases p with
  | none => simp [gen_stmt_ptr] at h
  | some n =>
    simp only [gen_stmt_ptr] at h
    have := gen_stmt_trace heap n u
    rw [h] at this
    exact this

theorem gen_for_cond_lines (heap : List Obj) (cond : Option Node) (c : Int) (u v : CgState)
    (h : gen_for_cond heap cond c u = Outcome.ok v) :
    v.trace = u.trace ++ lines_if_present cond (fun e =>
      expr_lines heap e ++
        [⟨"  cmp $0, %%rax\n", []⟩, ⟨"  je  .L.end.%d\n", [FmtArg.int c]⟩]) := by
  cases cond with
  | none =>
    simp only [gen_for_cond] at h
    injection h with h
    subst h
    simp [lines_if_present]
  | some e =>
    simp only [gen_for_cond] at h
    obtain ⟨u1, h1, h⟩ := Outcome.andThen_eq_ok.1 h
    injection h with h
    subst h
    have := gen_expr_trace heap e u
    rw [h1] at this
    simp only [Outcome.state] at this
    simp only [cg_log_print_trace, this, lines_if_present, List.append_assoc, List.cons_append,
      List.nil_append]

theorem gen_for_inc_lines (heap : List Obj) (inc : Option Node) (u v : CgState)
    (h : gen_for_inc heap inc u = Outcome.ok v) :
    v.trace = u.trace ++ lines_if_present inc (fun e => expr_lines heap e) := by
  cases inc with
  | none =>
    simp only [gen_for_inc] at h
    injection h with h
    subst h
    simp [lines_if_present]
  | some e =>
    simp only [gen_for_inc] at h
    have := gen_expr_trace heap e u
    rw [h] at this
    exact this

theorem gen_stmt_for (heap : List Obj) (node : Node) (s : CgState)
    (hk : node.kind = NodeKind.ND_FOR) :
    gen_stmt heap node s =
      ((gen_stmt_opt heap node.init (count s).2).andThen fun s1 =>
        (gen_for_cond heap node.cond (count s).1
          (cg_log_print ".L.begin.%d:\n" [FmtArg.int (count s).1] s1)).andThen fun s2 =>
        (gen_stmt_ptr heap node.then_ s2).andThen fun s3 =>
        (gen_for_inc heap node.inc s3).andThen fun s4 =>
        Outcome.ok (cg_log_print ".L.end.%d:\n" [FmtArg.int (count s).1]
          (cg_log_print "  jmp .L.begin.%d\n" [FmtArg.int (count s).1] s4))) := by
  cases node
  simp only at hk
  subst hk
  simp only [gen_stmt]

/-- The lines of a loop that `gen_stmt` emits without error. -/
theorem gen_stmt_for_lines (heap : List Obj) (node : Node) (s t : CgState)
    (hk : node.kind = NodeKind.ND_FOR) (h : gen_stmt heap node s = Outcome.ok t) :
    t.trace = s.trace ++ for_lines heap node s.count_i s.current_fn := by
  rw [gen_stmt_for heap node s hk] at h
  obtain ⟨s1, h0, h⟩ := Outcome.andThen_eq_ok.1 h
  obtain ⟨s2, hc, h⟩ := Outcome.andThen_eq_ok.1 h
  obtain ⟨s3, h1, h⟩ := Outcome.andThen_eq_ok.1 h
  obtain ⟨s4, hi, h⟩ := Outcome.andThen_eq_ok.1 h
  injection h with h
  subst h
  have e0 := gen_stmt_opt_effect heap node.init _ s1 h0
  obtain ⟨_, ecf, ecc, _⟩ := gen_for_cond_effect heap node.cond _ _ s2 hc
  have t0 := gen_stmt_opt_lines heap node.init _ s1 h0
  have tc := gen_for_cond_lines heap node.cond _ _ s2 hc
  have t1 := gen_stmt_ptr_lines heap node.then_ s2 s3 h1
  have ti := gen_for_inc_lines heap node.inc s3 s4 hi
  simp only [count_snd_trace, count_snd_count_i, count_snd_current_fn, count_fst,
    cg_log_print_trace, cg_log_print_count_i, cg_log_print_current_fn] at t0 tc t1 ti ecf ecc e0
  have hc2 : s2.count_i = s.count_i + 1 + cf_count_opt node.init := by
    rw [ecc, e0.count_i]
    simp
  have hf2 : s2.current_fn = s.current_fn := by
    rw [ecf, e0.current_fn]
    simp
  rw [hc2, hf2] at t1
  simp only [cg_log_print_trace, count_fst, ti, t1, tc, t0, for_lines, List.append_assoc,
    List.cons_append, List.nil_append]

theorem Outcome.isOk_andThen (o : Outcome) (f : CgState → Outcome) (b : Bool)
    (h : ∀ s, o = Outcome.ok s → (f s).isOk = b) : (o.andThen f).isOk = (o.isOk && b) := by
  cases o with
  | ok s => simpa [Outcome.andThen, Outcome.isOk] using h s rfl
  | fail e s => rfl

theorem Outcome.isOk_andThen_ok (o : Outcome) (g : CgState → CgState) :
    (o.andThen fun s => Outcome.ok (g s)).isOk = o.isOk := by
  cases o <;> rfl

theorem gen_stmt_opt_isOk (heap : List Obj) (p : Option Node) (u : CgState) :
    (gen_stmt_opt heap p u).isOk =
      match p with
      | none => true
      | some n => (gen_stmt heap n (CgState.start u.count_i u.current_fn)).isOk := by
  cases p with
  | none => rfl
  | some n => exact gen_stmt_isOk heap n u

theorem gen_stmt_ptr_isOk (heap : List Obj) (p : Option Node) (u : CgState) :
    (gen_stmt_ptr heap p u).isOk =
      match p with
      | none => false
      | some n => (gen_stmt heap n (CgState.start u.count_i u.current_fn)).isOk := by
  cases p with
  | none => rfl
  | some n => exact gen_stmt_isOk heap n u

theorem gen_for_cond_isOk (heap : List Obj) (cond : Option Node) (c : Int) (u : CgState) :
    (gen_for_cond heap cond c u).isOk =
      match cond with
      | none => true
      | some e => (gen_expr heap e CgState.initial).isOk := by
  cases cond with
  | none => rfl
  | some e =>
    simp only [gen_for_cond]
    rw [Outcome.isOk_andThen_ok (gen_expr heap e u)
      (fun s => cg_log_print "  je  .L.end.%d\n" [FmtArg.int c]
        (cg_log_print "  cmp $0, %%rax\n" [] s))]
    exact gen_expr_isOk heap e u

theorem gen_for_inc_isOk (heap : List Obj) (inc : Option Node) (u : CgState) :
    (gen_for_inc heap inc u).isOk =
      match inc with
      | none => true
      | some e => (gen_expr heap e CgState.initial).isOk := by
  cases inc with
  | none => rfl
  | some e => exact gen_expr_isOk heap e u

/-- A loop is emitted without error exactly when its parts are. -/
theorem gen_stmt_for_isOk (heap : List Obj) (node : Node) (s : CgState)
    (hk : node.kind = NodeKind.ND_FOR) :
    (gen_stmt heap node s).isOk = for_parts_ok heap node s.count_i s.current_fn := by
  rw [gen_stmt_for heap node s hk]
  unfold for_parts_ok
  rw [Bool.and_assoc, Bool.and_assoc]
  rw [Outcome.isOk_andThen _ _ _ ?_, gen_stmt_opt_isOk]
  · rfl
  intro s1 h0
  have e0 := gen_stmt_opt_effect heap node.init _ s1 h0
  rw [Outcome.isOk_andThen _ _ _ ?_, gen_for_cond_isOk]
  intro s2 hc
  obtain ⟨_, ecf, ecc, _⟩ := gen_for_cond_effect heap node.cond _ _ s2 hc
  simp only [cg_log_print_count_i, cg_log_print_current_fn] at ecf ecc
  have hc2 : s2.count_i = s.count_i + 1 + cf_count_opt node.init := by
    rw [ecc, e0.count_i, count_snd_count_i]
  have hf2 : s2.current_fn = s.current_fn := by
    rw [ecf, e0.current_fn, count_snd_current_fn]
  rw [Outcome.isOk_andThen _ _ _ ?_, gen_stmt_ptr_isOk, hc2, hf2]
  intro s3 _
  rw [Outcome.isOk_andThen_ok (gen_for_inc heap node.inc s3)
    (fun s4 => cg_log_print ".L.end.%d:\n" [FmtArg.int (count s).1]
      (cg_log_print "  jmp .L.begin.%d\n" [FmtArg.int (count s).1] s4)), gen_for_inc_isOk]

theorem gen_expr_binary (heap : List Obj) (node : Node) (s : CgState)
    (hk : node.kind = NodeKind.ND_LT) :
    gen_expr heap node s =
      ((gen_expr_ptr heap node.rhs s).andThen fun s =>
        (gen_expr_ptr heap node.lhs (push s)).andThen fun s =>
        gen_binop NodeKind.ND_LT (pop "%rdi" s)) := by
  cases node
  simp only at hk
  subst hk
  simp only [gen_expr]

/-- The lines of a comparison `lhs < rhs` whose operands are emitted without
error. -/
theorem gen_expr_lt (heap : List Obj) (node l r : Node) (s : CgState)
    (hk : node.kind = NodeKind.ND_LT) (hl : node.lhs = some l) (hr : node.rhs = some r)
    (okl : (gen_expr heap l CgState.initial).isOk = true)
    (okr : (gen_expr heap r CgState.initial).isOk = true) :
    (gen_expr heap node s).isOk = true ∧
    (gen_expr heap node s).state.trace = s.trace ++ lt_lines heap l r := by
  obtain ⟨t1, h1, tr1, _⟩ := gen_expr_returns heap r s okr
  obtain ⟨t2, h2, tr2, _⟩ := gen_expr_returns heap l (push t1) okl
  rw [gen_expr_binary heap node s hk, hl, hr]
  simp only [gen_expr_ptr, h1, Outcome.andThen, h2, gen_binop, Outcome.isOk, Outcome.state,
    cg_log_print_trace, pop_trace, tr2, push_trace, tr1, lt_lines, List.append_assoc,
    List.cons_append, List.nil_append, true_and]

theorem expr_lines_lt (heap : List Obj) (node l r : Node)
    (hk : node.kind = NodeKind.ND_LT) (hl : node.lhs = some l) (hr : node.rhs = some r)
    (okl : (gen_expr heap l CgState.initial).isOk = true)
    (okr : (gen_expr heap r CgState.initial).isOk = true) :
    expr_lines heap node = lt_lines heap l r := by
  have h := (gen_expr_lt heap node l r CgState.initial hk hl hr okl okr).2
  exact h

/-! ## Loads, stores and assignments -/

theorem gen_addr_returns (heap : List Obj) (e : Node) (s : CgState)
    (h : (gen_addr heap e CgState.initial).isOk = true) :
    ∃ t, gen_addr heap e s = Outcome.ok t ∧ t.trace = s.trace ++ addr_lines heap e ∧
      t.depth = s.depth := by
  have hok : (gen_addr heap e s).isOk = true := by rw [gen_addr_isOk]; exact h
  have heq := Outcome.eq_ok_of_isOk hok
  exact ⟨_, heq, gen_addr_trace heap e s, by
    have := (gen_addr_effect heap e s _ heq).depth
    omega⟩

theorem store_some (ty : CType) (s : CgState) :
    store (some ty) s =
      Outcome.ok (cg_log_print (store_line ty).fmt (store_line ty).args (pop "%rdi" s)) := by
  by_cases h : ty.size = 1
  · simp only [store, store_line, h, if_true]
  · simp only [store, store_line, h, if_false]

theorem gen_expr_assign_eq (heap : List Obj) (node : Node) (s : CgState)
    (hk : node.kind = NodeKind.ND_ASSIGN) :
    gen_expr heap node s =
      ((gen_addr_ptr heap node.lhs s).andThen fun s =>
        (gen_expr_ptr heap node.rhs (push s)).andThen fun s =>
        store node.ty s) := by
  cases node
  simp only at hk
  subst hk
  simp only [gen_expr]

/-- The lines of an assignment whose sides are emitted without error. -/
theorem gen_expr_assign (heap : List Obj) (node l r : Node) (ty : CType) (s : CgState)
    (hk : node.kind = NodeKind.ND_ASSIGN) (hl : node.lhs = some l) (hr : node.rhs = some r)
    (hty : node.ty = some ty)
    (okl : (gen_addr heap l CgState.initial).isOk = true)
    (okr : (gen_expr heap r CgState.initial).isOk = true) :
    (gen_expr heap node s).isOk = true ∧
    (gen_expr heap node s).state.trace = s.trace ++ assign_lines heap l r ty := by
  obtain ⟨t1, h1, tr1, _⟩ := gen_addr_returns heap l s okl
  obtain ⟨t2, h2, tr2, _⟩ := gen_expr_returns heap r (push t1) okr
  rw [gen_expr_assign_eq heap node s hk, hl, hr, hty]
  simp only [gen_addr_ptr, h1, Outcome.andThen, gen_expr_ptr, h2, store_some, Outcome.isOk,
    Outcome.state, cg_log_print_trace, pop_trace, tr2, push_trace, tr1, assign_lines,
    List.append_assoc, List.cons_append, List.nil_append, true_and]

/-! ## The log after any number of appends -/

theorem append_all_append (log : CgLog) (a b : List (List Byte)) :
    append_all log (a ++ b) = append_all (append_all log a) b := by
  simp [append_all, List.foldl_append]

theorem contents_getElem? (log : CgLog) (i : Nat) (h : i < log.__cg_len) :
    log.contents[i]? = some (log.__cg_buf i) :=
  firstN_getElem? _ _ _ h

theorem append_all_len (log : CgLog) (strs : List (List Byte)) (h : log.__cg_len = 0) :
    (append_all log strs).__cg_len = min (strs.map List.length).sum CG_BUF_SIZE := by
  have hc := append_all_contents strs log (by rw [h]; exact Nat.zero_le _)
  have h0 : log.contents = [] := by simp [CgLog.contents, Bytes.firstN, h]
  rw [h0, List.nil_append] at hc
  have := congrArg List.length hc
  rw [contents_length, List.length_take, List.length_flatten] at this
  rw [this, Nat.min_comm]

/-- Appends never change a byte that is already in the log. -/
theorem append_all_prefix (log : CgLog) (later : List (List Byte))
    (h : log.__cg_len ≤ CG_BUF_SIZE) (i : Nat) (hi : i < log.__cg_len) :
    (append_all log later).__cg_buf i = log.__cg_buf i := by
  have hc := append_all_contents later log h
  have hl := append_all_len_le later log h
  have hlen : log.__cg_len ≤ (append_all log later).__cg_len := by
    have := congrArg List.length hc
    rw [contents_length, List.length_take, List.length_append, contents_length] at this
    omega
  have h1 := contents_getElem? (append_all log later) i (by omega)
  rw [hc, List.getElem?_take_of_lt (by omega),
    List.getElem?_append_left (by rw [contents_length]; exact hi),
    contents_getElem? log i hi] at h1
  injection h1 with h1
  exact h1.symm

/-! ## Calls with at most six arguments, and the arena outside its range -/

/-- A call with at most six arguments, which are emitted without error:
`gen_expr` returns, with `depth` unchanged, after emitting the code of each
argument in list order, each followed by `push %rax`; then the pops
`pop argreg64[n-1]` down to `pop argreg64[0]`; then `mov $0, %rax`; then
`call funcname`. -/
theorem gen_expr_funcall_lines (heap : List Obj) (node : Node) (s : CgState)
    (hk : node.kind = NodeKind.ND_FUNCALL) (hn : node.args.length ≤ 6)
    (hargs : ∀ a ∈ node.args, (gen_expr heap a CgState.initial).isOk = true) :
    (gen_expr heap node s).isOk = true ∧
    (gen_expr heap node s).state.trace =
      s.trace ++ funcall_lines heap node.args node.funcname ∧
    (gen_expr heap node s).state.depth = s.depth := by
  obtain ⟨t1, h1, tr1, d1⟩ := gen_args_returns heap node.args s hargs
  obtain ⟨t2, h2, tr2, d2⟩ := pop_args_returns node.args.length t1 hn
  rw [gen_expr_funcall heap node s hk, h1]
  simp only [Outcome.andThen, h2, Outcome.isOk, Outcome.state, cg_log_print_trace,
    cg_log_print_depth, true_and]
  refine ⟨?_, by rw [d2, d1]; omega⟩
  rw [tr2, tr1]
  simp only [funcall_lines, List.append_assoc, List.cons_append, List.nil_append]

/-- The call `add(2, 3)` pushes 2 then 3, pops `%rsi` then `%rdi`, zeroes `%rax`
and calls `add`. -/
theorem funcall_add_2_3_lines :
    (gen_expr [] node_add_2_3 CgState.initial).state.trace =
      [⟨"  mov $%d, %%rax\n", [FmtArg.int 2]⟩, ⟨"  push %%rax\n", []⟩,
       ⟨"  mov $%d, %%rax\n", [FmtArg.int 3]⟩, ⟨"  push %%rax\n", []⟩,
       ⟨"  pop %s\n", [FmtArg.str "%rsi"]⟩, ⟨"  pop %s\n", [FmtArg.str "%rdi"]⟩,
       ⟨"  mov $0, %%rax\n", []⟩, ⟨"  call %s\n", [FmtArg.str "add"]⟩] :=
  (gen_expr_funcall_lines [] node_add_2_3 CgState.initial (by decide) (by decide)
    (by decide)).2.1.trans (by decide)

/-- More than six arguments: after the code and the push of every argument, the
first pop reads past the end of the register table. -/
theorem pop_args_beyond (n : Nat) (s : CgState) (h : 6 < n) :
    pop_args n s = Outcome.fail CgError.out_of_bounds s := by
  cases n with
  | zero => omega
  | succ i =>
    simp only [pop_args]
    rw [argreg64_none i (by omega)]

/-- Outside the range, with a size that no caller of `__arena_alloc` asks for:
on a 64-bit target with the pool at address `0x20000`, after a first block of
16 bytes a direct request for `2 ^ 64 - 8` bytes passes the exhaustion test,
whose sum wraps, and leaves the offset at 8; the next `xcalloc(1, 16)` then
returns the block at address `0x20008`. -/
theorem run_calls_out_of_range :
    (run_calls 64 0x20000 arena_empty calls_wrapping).map (fun r => r.2) =
      some [⟨0x20000, 16, 16⟩, ⟨0x20010, 2 ^ 64 - 8, 8⟩, ⟨0x20008, 16, 24⟩] := by
  decide

/-! ## The claims of the specification -/

/-- C1.  `gen_expr` and `gen_stmt`, when they return, leave the stack depth
counter at its value on entry, for every node; so from depth 0 the assertion
`depth == 0` of `emit_text` never fails, in `emit_text` and in `codegen`, and
the counter is 0 again when `codegen` returns. -/
theorem c1_stack_depth_balanced (heap prog : List Obj) (e stmt : Node) (s : CgState) :
    ((gen_expr heap e s).isOk = true → (gen_expr heap e s).state.depth = s.depth) ∧
    ((gen_stmt heap stmt s).isOk = true → (gen_stmt heap stmt s).state.depth = s.depth) ∧
    (s.depth = 0 →
      (∀ t, emit_text prog s ≠ Outcome.fail CgError.assert_failed t) ∧
      (∀ t, (codegen prog s).2 ≠ Outcome.fail CgError.assert_failed t) ∧
      ((codegen prog s).2.isOk = true → (codegen prog s).2.state.depth = 0)) := by
  refine ⟨?_, ?_, ?_⟩
  · intro h
    have := (gen_expr_effect heap e s _ (Outcome.eq_ok_of_isOk h)).depth
    omega
  · intro h
    exact (gen_stmt_effect heap stmt s _ (Outcome.eq_ok_of_isOk h)).depth
  · intro h0
    refine ⟨emit_text_loop_noAssert prog prog s h0, codegen_noAssert prog s h0, ?_⟩
    intro h
    rw [(codegen_effect prog s _ (Outcome.eq_ok_of_isOk h)).1, h0]

/-- C1 (witness): the expression `i=0`, the statement `while (i<10) i=i+1;` and
the program `int main() { int i; i=0; while (i<10) i=i+1; return i; }`, from the
initial state. -/
theorem c1_stack_depth_balanced_witness :
    ((gen_expr prog_while expr_assign_i CgState.initial).isOk = true ∧
      (gen_stmt prog_while stmt_while_i CgState.initial).isOk = true ∧
      CgState.initial.depth = 0 ∧ (codegen prog_while CgState.initial).2.isOk = true) ∧
    (gen_expr prog_while expr_assign_i CgState.initial).state.depth = CgState.initial.depth ∧
    (gen_stmt prog_while stmt_while_i CgState.initial).state.depth = CgState.initial.depth ∧
    (codegen prog_while CgState.initial).2.state.depth = 0 :=
  ⟨⟨by decide, by decide, rfl, by decide⟩,
   (c1_stack_depth_balanced prog_while prog_while expr_assign_i stmt_while_i
     CgState.initial).1 (by decide),
   (c1_stack_depth_balanced prog_while prog_while expr_assign_i stmt_while_i
     CgState.initial).2.1 (by decide),
   ((c1_stack_depth_balanced prog_while prog_while expr_assign_i stmt_while_i
     CgState.initial).2.2 rfl).2.2 (by decide)⟩

set_option maxRecDepth 100000 in
/-- C2 (counterexample).  For `int main() { if (1) return 2; return 3; }`, run
from the initial state and then run again on the same AST from the state the
first run left: both runs succeed, and the log contents differ (the first run
emits `.L.else.1` / `.L.end.1`, the second `.L.else.2` / `.L.end.2`, so byte
116 of the log is `1` after the first run and `2` after the second). -/
theorem c2_second_run_differs_counterexample :
    (codegen prog_if CgState.initial).2.isOk = true ∧
    (codegen (codegen prog_if CgState.initial).1
      (codegen prog_if CgState.initial).2.state).2.isOk = true ∧
    (codegen prog_if CgState.initial).2.state.log.__cg_buf 116 = 49 ∧
    (codegen (codegen prog_if CgState.initial).1
      (codegen prog_if CgState.initial).2.state).2.state.log.__cg_buf 116 = 50 ∧
    ¬ ((codegen (codegen prog_if CgState.initial).1
        (codegen prog_if CgState.initial).2.state).2.state.log.contents =
      (codegen prog_if CgState.initial).2.state.log.contents) := by
  decide

/-- C2 (amended).  A call of `codegen` on the same AST (as an earlier call left
it) from any state whose `depth` and label counter equal those at the entry of
the earlier call has the same outcome and yields byte-identical log contents
and length, whatever the log held before.  `codegen` resets the log but not the
label counter: a call that returns leaves `depth` as it was and the counter
advanced by the number of control-flow statements it emitted. -/
theorem c2_codegen_output_determined (prog : List Obj) (s s' : CgState)
    (hd : s'.depth = s.depth) (hc : s'.count_i = s.count_i) :
    (codegen (codegen prog s).1 s').1 = (codegen prog s).1 ∧
    (codegen (codegen prog s).1 s').2.isOk = (codegen prog s).2.isOk ∧
    cg_log_size (codegen (codegen prog s).1 s').2.state.log =
      cg_log_size (codegen prog s).2.state.log ∧
    (codegen (codegen prog s).1 s').2.state.log.contents =
      (codegen prog s).2.state.log.contents ∧
    ((codegen prog s).2.isOk = true →
      (codegen prog s).2.state.depth = s.depth ∧
      (codegen prog s).2.state.count_i = s.count_i + cf_count_prog prog) := by
  have e : codegen (codegen prog s).1 s' = codegen prog s' := by
    rw [codegen_fst_eq prog s s']
    exact codegen_of_assigned prog s'
  obtain ⟨h1, _, _, _, h2, h3⟩ := codegen_determined prog s s' hd hc
  rw [e]
  refine ⟨rfl, h1, h2, h3, ?_⟩
  intro h
  obtain ⟨a, b, _⟩ := codegen_effect prog s _ (Outcome.eq_ok_of_isOk h)
  exact ⟨a, b⟩

/-- C2 (witness): `int main() { return 0; }` run twice in a row from the
initial state: the first run leaves the counter at 1, and the second run yields
the same log. -/
theorem c2_codegen_output_determined_witness :
    ((codegen prog_return0 CgState.initial).2.state.depth = CgState.initial.depth ∧
      (codegen prog_return0 CgState.initial).2.state.count_i = CgState.initial.count_i ∧
      (codegen prog_return0 CgState.initial).2.isOk = true) ∧
    (codegen (codegen prog_return0 CgState.initial).1
      (codegen prog_return0 CgState.initial).2.state).2.isOk = true ∧
    cg_log_size (codegen (codegen prog_return0 CgState.initial).1
        (codegen prog_return0 CgState.initial).2.state).2.state.log =
      cg_log_size (codegen prog_return0 CgState.initial).2.state.log ∧
    (codegen (codegen prog_return0 CgState.initial).1
        (codegen prog_return0 CgState.initial).2.state).2.state.log.contents =
      (codegen prog_return0 CgState.initial).2.state.log.contents :=
  ⟨⟨by decide, by decide, by decide⟩,
   ((c2_codegen_output_determined prog_return0 CgState.initial
      (codegen prog_return0 CgState.initial).2.state (by decide) (by decide)).2.1).trans
      (by decide),
   (c2_codegen_output_determined prog_return0 CgState.initial
      (codegen prog_return0 CgState.initial).2.state (by decide) (by decide)).2.2.1,
   (c2_codegen_output_determined prog_return0 CgState.initial
      (codegen prog_return0 CgState.initial).2.state (by decide) (by decide)).2.2.2.1⟩

/-- C3 (counterexample).  For `int main() { int a[0]; int b[0]; }` both locals
get offset 0: the offsets are neither negative nor distinct, so the claim fails
as stated. -/
theorem c3_zero_size_locals_counterexample :
    ¬ (∀ fn ∈ assign_lvar_offsets prog_zero_arrays, fn.is_function = true →
        (∀ v ∈ fn.locals, v.offset < 0) ∧
        (fn.locals.map fun v => v.offset).Nodup ∧
        (∀ v ∈ fn.locals, |v.offset| ≤ fn.stack_size) ∧
        (16 : Int) ∣ fn.stack_size) := by
  decide

/-- C3 (amended).  After `assign_lvar_offsets`, for every function whose locals
all have positive size and whose sizes stay within `int`: every local's offset
is negative, the offsets of different locals are distinct, the absolute value of
each offset is at most the function's `stack_size`, and `stack_size` is a
multiple of 16. -/
theorem c3_offsets_negative_distinct_bounded (prog : List Obj) (f : Nat) (fn : Obj)
    (hf : prog[f]? = some fn) (hfun : fn.is_function = true)
    (hr : SizesInRange fn.locals) (hp : ∀ v ∈ fn.locals, 0 < v.ty.size) :
    ∃ fn', (assign_lvar_offsets prog)[f]? = some fn' ∧
      (∀ v ∈ fn'.locals, v.offset < 0) ∧
      (fn'.locals.map fun v => v.offset).Nodup ∧
      (∀ v ∈ fn'.locals, |v.offset| ≤ fn'.stack_size) ∧
      (16 : Int) ∣ fn'.stack_size := by
  obtain ⟨hlen, hget, hss, _⟩ := assign_fn_in_range fn hfun hr
  have h0 : ∀ v ∈ fn.locals, 0 ≤ v.ty.size := fun v hv => le_of_lt (hp v hv)
  have hnn := total_size_nonneg fn.locals h0
  -- every cell of the new chain is an old cell with its offset set
  have hcell : ∀ (k : Nat) (v' : Obj), (assign_fn fn).locals[k]? = some v' →
      ∃ v, fn.locals[k]? = some v ∧ v'.offset = -(running_size fn.locals k) := by
    intro k v' hk
    have hlt : k < fn.locals.length := by
      rw [← hlen]
      exact (List.getElem?_eq_some.1 hk).1
    refine ⟨fn.locals[k], by simp [hlt], ?_⟩
    have := hget k fn.locals[k] (by simp [hlt])
    rw [this] at hk
    injection hk with hk
    rw [← hk]
  have hneg : ∀ v ∈ (assign_fn fn).locals,
      v.offset < 0 ∧ |v.offset| ≤ (total_size fn.locals + 15) / 16 * 16 := by
    intro v' hv'
    obtain ⟨k, hk⟩ := List.mem_iff_getElem?.1 hv'
    obtain ⟨v, hv, ho⟩ := hcell k v' hk
    have h1 := running_size_ge_size fn.locals h0 k v hv
    have h2 := hp v (List.getElem?_mem hv)
    have h3 := running_size_le_total fn.locals h0 k
    rw [ho, abs_neg, abs_of_pos (by omega)]
    constructor <;> omega
  refine ⟨assign_fn fn, by rw [assign_lvar_offsets_getElem?, hf]; rfl, fun v hv => (hneg v hv).1,
    ?_, fun v hv => by rw [hss]; exact (hneg v hv).2, by rw [hss]; omega⟩
  rw [List.nodup_iff_getElem?_ne_getElem?]
  intro j k hjk hk
  rw [List.length_map, hlen] at hk
  have hj : j < fn.locals.length := by omega
  have hj' : j < (assign_fn fn).locals.length := by omega
  have hk' : k < (assign_fn fn).locals.length := by omega
  obtain ⟨_, _, oj⟩ := hcell j (assign_fn fn).locals[j] (by simp [hj'])
  obtain ⟨_, _, ok⟩ := hcell k (assign_fn fn).locals[k] (by simp [hk'])
  have := running_size_strict fn.locals hp j k hjk hk
  simp only [List.getElem?_map, List.getElem?_eq_getElem hj', List.getElem?_eq_getElem hk',
    Option.map_some', ne_eq, Option.some.injEq, oj, ok]
  omega

/-- C3 (witness): the function of `int main() { int a; int *p; int b[3]; }`. -/
theorem c3_offsets_negative_distinct_bounded_witness :
    (prog_three_locals[1]? = some fn_three_locals ∧ fn_three_locals.is_function = true ∧
      SizesInRange fn_three_locals.locals ∧ ∀ v ∈ fn_three_locals.locals, 0 < v.ty.size) ∧
    ∃ fn', (assign_lvar_offsets prog_three_locals)[1]? = some fn' ∧
      (∀ v ∈ fn'.locals, v.offset < 0) ∧
      (fn'.locals.map fun v => v.offset).Nodup ∧
      (∀ v ∈ fn'.locals, |v.offset| ≤ fn'.stack_size) ∧
      (16 : Int) ∣ fn'.stack_size :=
  ⟨⟨rfl, rfl, by unfold SizesInRange; decide, by decide⟩,
   c3_offsets_negative_distinct_bounded prog_three_locals 1 fn_three_locals rfl rfl
     (by unfold SizesInRange; decide) (by decide)⟩

/-- C4 (counterexample).  For
`int main() { int a[100000000]; int b[100000000]; int c[100000000]; }` the
running sum of the sizes leaves the range of `int` at the third local: the
pre-pass gives it the offset 1894967296, not minus the sum 2400000000 of the
sizes, and sets `stack_size` to -1894967280, which is below that sum. -/
theorem c4_int_range_counterexample :
    ((assign_lvar_offsets prog_huge_arrays).map fun fn =>
      (fn.locals.map (fun v => v.offset), fn.stack_size)) =
      [([-800000000, -1600000000, 1894967296], -1894967280)] ∧
    (prog_huge_arrays.map fun fn => (-(running_size fn.locals 2), total_size fn.locals)) =
      [(-2400000000, 2400000000)] := by
  decide

/-- C4 (amended).  `assign_lvar_offsets` keeps the length of the program; it
leaves every non-function cell unchanged; and for every function whose sizes
are not negative and stay within `int` (their sum plus 16 is at most
`INT_MAX`), it sets the offset of the `k`-th local to minus the sum of the
sizes of locals `0 .. k`, sets `stack_size` to the smallest multiple of 16 that
is at least the sum of all sizes, and changes nothing else. -/
theorem c4_assign_lvar_offsets_functional (prog : List Obj) (f : Nat) (fn : Obj)
    (hf : prog[f]? = some fn) :
    (assign_lvar_offsets prog).length = prog.length ∧
    (fn.is_function = false → (assign_lvar_offsets prog)[f]? = some fn) ∧
    (fn.is_function = true → SizesInRange fn.locals →
      ∃ fn', (assign_lvar_offsets prog)[f]? = some fn' ∧
        fn'.locals.length = fn.locals.length ∧
        (∀ (k : Nat) (v : Obj), fn.locals[k]? = some v →
          fn'.locals[k]? = some { v with offset := -(running_size fn.locals k) }) ∧
        ((16 : Int) ∣ fn'.stack_size ∧ total_size fn.locals ≤ fn'.stack_size ∧
          ∀ m : Int, (16 : Int) ∣ m → total_size fn.locals ≤ m → fn'.stack_size ≤ m) ∧
        fn' = { fn with locals := fn'.locals, stack_size := fn'.stack_size }) := by
  refine ⟨by simp [assign_lvar_offsets_eq_map], ?_, ?_⟩
  · intro hnf
    rw [assign_lvar_offsets_getElem?, hf, Option.map_some', assign_fn_not_function fn hnf]
  · intro hfun hr
    obtain ⟨hlen, hget, hss, hrest⟩ := assign_fn_in_range fn hfun hr
    refine ⟨assign_fn fn, by rw [assign_lvar_offsets_getElem?, hf]; rfl, hlen, hget, ?_, hrest⟩
    rw [hss]
    refine ⟨by omega, by omega, ?_⟩
    intro m hm hle
    omega

/-- C4 (witness): `char s[4]; int main() { int a; int *p; int b[3]; }`: the
global is unchanged, the locals get offsets -8, -16, -40 and the frame 48. -/
theorem c4_assign_lvar_offsets_functional_witness :
    (prog_three_locals[1]? = some fn_three_locals ∧ fn_three_locals.is_function = true ∧
      SizesInRange fn_three_locals.locals) ∧
    ∃ fn', (assign_lvar_offsets prog_three_locals)[1]? = some fn' ∧
      fn'.locals.length = fn_three_locals.locals.length ∧
      (∀ (k : Nat) (v : Obj), fn_three_locals.locals[k]? = some v →
        fn'.locals[k]? = some { v with offset := -(running_size fn_three_locals.locals k) }) ∧
      ((16 : Int) ∣ fn'.stack_size ∧ total_size fn_three_locals.locals ≤ fn'.stack_size ∧
        ∀ m : Int, (16 : Int) ∣ m → total_size fn_three_locals.locals ≤ m →
          fn'.stack_size ≤ m) ∧
      fn' = { fn_three_locals with locals := fn'.locals, stack_size := fn'.stack_size } :=
  ⟨⟨rfl, rfl, by unfold SizesInRange; decide⟩,
   (c4_assign_lvar_offsets_functional prog_three_locals 1 fn_three_locals rfl).2.2 rfl
     (by unfold SizesInRange; decide)⟩

/-- C5 (counterexample).  For `int main() { char c; int x; }` the pre-pass gives
`x` the offset -9, which is not a multiple of 8, the element alignment of
`int`. -/
theorem c5_char_then_int_counterexample :
    ¬ (∀ fn ∈ assign_lvar_offsets prog_char_int, ∀ v ∈ fn.locals,
        v.offset < 0 ∧ elem_align v.ty ∣ v.offset) := by
  decide

/-- C5 (amended).  After the pre-pass, the offset of a local variable of a
function whose sizes are not negative and stay within `int` is minus the sum of
the sizes of the locals up to and including it; it is negative when the
variable's size is positive, and a multiple of the variable's element alignment
when that alignment divides the size of every local up to and including it. -/
theorem c5_offset_multiple_of_alignment (prog : List Obj) (f : Nat) (fn : Obj)
    (hf : prog[f]? = some fn) (hfun : fn.is_function = true) (hr : SizesInRange fn.locals)
    (k : Nat) (v : Obj) (hk : fn.locals[k]? = some v) (hpos : 0 < v.ty.size)
    (hdiv : ∀ w ∈ fn.locals.take (k + 1), elem_align v.ty ∣ w.ty.size) :
    ∃ fn' v', (assign_lvar_offsets prog)[f]? = some fn' ∧ fn'.locals[k]? = some v' ∧
      v'.ty = v.ty ∧ v'.offset = -(running_size fn.locals k) ∧
      v'.offset < 0 ∧ elem_align v'.ty ∣ v'.offset := by
  obtain ⟨_, hget, _, _⟩ := assign_fn_in_range fn hfun hr
  have h1 := running_size_ge_size fn.locals hr.1 k v hk
  have h2 := dvd_running_size (elem_align v.ty) fn.locals k hdiv
  refine ⟨assign_fn fn, { v with offset := -(running_size fn.locals k) },
    by rw [assign_lvar_offsets_getElem?, hf]; rfl, hget k v hk, rfl, rfl, ?_, ?_⟩
  · show -(running_size fn.locals k) < 0
    omega
  · show elem_align v.ty ∣ -(running_size fn.locals k)
    exact (Int.dvd_neg).2 h2

/-- C5 (witness): the array `b` of `int main() { int a; int *p; int b[3]; }`
gets offset -40, a multiple of 8. -/
theorem c5_offset_multiple_of_alignment_witness :
    (prog_three_locals[1]? = some fn_three_locals ∧ fn_three_locals.is_function = true ∧
      SizesInRange fn_three_locals.locals ∧
      fn_three_locals.locals[2]? = some (Obj.lvar "b" (array_of ty_int 3)) ∧
      0 < (Obj.lvar "b" (array_of ty_int 3)).ty.size ∧
      ∀ w ∈ fn_three_locals.locals.take (2 + 1),
        elem_align (Obj.lvar "b" (array_of ty_int 3)).ty ∣ w.ty.size) ∧
    ∃ fn' v', (assign_lvar_offsets prog_three_locals)[1]? = some fn' ∧
      fn'.locals[2]? = some v' ∧ v'.ty = (Obj.lvar "b" (array_of ty_int 3)).ty ∧
      v'.offset = -(running_size fn_three_locals.locals 2) ∧
      v'.offset < 0 ∧ elem_align v'.ty ∣ v'.offset :=
  ⟨⟨rfl, rfl, by unfold SizesInRange; decide, rfl, by decide, by decide⟩,
   c5_offset_multiple_of_alignment prog_three_locals 1 fn_three_locals rfl rfl
     (by unfold SizesInRange; decide) 2 (Obj.lvar "b" (array_of ty_int 3)) rfl (by decide)
     (by decide)⟩

/-- C6.  Truncation: when an append of `n` bytes does not fit in what remains of
the log buffer, the log size becomes the buffer capacity exactly, the bytes
already in the log are unchanged, the bytes written are the leading bytes of
the appended text, and every later sequence of appends leaves the buffer and
the size unchanged. -/
theorem c6_cg_append_bytes_truncation (log : CgLog) (src : Bytes) (n : Nat)
    (hlen : log.__cg_len ≤ CG_BUF_SIZE) (hn : CG_BUF_SIZE - log.__cg_len < n) :
    (__cg_append_bytes log src n).__cg_len = CG_BUF_SIZE ∧
    (∀ i, i < log.__cg_len →
      (__cg_append_bytes log src n).__cg_buf i = log.__cg_buf i) ∧
    (∀ j, j < CG_BUF_SIZE - log.__cg_len →
      (__cg_append_bytes log src n).__cg_buf (log.__cg_len + j) = src j) ∧
    (∀ later : List (Bytes × Nat),
      later.foldl (fun l a => __cg_append_bytes l a.1 a.2) (__cg_append_bytes log src n)
        = __cg_append_bytes log src n) := by
  obtain ⟨h1, h2, h3⟩ := append_truncated log src n hlen hn
  exact ⟨h1, h2, h3, fun later => appends_at_capacity _ later h1⟩

/-- C6 (witness): appending 10 bytes to a log of 65530 bytes fills it to 65536
and the last byte written is byte 5 of the text. -/
theorem c6_cg_append_bytes_truncation_witness :
    ((⟨fun _ => 7, 65530⟩ : CgLog).__cg_len ≤ CG_BUF_SIZE ∧
      CG_BUF_SIZE - (⟨fun _ => 7, 65530⟩ : CgLog).__cg_len < 10) ∧
    (__cg_append_bytes ⟨fun _ => 7, 65530⟩ (fun i => i) 10).__cg_len = CG_BUF_SIZE ∧
    (__cg_append_bytes ⟨fun _ => 7, 65530⟩ (fun i => i) 10).__cg_buf 65535 = 5 :=
  ⟨⟨by decide, by decide⟩,
   (c6_cg_append_bytes_truncation ⟨fun _ => 7, 65530⟩ (fun i => i) 10 (by decide) (by decide)).1,
   (c6_cg_append_bytes_truncation ⟨fun _ => 7, 65530⟩ (fun i => i) 10 (by decide) (by decide)).2.2.1
     5 (by decide)⟩

/-- C7.  The journal committed by `main` has length `256 + min(L, 3840)` for a
codegen log of length `L`; its first 256 bytes are the input buffer, the next
`min(L, 3840)` bytes are the first bytes of the codegen log, and every other
byte of the 4096-byte output buffer is zero.  This holds for every input
buffer, log and prior content of the output buffer, and whenever `main`
commits, the journal is this one, for the input buffer it handed to the front
end and the log `codegen` left. -/
theorem c7_main_journal_layout (out_buffer in_buffer : Bytes) (log : CgLog) :
    (main_journal out_buffer in_buffer log).2 = 256 + min log.__cg_len 3840 ∧
    (∀ i, i < 256 → (main_journal out_buffer in_buffer log).1 i = in_buffer i) ∧
    (∀ i, i < min log.__cg_len 3840 →
      (main_journal out_buffer in_buffer log).1 (256 + i) = log.__cg_buf i) ∧
    (∀ i, 256 + min log.__cg_len 3840 ≤ i → i < 4096 →
      (main_journal out_buffer in_buffer log).1 i = 0) ∧
    (∀ (read_len : Nat) (front_end : Bytes → Option (List Obj)) (j : Bytes × Nat),
      main in_buffer read_len front_end out_buffer = some j →
      ∃ prog s, front_end (main_read_input in_buffer read_len).1 = some prog ∧
        (codegen prog CgState.initial).2 = Outcome.ok s ∧
        j = main_journal out_buffer (main_read_input in_buffer read_len).1 s.log) := by
  refine ⟨?_, ?_, ?_, ?_, fun read_len front_end j h =>
    main_eq_some in_buffer read_len front_end out_buffer j h⟩ <;>
    simp only [main_journal, cg_log_size, cg_log_buffer, IN_BUFFER_SIZE, OUT_BUFFER_SIZE,
      memcpy, memset]
  · split_ifs <;> omega
  · intro i hi
    split_ifs <;> first | rfl | omega
  · intro i hi
    simp only [Nat.add_sub_cancel_left]
    split_ifs <;> first | rfl | omega
  · intro i h1 h2
    split_ifs <;> first | rfl | omega

/-- C8.  For every length `n` returned by the host read, `main` clamps the
length to `min(n, 255)`, writes a NUL at that index, zeroes every later byte of
the 256-byte buffer and leaves the earlier bytes as read; so the buffer handed
to the tokenizer holds a NUL within its 256 bytes. -/
theorem c8_main_read_input_terminated (in_buffer : Bytes) (n : Nat) :
    (main_read_input in_buffer n).2 = min n 255 ∧
    (main_read_input in_buffer n).1 (min n 255) = 0 ∧
    (∀ i, min n 255 < i → i < 256 → (main_read_input in_buffer n).1 i = 0) ∧
    (∀ i, i < min n 255 → (main_read_input in_buffer n).1 i = in_buffer i) ∧
    (∃ i, i < 256 ∧ (main_read_input in_buffer n).1 i = 0) := by
  have h0 : (main_read_input in_buffer n).1 (min n 255) = 0 := by
    rw [main_read_input_fst]; simp
  refine ⟨main_read_input_snd in_buffer n, h0, ?_, ?_, min n 255, by omega, h0⟩
  · intro i h1 h2
    rw [main_read_input_fst, if_pos (Or.inr ⟨h1, h2⟩)]
  · intro i hi
    rw [main_read_input_fst, if_neg (by omega)]

/-- C9 (counterexample).  For `int main() { for (;;) return 0; }` the output
defines `.L.end.1` and no instruction jumps to it: the labels defined are not
exactly the labels jumped to. -/
theorem c9_unreferenced_end_label_counterexample :
    (codegen prog_forever CgState.initial).2.isOk = true ∧
    ¬ (∀ l, l ∈ defined_labels (codegen prog_forever CgState.initial).2.state.trace ↔
        l ∈ jump_targets (codegen prog_forever CgState.initial).2.state.trace) :=
  ⟨by decide, fun h => absurd ((h (Label.end_ 1)).1 (by decide)) (by decide)⟩

/-- C9 (amended).  In the output of every program that `codegen` emits without
error, every label that a `je` / `jmp` instruction jumps to is defined, and
every `.L.else.c` and `.L.begin.c` label defined is jumped to. -/
theorem c9_jump_targets_defined (prog : List Obj) (s : CgState)
    (h : (codegen prog s).2.isOk = true) :
    (∀ l ∈ jump_targets (codegen prog s).2.state.trace,
      l ∈ defined_labels (codegen prog s).2.state.trace) ∧
    (∀ c, Label.else_ c ∈ defined_labels (codegen prog s).2.state.trace →
      Label.else_ c ∈ jump_targets (codegen prog s).2.state.trace) ∧
    (∀ c, Label.begin_ c ∈ defined_labels (codegen prog s).2.state.trace →
      Label.begin_ c ∈ jump_targets (codegen prog s).2.state.trace) := by
  have g := (codegen_effect prog s _ (Outcome.eq_ok_of_isOk h)).2.2
  exact ⟨g.jumps, fun c => (g.used c).1, fun c => (g.used c).2⟩

/-- C9 (witness): the program with the `while` loop. -/
theorem c9_jump_targets_defined_witness :
    (codegen prog_while CgState.initial).2.isOk = true ∧
    (∀ l ∈ jump_targets (codegen prog_while CgState.initial).2.state.trace,
      l ∈ defined_labels (codegen prog_while CgState.initial).2.state.trace) ∧
    (∀ c, Label.else_ c ∈ defined_labels (codegen prog_while CgState.initial).2.state.trace →
      Label.else_ c ∈ jump_targets (codegen prog_while CgState.initial).2.state.trace) ∧
    (∀ c, Label.begin_ c ∈ defined_labels (codegen prog_while CgState.initial).2.state.trace →
      Label.begin_ c ∈ jump_targets (codegen prog_while CgState.initial).2.state.trace) :=
  ⟨by decide, c9_jump_targets_defined prog_while CgState.initial (by decide)⟩

/-- C10.  The label counter is one integer, 1 at process start, that `count`
returns and then increments, for `ND_IF` and `ND_FOR` alike.  In a `codegen`
run that returns, entered with the counter at `c0` (1 in the compilation
`main` performs), the control-flow statement at position `k` (from 0) of the
reach order of the program, taken across all functions, is passed to
`gen_stmt` with the counter at `c0 + k`, draws that number and ends its code
with the definition of `.L.end.(c0 + k)`; conversely every call of `gen_stmt`
on a control-flow statement is at a position of the reach order and draws the
number of its position, so no two of them draw the same number.  The counter
ends at `c0 + K` for the `K` control-flow statements of the program, only
labels numbered `c0, ..., c0 + K - 1` are defined, every numbered label is
defined at most once, and each number has its `.L.end` label exactly once. -/
theorem c10_label_counter (prog : List Obj) (s : CgState)
    (h : (codegen prog s).2.isOk = true) :
    (CgState.initial.count_i = 1 ∧ (count s).1 = s.count_i ∧
      (count s).2.count_i = s.count_i + 1) ∧
    (∀ (k : Nat) (n : Node), (reached_prog prog)[k]? = some n →
      ∃ u t, EntersProg (codegen prog s).1 (codegen prog s).1
          (emit_data (codegen prog s).1 (cg_log_reset s)) n u ∧
        gen_stmt (codegen prog s).1 n u = Outcome.ok t ∧
        (count u).1 = s.count_i + k ∧
        t.trace.getLast? = some ⟨".L.end.%d:\n", [FmtArg.int (s.count_i + k)]⟩) ∧
    (∀ (n : Node) (u : CgState),
      EntersProg (codegen prog s).1 (codegen prog s).1
        (emit_data (codegen prog s).1 (cg_log_reset s)) n u →
      n.kind = NodeKind.ND_IF ∨ n.kind = NodeKind.ND_FOR →
      ∃ k : Nat, (reached_prog prog)[k]? = some n ∧ (count u).1 = s.count_i + k) ∧
    (codegen prog s).2.state.count_i = s.count_i + cf_count_prog prog ∧
    (∀ l ∈ defined_labels (codegen prog s).2.state.trace, ∀ c, l.number = some c →
      s.count_i ≤ c ∧ c < s.count_i + cf_count_prog prog) ∧
    (∀ l : Label, l.number ≠ none →
      (defined_labels (codegen prog s).2.state.trace).count l ≤ 1) ∧
    (∀ c, s.count_i ≤ c → c < s.count_i + cf_count_prog prog →
      (defined_labels (codegen prog s).2.state.trace).count (Label.end_ c) = 1) := by
  have hok := Outcome.eq_ok_of_isOk h
  have hd := emit_data_effect (assign_lvar_offsets prog) (cg_log_reset s)
  have hc0 : (emit_data (assign_lvar_offsets prog) (cg_log_reset s)).count_i = s.count_i := by
    rw [hd.count_i]; rfl
  obtain ⟨_, hc, g⟩ := codegen_effect prog s _ hok
  refine ⟨⟨rfl, rfl, rfl⟩, ?_, ?_, hc, g.range, ?_, ?_⟩
  · intro k n hr
    rw [← reached_prog_assign] at hr
    rw [codegen_snd] at hok
    obtain ⟨u, hu, c, ok⟩ := entersProg_complete _ _ k n hr _ _ hok
    have hrun := Outcome.eq_ok_of_isOk ok
    have hkind : n.kind = NodeKind.ND_IF ∨ n.kind = NodeKind.ND_FOR := by
      have hm := List.getElem?_mem hr
      exact reached_prog_kind _ n hm
    refine ⟨u, _, hu, hrun, by rw [count_fst, c, hc0], ?_⟩
    rw [gen_stmt_last_label _ n u _ hrun hkind, c, hc0]
  · intro n u hu hkind
    obtain ⟨k, e, c⟩ := entersProg_sound _ hu hkind
    have e' : (reached_prog (assign_lvar_offsets prog))[k]? = some n := e
    have c' : u.count_i =
        (emit_data (assign_lvar_offsets prog) (cg_log_reset s)).count_i + k := c
    rw [reached_prog_assign] at e'
    exact ⟨k, e', by rw [count_fst, c', hc0]⟩
  · intro l hn
    by_cases hl : l ∈ defined_labels (codegen prog s).2.state.trace
    · exact le_of_eq (g.once l hl hn)
    · rw [List.count_eq_zero_of_not_mem hl]
      omega
  · intro c a b
    exact g.once _ (g.ends c a b) (by simp [Label.number])

/-- C10 (witness): in
`int f() { if (1) return 2; return 3; } int main() { while (0) return 1; return 0; }`
compiled from the initial state, the loop of `main` is at position 1 of the
reach order and draws number 2. -/
theorem c10_label_counter_witness :
    (codegen prog_if_while CgState.initial).2.isOk = true ∧
    (reached_prog prog_if_while)[1]? = some stmt_while_0 ∧
    ∃ u t, EntersProg (codegen prog_if_while CgState.initial).1
        (codegen prog_if_while CgState.initial).1
        (emit_data (codegen prog_if_while CgState.initial).1 (cg_log_reset CgState.initial))
        stmt_while_0 u ∧
      gen_stmt (codegen prog_if_while CgState.initial).1 stmt_while_0 u = Outcome.ok t ∧
      (count u).1 = CgState.initial.count_i + (1 : Nat) ∧
      t.trace.getLast? =
        some ⟨".L.end.%d:\n", [FmtArg.int (CgState.initial.count_i + (1 : Nat))]⟩ :=
  ⟨by decide, rfl,
   (c10_label_counter prog_if_while CgState.initial (by decide)).2.1 1 stmt_while_0 rfl⟩

/-- C11.  For the program `int NAME() { return N; }` (one function without
parameters and locals, body `{ return N; }`), for every name and literal,
`codegen` entered with `depth` at 0 returns after exactly the twelve
`cg_log_print` calls of the specification, in order: `.globl NAME`, `.text`,
`NAME:`, `push %rbp`, `mov %rsp, %rbp`, `sub $0, %rsp`, `mov $N, %rax`,
`jmp .L.return.NAME`, `.L.return.NAME:`, `mov %rbp, %rsp`, `pop %rbp`, `ret`.
When the name and the decimal text of the literal have at most 1000 bytes, no
line is cut and the log holds exactly the text of these twelve lines. -/
theorem c11_return_program_lines (name : String) (N : Int) (s : CgState) (h : s.depth = 0) :
    (codegen (prog_return name N) s).2.isOk = true ∧
    (codegen (prog_return name N) s).2.state.trace = lines_return name N ∧
    (name.length ≤ 1000 → (toString N).length ≤ 1000 →
      (codegen (prog_return name N) s).2.state.log.contents =
        (text_return name N).map Char.toNat) := by
  obtain ⟨hok, htr⟩ := trace_prog_return name N s h
  refine ⟨by rw [hok]; rfl, htr, ?_⟩
  intro hname hN
  have hn : name.toList.length ≤ 1000 := hname
  have hd : (toString N).toList.length ≤ 1000 := hN
  have hC : CG_BUF_SIZE = 65536 := rfl
  rw [codegen_contents, htr, bytes_prog_return name N hname hN]
  apply List.take_of_length_le
  simp only [text_return, List.length_map, List.length_append, String.toList, List.length_cons,
    List.length_nil]
  simp only [String.toList] at hn hd
  omega

/-- C11 (witness): `int main() { return 0; }` compiled at process start. -/
theorem c11_return_program_lines_witness :
    CgState.initial.depth = 0 ∧ "main".length ≤ 1000 ∧ (toString (0 : Int)).length ≤ 1000 ∧
    (codegen (prog_return "main" 0) CgState.initial).2.state.trace = lines_return "main" 0 ∧
    (codegen (prog_return "main" 0) CgState.initial).2.state.log.contents =
      str_bytes ("  .globl main\n  .text\nmain:\n  push %rbp\n  mov %rsp, %rbp\n" ++
        "  sub $0, %rsp\n  mov $0, %rax\n  jmp .L.return.main\n.L.return.main:\n" ++
        "  mov %rbp, %rsp\n  pop %rbp\n  ret\n") :=
  ⟨rfl, by decide, by decide,
   (c11_return_program_lines "main" 0 CgState.initial rfl).2.1,
   ((c11_return_program_lines "main" 0 CgState.initial rfl).2.2 (by decide) (by decide)).trans
     (by decide)⟩

/-- C12.  The pop loop of the `ND_FUNCALL` arm has no bound on the register
index: for `int main() { return f(1, 2, 3, 4, 5, 6, 7); }`, compiled at
process start, `gen_expr` emits the code of each of the seven arguments, each
followed by `push %rax`, and then, for the first pop, evaluates `argreg64[6]`,
past the end of the six-entry table: no pop, no `mov $0, %rax` and no `call f`
is emitted. -/
theorem c12_seventh_argument_out_of_bounds :
    (codegen prog_call_7_args CgState.initial).2.error = some CgError.out_of_bounds ∧
    (codegen prog_call_7_args CgState.initial).2.state.trace.drop 6 =
      [⟨"  mov $%d, %%rax\n", [FmtArg.int 1]⟩, ⟨"  push %%rax\n", []⟩,
       ⟨"  mov $%d, %%rax\n", [FmtArg.int 2]⟩, ⟨"  push %%rax\n", []⟩,
       ⟨"  mov $%d, %%rax\n", [FmtArg.int 3]⟩, ⟨"  push %%rax\n", []⟩,
       ⟨"  mov $%d, %%rax\n", [FmtArg.int 4]⟩, ⟨"  push %%rax\n", []⟩,
       ⟨"  mov $%d, %%rax\n", [FmtArg.int 5]⟩, ⟨"  push %%rax\n", []⟩,
       ⟨"  mov $%d, %%rax\n", [FmtArg.int 6]⟩, ⟨"  push %%rax\n", []⟩,
       ⟨"  mov $%d, %%rax\n", [FmtArg.int 7]⟩, ⟨"  push %%rax\n", []⟩] := by
  decide

/-- C13.  The parameter loop of `emit_text` has no bound on the register index:
for `int f(int a, int b, int c, int d, int e, int g, int h) { return 0; }`,
compiled at process start, the first six parameters are stored from `%rdi`,
`%rsi`, `%rdx`, `%rcx`, `%r8`, `%r9`, and for the seventh the loop evaluates
`argreg64[6]`, past the end of the six-entry table. -/
theorem c13_seventh_parameter_out_of_bounds :
    (codegen prog_seven_params CgState.initial).2.error = some CgError.out_of_bounds ∧
    (codegen prog_seven_params CgState.initial).2.state.trace.drop 6 =
      [⟨"  mov %s, %d(%%rbp)\n", [FmtArg.str "%rdi", FmtArg.int (-8)]⟩,
       ⟨"  mov %s, %d(%%rbp)\n", [FmtArg.str "%rsi", FmtArg.int (-16)]⟩,
       ⟨"  mov %s, %d(%%rbp)\n", [FmtArg.str "%rdx", FmtArg.int (-24)]⟩,
       ⟨"  mov %s, %d(%%rbp)\n", [FmtArg.str "%rcx", FmtArg.int (-32)]⟩,
       ⟨"  mov %s, %d(%%rbp)\n", [FmtArg.str "%r8", FmtArg.int (-40)]⟩,
       ⟨"  mov %s, %d(%%rbp)\n", [FmtArg.str "%r9", FmtArg.int (-48)]⟩] := by
  decide

/-- C14.  For every program, `emit_data` emits, for each cell of the top-level
chain that is not a function, in chain order, and for no function, the lines
`.data`, `.globl name`, `name:` followed by one `.byte v` per byte of
`init_data` (`ty.size` lines, in order) when `init_data` is present and by the
one line `.zero size` with `size = ty.size` otherwise (`data_section`); and the
lines `codegen` emits are this data section followed by the text section. -/
theorem c14_data_section (prog : List Obj) (s : CgState) :
    (emit_data prog s).trace = s.trace ++ data_section prog ∧
    (codegen prog s).2.state.trace =
      data_section prog ++ text_section (codegen prog s).1 s :=
  ⟨emit_data_trace prog s, codegen_trace prog s⟩

/-- C14 (witness): a program with an initialised `char s[3]`, an `int g` and
the function `main`. -/
theorem c14_data_section_witness :
    (emit_data prog_globals CgState.initial).trace =
      [⟨"  .data\n", []⟩, ⟨"  .globl %s\n", [FmtArg.str "s"]⟩, ⟨"%s:\n", [FmtArg.str "s"]⟩,
       ⟨"  .byte %d\n", [FmtArg.int 65]⟩, ⟨"  .byte %d\n", [FmtArg.int 66]⟩,
       ⟨"  .byte %d\n", [FmtArg.int 0]⟩,
       ⟨"  .data\n", []⟩, ⟨"  .globl %s\n", [FmtArg.str "g"]⟩, ⟨"%s:\n", [FmtArg.str "g"]⟩,
       ⟨"  .zero %d\n", [FmtArg.int 8]⟩] ∧
    (codegen prog_globals CgState.initial).2.state.trace.take 10 =
      data_section prog_globals :=
  ⟨(c14_data_section prog_globals CgState.initial).1.trans (by decide),
   by rw [(c14_data_section prog_globals CgState.initial).2]; decide⟩

/-- C15.  `gen_addr` returns only for `ND_VAR` and `ND_DEREF` nodes.  For an
`ND_VAR` node of a local variable it emits exactly `lea offset(%rbp), %rax`,
for one of a global variable exactly `lea name(%rip), %rax`; for an `ND_DEREF`
node it does exactly what `gen_expr` does on the operand; for a node of any
other kind it stops with "not an lvalue" and has emitted nothing.  So
`gen_expr` on an `ND_ADDR` or `ND_ASSIGN` node whose operand (left side) is
neither a variable nor a dereference stops with "not an lvalue", nothing
emitted. -/
theorem c15_gen_addr_lvalues (heap : List Obj) (node : Node) (s : CgState) :
    ((gen_addr heap node s).isOk = true →
      node.kind = NodeKind.ND_VAR ∨ node.kind = NodeKind.ND_DEREF) ∧
    (node.kind = NodeKind.ND_VAR → ∀ p v, node.var = some p → p.deref heap = some v →
      (v.is_local = true →
        gen_addr heap node s =
          Outcome.ok (cg_log_print "  lea %d(%%rbp), %%rax\n" [FmtArg.int v.offset] s)) ∧
      (v.is_local = false →
        gen_addr heap node s =
          Outcome.ok (cg_log_print "  lea %s(%%rip), %%rax\n" [FmtArg.str v.name] s))) ∧
    (node.kind = NodeKind.ND_DEREF → gen_addr heap node s = gen_expr_ptr heap node.lhs s) ∧
    (node.kind ≠ NodeKind.ND_VAR → node.kind ≠ NodeKind.ND_DEREF →
      gen_addr heap node s = Outcome.fail CgError.not_an_lvalue s) ∧
    (node.kind = NodeKind.ND_ADDR ∨ node.kind = NodeKind.ND_ASSIGN →
      ∀ l, node.lhs = some l → l.kind ≠ NodeKind.ND_VAR → l.kind ≠ NodeKind.ND_DEREF →
        gen_expr heap node s = Outcome.fail CgError.not_an_lvalue s) := by
  have other : ∀ (n : Node) (t : CgState), n.kind ≠ NodeKind.ND_VAR →
      n.kind ≠ NodeKind.ND_DEREF → gen_addr heap n t = Outcome.fail CgError.not_an_lvalue t := by
    intro n t h1 h2
    cases n with
    | mk kind ty lhs rhs cond then_ els init inc body funcname args var val =>
      simp only at h1 h2
      cases kind <;> first | exact absurd rfl h1 | exact absurd rfl h2 | rfl
  refine ⟨?_, ?_, ?_, other node s, ?_⟩
  · intro h
    by_contra hc
    rw [not_or] at hc
    rw [other node s hc.1 hc.2] at h
    exact absurd h (by simp [Outcome.isOk])
  · intro hk p v hp hv
    cases node with
    | mk kind ty lhs rhs cond then_ els init inc body funcname args var val =>
      simp only at hk hp
      subst hk
      subst hp
      constructor
      · intro hl
        simp only [gen_addr, gen_addr_var, hv, hl, if_true]
      · intro hl
        simp only [gen_addr, gen_addr_var, hv, hl, Bool.false_eq_true, if_false]
  · intro hk
    cases node with
    | mk kind ty lhs rhs cond then_ els init inc body funcname args var val =>
      simp only at hk
      subst hk
      simp only [gen_addr]
  · intro hk l hl h1 h2
    cases node with
    | mk kind ty lhs rhs cond then_ els init inc body funcname args var val =>
      simp only at hk hl
      subst hl
      rcases hk with hk | hk
      · subst hk
        simp only [gen_expr, gen_addr_ptr]
        exact other l s h1 h2
      · subst hk
        simp only [gen_expr, gen_addr_ptr, other l s h1 h2, Outcome.andThen]

/-- C15 (witness): on `int g; int main() { int a; ... }`, the address of the
local `a` at offset -8 is one `lea -8(%rbp), %rax`, the address of the global
`g` one `lea g(%rip), %rax`; the address of the literal 3 and the assignment
`1 = 2` stop with "not an lvalue", nothing emitted. -/
theorem c15_gen_addr_lvalues_witness :
    (node_a.kind = NodeKind.ND_VAR ∧ node_a.var = some (ObjPtr.loc 1 0) ∧
      (ObjPtr.loc 1 0).deref heap_g_main = some { Obj.lvar "a" ty_int with offset := -8 }) ∧
    gen_addr heap_g_main node_a CgState.initial =
      Outcome.ok (cg_log_print "  lea %d(%%rbp), %%rax\n" [FmtArg.int (-8)] CgState.initial) ∧
    gen_addr heap_g_main node_g CgState.initial =
      Outcome.ok (cg_log_print "  lea %s(%%rip), %%rax\n" [FmtArg.str "g"] CgState.initial) ∧
    gen_addr heap_g_main (Node.num 3) CgState.initial =
      Outcome.fail CgError.not_an_lvalue CgState.initial ∧
    gen_expr heap_g_main node_1_assign_2 CgState.initial =
      Outcome.fail CgError.not_an_lvalue CgState.initial :=
  ⟨⟨rfl, rfl, rfl⟩,
   ((c15_gen_addr_lvalues heap_g_main node_a CgState.initial).2.1 rfl (ObjPtr.loc 1 0)
      { Obj.lvar "a" ty_int with offset := -8 } rfl rfl).1 rfl,
   ((c15_gen_addr_lvalues heap_g_main node_g CgState.initial).2.1 rfl (ObjPtr.top 0)
      obj_global_g rfl rfl).2 rfl,
   (c15_gen_addr_lvalues heap_g_main (Node.num 3) CgState.initial).2.2.2.1
     (by decide) (by decide),
   (c15_gen_addr_lvalues heap_g_main node_1_assign_2 CgState.initial).2.2.2.2
     (Or.inr rfl) (Node.num 1) rfl (by decide) (by decide)⟩

/-- C16 (counterexample): the address of the pool, not the offset, is what
`__arena_alloc` aligns.  With the pool at address `0x20010` (a multiple of 16),
an empty arena and a request for 16 bytes aligned to 64, the block starts at
offset 48 and the offset becomes 64, while the next multiple of 64 at or after
the current offset 0 is 0 and the offset of the claim is 16. -/
theorem c16_offset_not_aligned_counterexample :
    ((__arena_alloc 64 0x20010 arena_empty 16 64 false).map
      fun r => (r.1 - 0x20010, r.2.__arena_offset)) = some (48, 64) ∧
    (round_up arena_empty.__arena_offset 64,
      round_up arena_empty.__arena_offset 64 + 16) = (0, 16) := by
  decide

/-- C16 (amended).  For every arena whose offset is within the pool, every size
`n` and power-of-two alignment `2 ^ k` whose address arithmetic does not wrap
(`RequestInRange`): with `start` the next multiple of the alignment at or after
the current address `base + offset`, `__arena_alloc` exits exactly when
`start + n` is past the end of the 128 KiB pool, and otherwise returns `start`,
sets the offset to the end of the block, `start - base + n`, and fills the
block with zeros when zeroing is requested, leaving the other bytes as they
were.  When the address of the pool is a multiple of the alignment, the block
starts at the next multiple of the alignment at or after the current offset.
`xcalloc(c, s)` is this allocation with `n = c * s`, alignment 8 and zeroing. -/
theorem c16_arena_alloc (w base : Nat) (a : Arena) (n k : Nat) (zero_init : Bool)
    (hoff : a.__arena_offset ≤ ARENA_SIZE) (hr : RequestInRange w base n (2 ^ k)) :
    (2 ^ k ∣ round_up (base + a.__arena_offset) (2 ^ k) ∧
      base + a.__arena_offset ≤ round_up (base + a.__arena_offset) (2 ^ k) ∧
      round_up (base + a.__arena_offset) (2 ^ k) < base + a.__arena_offset + 2 ^ k) ∧
    (__arena_alloc w base a n (2 ^ k) zero_init = none ↔
      round_up (base + a.__arena_offset) (2 ^ k) + n > base + ARENA_SIZE) ∧
    (round_up (base + a.__arena_offset) (2 ^ k) + n ≤ base + ARENA_SIZE →
      ∃ buffer, __arena_alloc w base a n (2 ^ k) zero_init =
        some (round_up (base + a.__arena_offset) (2 ^ k),
          { __arena_buffer := buffer,
            __arena_offset := round_up (base + a.__arena_offset) (2 ^ k) - base + n }) ∧
        (zero_init = false → buffer = a.__arena_buffer) ∧
        (zero_init = true → ∀ i, buffer i =
          if round_up (base + a.__arena_offset) (2 ^ k) - base ≤ i ∧
            i < round_up (base + a.__arena_offset) (2 ^ k) - base + n then 0
          else a.__arena_buffer i)) ∧
    (2 ^ k ∣ base →
      round_up (base + a.__arena_offset) (2 ^ k) - base = round_up a.__arena_offset (2 ^ k)) ∧
    (∀ c s, c * s < 2 ^ w → xcalloc w base a c s = __arena_alloc w base a (c * s) 8 true) := by
  have hA : 0 < 2 ^ k := Nat.two_pow_pos k
  have key := arena_alloc_in_range w base a n k zero_init hoff hr
  refine ⟨round_up_spec _ _ hA, ?_, ?_, round_up_add_multiple base _ k, ?_⟩
  · rw [key]
    split_ifs with h1
    · exact ⟨fun _ => h1, fun _ => rfl⟩
    · exact ⟨fun h => h.elim, fun h => absurd h h1⟩
  · intro h1
    rw [key, if_neg (by omega)]
    refine ⟨_, rfl, ?_, ?_⟩
    · intro hz
      rw [hz]
      rfl
    · intro hz i
      rw [hz]
      rfl
  · intro c s hcs
    unfold xcalloc
    rw [umul_of_lt w c s hcs]

/-- C16 (witness): a 64-bit target, the pool at address `0x20000`, five bytes in
use; a zeroed request for 10 bytes aligned to 8 returns the block at offset 8
and moves the offset to 18; `xcalloc(2, 5)` is the zeroed request for 10 bytes
aligned to 8. -/
theorem c16_arena_alloc_witness :
    (arena_five.__arena_offset ≤ ARENA_SIZE ∧ RequestInRange 64 0x20000 10 (2 ^ 3) ∧
      round_up (0x20000 + arena_five.__arena_offset) (2 ^ 3) + 10 ≤ 0x20000 + ARENA_SIZE ∧
      2 ^ 3 ∣ 0x20000) ∧
    round_up (0x20000 + arena_five.__arena_offset) (2 ^ 3) - 0x20000 = 8 ∧
    (__arena_alloc 64 0x20000 arena_five 10 (2 ^ 3) true).map
      (fun r => (r.1, r.2.__arena_offset, r.2.__arena_buffer 7, r.2.__arena_buffer 8,
        r.2.__arena_buffer 17, r.2.__arena_buffer 18)) =
      some (0x20008, 18, 1, 0, 0, 1) ∧
    xcalloc 64 0x20000 arena_five 2 5 = __arena_alloc 64 0x20000 arena_five (2 * 5) 8 true :=
  ⟨⟨by decide, by unfold RequestInRange; decide, by decide, by decide⟩,
   ((c16_arena_alloc 64 0x20000 arena_five 10 3 true (by decide)
      (by unfold RequestInRange; decide)).2.2.2.1 (by decide)).trans (by decide),
   by
     obtain ⟨buffer, h, _, hz⟩ :=
       (c16_arena_alloc 64 0x20000 arena_five 10 3 true (by decide)
         (by unfold RequestInRange; decide)).2.2.1 (by decide)
     rw [h]
     simp only [Option.map, hz rfl]
     decide,
   (c16_arena_alloc 64 0x20000 arena_five 10 3 true (by decide)
     (by unfold RequestInRange; decide)).2.2.2.2 2 5 (by decide)⟩

/-- C18.  For every `ND_FOR` node (`for` or `while`), `gen_stmt` draws one label
number `c`, the value of the counter on entry, and returns exactly when the
parts of the loop are emitted without error; it then has emitted, in order:
the init statement if present; `.L.begin.c:`; if a condition is present, the
code of the condition, `cmp $0, %rax` and `je  .L.end.c`; the body statement;
the increment expression if present; `jmp .L.begin.c`; `.L.end.c:`
(`for_lines`).  For `while (i<10) i=i+1;` the condition part is: the code of
10, `push %rax`, the code of `i`, `pop %rdi`, `cmp %rdi, %rax`, `setl %al`,
`movzb %al, %rax`, `cmp $0, %rax`, `je  .L.end.c`. -/
theorem c18_for_lines (heap : List Obj) (node : Node) (s : CgState)
    (hk : node.kind = NodeKind.ND_FOR) :
    (gen_stmt heap node s).isOk = for_parts_ok heap node s.count_i s.current_fn ∧
    ((gen_stmt heap node s).isOk = true →
      (gen_stmt heap node s).state.trace =
        s.trace ++ for_lines heap node (count s).1 s.current_fn) ∧
    (∀ c : Int,
      lines_if_present stmt_while_i.cond (fun e =>
        expr_lines (codegen prog_while CgState.initial).1 e ++
          [⟨"  cmp $0, %%rax\n", []⟩, ⟨"  je  .L.end.%d\n", [FmtArg.int c]⟩]) =
      expr_lines (codegen prog_while CgState.initial).1 (Node.num 10) ++
        ([line_push] ++ (expr_lines (codegen prog_while CgState.initial).1 (Node.lvar 0 0) ++
        [line_pop "%rdi", ⟨"  cmp %%rdi, %%rax\n", []⟩, ⟨"  setl %%al\n", []⟩,
         ⟨"  movzb %%al, %%rax\n", []⟩, ⟨"  cmp $0, %%rax\n", []⟩,
         ⟨"  je  .L.end.%d\n", [FmtArg.int c]⟩]))) := by
  refine ⟨gen_stmt_for_isOk heap node s hk, ?_, ?_⟩
  · intro h
    exact gen_stmt_for_lines heap node s _ hk (Outcome.eq_ok_of_isOk h)
  · intro c
    have e := expr_lines_lt (codegen prog_while CgState.initial).1
      (Node.binary NodeKind.ND_LT (Node.lvar 0 0) (Node.num 10)) (Node.lvar 0 0) (Node.num 10)
      rfl rfl rfl (by decide) (by decide)
    show expr_lines _ (Node.binary NodeKind.ND_LT (Node.lvar 0 0) (Node.num 10)) ++ _ = _
    rw [e]
    simp only [lt_lines, List.append_assoc, List.cons_append, List.nil_append]

/-- C18 (witness): `while (i<10) i=i+1;` in
`int main() { int i; i=0; while (i<10) i=i+1; return i; }`, with the counter
at 1. -/
theorem c18_for_lines_witness :
    stmt_while_i.kind = NodeKind.ND_FOR ∧
    (gen_stmt (codegen prog_while CgState.initial).1 stmt_while_i CgState.initial).isOk = true ∧
    (gen_stmt (codegen prog_while CgState.initial).1 stmt_while_i CgState.initial).state.trace =
      [⟨".L.begin.%d:\n", [FmtArg.int 1]⟩,
       ⟨"  mov $%d, %%rax\n", [FmtArg.int 10]⟩,
       ⟨"  push %%rax\n", []⟩,
       ⟨"  lea %d(%%rbp), %%rax\n", [FmtArg.int (-8)]⟩,
       ⟨"  mov (%%rax), %%rax\n", []⟩,
       ⟨"  pop %s\n", [FmtArg.str "%rdi"]⟩,
       ⟨"  cmp %%rdi, %%rax\n", []⟩,
       ⟨"  setl %%al\n", []⟩,
       ⟨"  movzb %%al, %%rax\n", []⟩,
       ⟨"  cmp $0, %%rax\n", []⟩,
       ⟨"  je  .L.end.%d\n", [FmtArg.int 1]⟩,
       ⟨"  lea %d(%%rbp), %%rax\n", [FmtArg.int (-8)]⟩,
       ⟨"  push %%rax\n", []⟩,
       ⟨"  mov $%d, %%rax\n", [FmtArg.int 1]⟩,
       ⟨"  push %%rax\n", []⟩,
       ⟨"  lea %d(%%rbp), %%rax\n", [FmtArg.int (-8)]⟩,
       ⟨"  mov (%%rax), %%rax\n", []⟩,
       ⟨"  pop %s\n", [FmtArg.str "%rdi"]⟩,
       ⟨"  add %%rdi, %%rax\n", []⟩,
       ⟨"  pop %s\n", [FmtArg.str "%rdi"]⟩,
       ⟨"  mov %%rax, (%%rdi)\n", []⟩,
       ⟨"  jmp .L.begin.%d\n", [FmtArg.int 1]⟩,
       ⟨".L.end.%d:\n", [FmtArg.int 1]⟩] :=
  ⟨rfl, by decide,
   ((c18_for_lines (codegen prog_while CgState.initial).1 stmt_while_i CgState.initial rfl).2.1
     (by decide)).trans (by decide)⟩

/-- C19.  For every type `ty`: `load(ty)` emits nothing when `ty` is an array,
`movsbq (%rax), %rax` when it is not an array and has size 1, and
`mov (%rax), %rax` otherwise; `store(ty)` emits `pop %rdi` and then
`mov %al, (%rdi)` when `ty` has size 1 and `mov %rax, (%rdi)` otherwise.  An
`ND_ASSIGN` node of type `ty` whose two sides are emitted without error emits
the address of the left side, `push %rax`, the code of the right side,
`pop %rdi` and the store selected by `ty`. -/
theorem c19_load_store_assign (heap : List Obj) (ty : CType) (s : CgState) :
    (ty.kind = TypeKind.TY_ARRAY → load (some ty) s = Outcome.ok s) ∧
    (ty.kind ≠ TypeKind.TY_ARRAY → ty.size = 1 →
      load (some ty) s = Outcome.ok (cg_log_print "  movsbq (%%rax), %%rax\n" [] s)) ∧
    (ty.kind ≠ TypeKind.TY_ARRAY → ty.size ≠ 1 →
      load (some ty) s = Outcome.ok (cg_log_print "  mov (%%rax), %%rax\n" [] s)) ∧
    (ty.size = 1 →
      store (some ty) s = Outcome.ok (cg_log_print "  mov %%al, (%%rdi)\n" [] (pop "%rdi" s))) ∧
    (ty.size ≠ 1 →
      store (some ty) s = Outcome.ok (cg_log_print "  mov %%rax, (%%rdi)\n" [] (pop "%rdi" s))) ∧
    (∀ node l r : Node, node.kind = NodeKind.ND_ASSIGN → node.lhs = some l →
      node.rhs = some r → node.ty = some ty →
      (gen_addr heap l CgState.initial).isOk = true →
      (gen_expr heap r CgState.initial).isOk = true →
      (gen_expr heap node s).isOk = true ∧
      (gen_expr heap node s).state.trace =
        s.trace ++ (addr_lines heap l ++ ([line_push] ++ (expr_lines heap r ++
          [line_pop "%rdi", store_line ty])))) := by
  refine ⟨?_, ?_, ?_, ?_, ?_, ?_⟩
  · intro h
    simp only [load, h, if_true]
  · intro h1 h2
    simp only [load, h1, h2, if_false, if_true]
  · intro h1 h2
    simp only [load, h1, h2, if_false]
  · intro h
    simp only [store, h, if_true]
  · intro h
    simp only [store, h, if_false]
  · intro node l r hk hl hr hty okl okr
    exact gen_expr_assign heap node l r ty s hk hl hr hty okl okr

/-- C19 (witness): `a = 3` on the `int` local `a` at offset -8 emits
`lea -8(%rbp), %rax; push %rax; mov $3, %rax; pop %rdi; mov %rax, (%rdi)`;
loading an `int` is `mov (%rax), %rax`, loading a `char` `movsbq`, loading an
array nothing. -/
theorem c19_load_store_assign_witness :
    (node_a_assign_3.kind = NodeKind.ND_ASSIGN ∧ node_a_assign_3.lhs = some node_a ∧
      node_a_assign_3.rhs = some (Node.num 3) ∧ node_a_assign_3.ty = some ty_int ∧
      (gen_addr heap_g_main node_a CgState.initial).isOk = true ∧
      (gen_expr heap_g_main (Node.num 3) CgState.initial).isOk = true) ∧
    (gen_expr heap_g_main node_a_assign_3 CgState.initial).state.trace =
      [⟨"  lea %d(%%rbp), %%rax\n", [FmtArg.int (-8)]⟩, ⟨"  push %%rax\n", []⟩,
       ⟨"  mov $%d, %%rax\n", [FmtArg.int 3]⟩, ⟨"  pop %s\n", [FmtArg.str "%rdi"]⟩,
       ⟨"  mov %%rax, (%%rdi)\n", []⟩] ∧
    load (some ty_int) CgState.initial =
      Outcome.ok (cg_log_print "  mov (%%rax), %%rax\n" [] CgState.initial) ∧
    load (some ty_char) CgState.initial =
      Outcome.ok (cg_log_print "  movsbq (%%rax), %%rax\n" [] CgState.initial) ∧
    load (some (array_of ty_char 1)) CgState.initial = Outcome.ok CgState.initial ∧
    store (some ty_char) CgState.initial =
      Outcome.ok (cg_log_print "  mov %%al, (%%rdi)\n" [] (pop "%rdi" CgState.initial)) ∧
    store (some ty_int) CgState.initial =
      Outcome.ok (cg_log_print "  mov %%rax, (%%rdi)\n" [] (pop "%rdi" CgState.initial)) :=
  ⟨⟨rfl, rfl, rfl, rfl, by decide, by decide⟩,
   ((c19_load_store_assign heap_g_main ty_int CgState.initial).2.2.2.2.2 node_a_assign_3 node_a
      (Node.num 3) rfl rfl rfl rfl (by decide) (by decide)).2.trans (by decide),
   (c19_load_store_assign heap_g_main ty_int CgState.initial).2.2.1 (by decide) (by decide),
   (c19_load_store_assign heap_g_main ty_char CgState.initial).2.1 (by decide) (by decide),
   (c19_load_store_assign heap_g_main (array_of ty_char 1) CgState.initial).1 (by decide),
   (c19_load_store_assign heap_g_main ty_char CgState.initial).2.2.2.1 (by decide),
   (c19_load_store_assign heap_g_main ty_int CgState.initial).2.2.2.2.1 (by decide)⟩

/-- C20.  For every sequence of byte strings appended with `__cg_append_bytes`
to a log that was just reset, and so for the strings of any sequence of
`cg_log_print` calls, each of which has at most 1023 bytes: the log size never
exceeds the capacity and is `min(total, capacity)` for the sum `total` of the
lengths; the contents are the first `min(total, capacity)` bytes of the
concatenation of the strings; no byte already in the log is changed by later
appends; and `cg_log_reset` sets the size to 0. -/
theorem c20_log_append_invariant (log : CgLog) (strs later : List (List Byte))
    (trace : List PrintCall) (s : CgState) (h : log.__cg_len = 0) :
    (append_all log strs).__cg_len ≤ CG_BUF_SIZE ∧
    (append_all log strs).__cg_len = min (strs.map List.length).sum CG_BUF_SIZE ∧
    (append_all log strs).contents =
      strs.flatten.take (min (strs.map List.length).sum CG_BUF_SIZE) ∧
    (∀ i, i < (append_all log strs).__cg_len →
      (append_all log (strs ++ later)).__cg_buf i = (append_all log strs).__cg_buf i) ∧
    (replay log trace = append_all log (trace.map line_bytes) ∧
      ∀ p ∈ trace, (line_bytes p).length ≤ 1023) ∧
    cg_log_size (cg_log_reset s).log = 0 := by
  have hle : log.__cg_len ≤ CG_BUF_SIZE := by rw [h]; exact Nat.zero_le _
  have h0 : log.contents = [] := by simp [CgLog.contents, Bytes.firstN, h]
  refine ⟨append_all_len_le strs log hle, append_all_len log strs h, ?_, ?_,
    ⟨replay_eq_append_all trace log, ?_⟩, rfl⟩
  · rw [append_all_contents strs log hle, h0, List.nil_append, ← List.length_flatten]
    by_cases hc : strs.flatten.length ≤ CG_BUF_SIZE
    · rw [Nat.min_eq_left hc, List.take_of_length_le hc, List.take_of_length_le (le_refl _)]
    · rw [Nat.min_eq_right (by omega)]
  · intro i hi
    rw [append_all_append]
    exact append_all_prefix _ later (append_all_len_le strs log hle) i hi
  · intro p _
    unfold line_bytes
    rw [List.length_take]
    exact Nat.min_le_left _ _

/-- C20 (witness): appending "ab" and then "c" to the log of the process start
gives the contents "abc"; a later "d" leaves the first three bytes as they
are. -/
theorem c20_log_append_invariant_witness :
    CgState.initial.log.__cg_len = 0 ∧
    (append_all CgState.initial.log [str_bytes "ab", str_bytes "c"]).contents =
      str_bytes "abc" ∧
    (append_all CgState.initial.log [str_bytes "ab", str_bytes "c"]).__cg_len = 3 ∧
    (∀ i, i < (append_all CgState.initial.log [str_bytes "ab", str_bytes "c"]).__cg_len →
      (append_all CgState.initial.log
        ([str_bytes "ab", str_bytes "c"] ++ [str_bytes "d"])).__cg_buf i =
      (append_all CgState.initial.log [str_bytes "ab", str_bytes "c"]).__cg_buf i) :=
  ⟨rfl,
   (c20_log_append_invariant CgState.initial.log [str_bytes "ab", str_bytes "c"]
     [str_bytes "d"] [] CgState.initial rfl).2.2.1.trans (by decide),
   (c20_log_append_invariant CgState.initial.log [str_bytes "ab", str_bytes "c"]
     [str_bytes "d"] [] CgState.initial rfl).2.1.trans (by decide),
   (c20_log_append_invariant CgState.initial.log [str_bytes "ab", str_bytes "c"]
     [str_bytes "d"] [] CgState.initial rfl).2.2.2.1⟩

end Chibicc
